import Mathlib

/-!
# Trust admission controller (`pkg/controller/notary/controller.go`)

A shallow embedding of `Controller.Admit` and `Controller.mutatePodSpec`.

* The collaborators of the controller (image reference parser, policy client,
  kube wrapper, registry client, signer resolver, trust lookup) are fields of
  an environment `Env`.  Each of them receives the events recorded so far, so
  that a collaborator may answer differently on each invocation.
* The three nested, labelled Go loops are structural recursions over the
  lists they range over; `continue`/`break`/`return` are explicit flow values.
* Every collaborator invocation and every action on the admission responder is
  appended to an event log, tagged with the container it was made for.  The
  log is instrumentation only: no branch of the code reads it.
-/

namespace Notary

/-! ## Go values -/

/-- A Go `error` value: the text of `err.Error()` and whether the dynamic type
of the value is `store.ErrServerUnavailable` (the type assertion of line 173). -/
structure GoError where
  msg : String
  serverUnavailable : Bool
  deriving DecidableEq

/-- The method `err.Error()`. -/
def GoError.Error (err : GoError) : String := err.msg

/-- Whether `sub` is an initial segment of `s`. -/
def startsWith : List Char → List Char → Bool
  | _, [] => true
  | [], _ :: _ => false
  | c :: cs, d :: ds => c == d && startsWith cs ds

/-- Whether `sub` occurs in `s` as a contiguous block. -/
def containsChars : List Char → List Char → Bool
  | [], sub => startsWith [] sub
  | c :: cs, sub => startsWith (c :: cs) sub || containsChars cs sub

/-- Go `strings.Contains(s, substr)`. -/
def stringsContains (s substr : String) : Bool := containsChars s.data substr.data

/-- One lower-case hexadecimal digit. -/
def hexDigit (n : Nat) : Char :=
  if n < 10 then Char.ofNat (48 + n) else Char.ofNat (87 + n)

/-- Two hexadecimal digits of a byte. -/
def hexByte (b : Nat) : List Char := [hexDigit (b / 16 % 16), hexDigit (b % 16)]

/-- The escape sequence Go `strconv.Quote` writes for one rune.  `isPrint` is
`unicode.IsPrint` on the code points above U+00FF (a table of the Go runtime). -/
def quoteRune (isPrint : Char → Bool) (r : Char) : List Char :=
  let n := r.toNat
  if n = 34 ∨ n = 92 then ['\\', r]
  else if (32 ≤ n ∧ n < 127) ∨ (161 ≤ n ∧ n ≤ 255 ∧ n ≠ 173) ∨ (255 < n ∧ isPrint r = true) then [r]
  else if n = 7 then ['\\', 'a']
  else if n = 8 then ['\\', 'b']
  else if n = 12 then ['\\', 'f']
  else if n = 10 then ['\\', 'n']
  else if n = 13 then ['\\', 'r']
  else if n = 9 then ['\\', 't']
  else if n = 11 then ['\\', 'v']
  else if n < 32 ∨ n = 127 then '\\' :: 'x' :: hexByte n
  else if n < 65536 then '\\' :: 'u' :: (hexByte (n / 256) ++ hexByte n)
  else '\\' :: 'U' :: (hexByte (n / 16777216) ++ hexByte (n / 65536) ++ hexByte (n / 256) ++ hexByte n)

/-- The `%q` verb of `fmt.Sprintf` on a string: `strconv.Quote`. -/
def goQuote (isPrint : Char → Bool) (s : String) : String :=
  String.mk ('"' :: (s.data.flatMap (quoteRune isPrint) ++ ['"']))

/-- Go `strconv.Itoa` on a non-negative index. -/
def strconvItoa (n : Nat) : String := Nat.repr n

/-! ## Data model -/

/-- The methods of a parsed `image.Reference` that the controller calls. -/
structure Reference where
  /-- `img.String()`, the canonical image string -/
  Str : String
  /-- `img.GetHostname()` -/
  GetHostname : String
  /-- `img.NameWithoutTag()` -/
  NameWithoutTag : String
  /-- `img.NameWithTag()` -/
  NameWithTag : String
  /-- `img.GetTag()` -/
  GetTag : String
  /-- `img.GetRegistryURL()` -/
  GetRegistryURL : String
  /-- `img.GetContentTrustURL()` -/
  GetContentTrustURL : Except GoError String

/-- `corev1.LocalObjectReference` and the policy's signer-secret reference. -/
structure SecretRef where
  Name : String

/-- The `Trust` section of a policy.  `Enabled` is a `*bool` and
`SignerSecrets` a slice that may be `nil`. -/
structure TrustPolicy where
  Enabled : Option Bool
  TrustServer : String
  SignerSecrets : Option (List SecretRef)

/-- `securityenforcementv1beta1.Policy`, as far as the trust controller reads it. -/
structure Policy where
  Trust : TrustPolicy

/-- Modelled from the spec: the `Signer` type of this package is declared in a
file that is not part of the sources; a resolved signer identity. -/
structure Signer where
  signer : String
  publicKey : String

/-- Modelled from the spec: the digest returned by the trust lookup, the bytes
of the content hash; `digest.String()` renders them as a hex string. -/
structure Digest where
  bytes : List Nat

/-- The method `digest.String()`: lower-case hexadecimal of the bytes. -/
def Digest.String (d : Digest) : String := String.mk (d.bytes.flatMap (fun b => hexByte (b % 256)))

/-- `corev1.Container`. -/
structure Container where
  Image : String

/-- `corev1.PodSpec`. -/
structure PodSpec where
  InitContainers : List Container
  Containers : List Container
  ImagePullSecrets : List SecretRef

/-- `types.JSONPatch`. -/
structure JSONPatch where
  Op : String
  Path : String
  Value : String
  deriving DecidableEq

/-- `admissionv1beta1.AdmissionResponse`: the allowed flag, the patch bytes
(`none` when unset) and `Result.Message` (`none` when `Result` is nil). -/
structure AdmissionResponse where
  Allowed : Bool
  Patch : Option String
  Message : Option String
  deriving DecidableEq

/-! ## Admission responder -/

/-- Modelled from the spec: `webhook.AdmissionResponder` (package `pkg/webhook`,
not part of the sources), the accumulator of one evaluation: allowed flag,
ordered list of denial messages, and the patch payload. -/
structure AdmissionResponder where
  allowed : Bool
  errors : List String
  patch : Option String

/-- The zero value `&webhook.AdmissionResponder{}`. -/
def AdmissionResponder.new : AdmissionResponder := { allowed := false, errors := [], patch := none }

/-- Modelled from the spec: `StringToAdmissionResponse` records one denial
message, keeping the order. -/
def AdmissionResponder.StringToAdmissionResponse (a : AdmissionResponder) (msg : String) :
    AdmissionResponder :=
  { a with errors := a.errors ++ [msg] }

/-- Modelled from the spec: `ToAdmissionResponse` records the text of an error
as a denial. -/
def AdmissionResponder.ToAdmissionResponse (a : AdmissionResponder) (err : GoError) :
    AdmissionResponder :=
  a.StringToAdmissionResponse err.Error

/-- Modelled from the spec: `SetAllowed` raises the allowed flag. -/
def AdmissionResponder.SetAllowed (a : AdmissionResponder) : AdmissionResponder :=
  { a with allowed := true }

/-- Modelled from the spec: `IsAllowed` reads the allowed flag. -/
def AdmissionResponder.IsAllowed (a : AdmissionResponder) : Bool := a.allowed

/-- Modelled from the spec: `HasErrors` tells whether a denial was recorded. -/
def AdmissionResponder.HasErrors (a : AdmissionResponder) : Bool := !a.errors.isEmpty

/-- Modelled from the spec: `SetPatch` stores the serialised patch. -/
def AdmissionResponder.SetPatch (a : AdmissionResponder) (p : String) : AdmissionResponder :=
  { a with patch := some p }

/-- Modelled from the spec: `Flush` renders the decision.  With a denial
recorded the response is denied, carries no patch, and its message is the
denials joined by newlines after a leading newline (the tests compare the
message with the newline followed by the single denial); with no denial the
response is allowed and carries the stored patch. -/
def AdmissionResponder.Flush (a : AdmissionResponder) : AdmissionResponse :=
  if a.HasErrors then
    { Allowed := false, Patch := none, Message := some ("\n" ++ "\n".intercalate a.errors) }
  else
    { Allowed := true, Patch := a.patch, Message := none }

/-! ## Event log -/

/-- The container an event belongs to: the container type of the outer loop
and the index of the container loop. -/
structure Slot where
  containerType : String
  containerIndex : Nat
  deriving DecidableEq

/-- What the evaluation did, in order. The first six are collaborator
invocations with their arguments and result. -/
inductive Event where
  | NewReference (slot : Slot) (raw : String) (res : Except GoError Reference)
  | GetPolicyToEnforce (slot : Slot) (ns image : String)
      (res : Except GoError (Option Policy))
  | GetSecretToken (slot : Slot) (ns secret hostname : String)
      (res : Except GoError (String × String))
  | GetContentTrustToken (slot : Slot) (username password repo registryURL : String)
      (res : Except GoError String)
  | getSignerSecret (slot : Slot) (ns secret : String) (res : Except GoError Signer)
  | getDigest (slot : Slot) (server repo token tag : String) (signers : Option (List Signer))
      (res : Except GoError Digest)
  | deny (slot : Slot) (msg : String)
  | setAllowed (slot : Slot)
  | patch (slot : Slot) (op : JSONPatch)
  | denyRequest (msg : String)

/-- The collaborators of the controller.  The first argument of each is the
log of the events so far. -/
structure Env where
  /-- `image.NewReference` -/
  NewReference : List Event → String → Except GoError Reference
  /-- `policyClient.GetPolicyToEnforce(namespace, image)` -/
  GetPolicyToEnforce : List Event → String → String → Except GoError (Option Policy)
  /-- `kubeClientsetWrapper.GetSecretToken(namespace, secretName, hostname)` -/
  GetSecretToken : List Event → String → String → String → Except GoError (String × String)
  /-- `cr.GetContentTrustToken(username, password, repo, registryURL)` -/
  GetContentTrustToken : List Event → String → String → String → String → Except GoError String
  /-- `c.getSignerSecret(namespace, secretName)` -/
  getSignerSecret : List Event → String → String → Except GoError Signer
  /-- `c.getDigest(server, repo, token, tag, signers)` -/
  getDigest : List Event → String → String → String → String → Option (List Signer) →
    Except GoError Digest
  /-- `json.Marshal` on the patch list -/
  jsonMarshal : List JSONPatch → Except GoError String
  /-- `unicode.IsPrint` above U+00FF, used by the `%q` verb -/
  isPrint : Char → Bool

/-! ## State of one evaluation -/

/-- The local variables `a` and `patches` of `mutatePodSpec`, and the log. -/
structure St where
  a : AdmissionResponder
  patches : List JSONPatch
  log : List Event

/-- Append a collaborator invocation to the log. -/
def St.record (s : St) (e : Event) : St := { s with log := s.log ++ [e] }

/-- The statement `a.StringToAdmissionResponse(msg)` made for a container. -/
def St.deny (s : St) (slot : Slot) (msg : String) : St :=
  { s with a := s.a.StringToAdmissionResponse msg, log := s.log ++ [Event.deny slot msg] }

/-- The statement `a.StringToAdmissionResponse(msg)` made outside the container loop. -/
def St.denyRequest (s : St) (msg : String) : St :=
  { s with a := s.a.StringToAdmissionResponse msg, log := s.log ++ [Event.denyRequest msg] }

/-- The statement `a.SetAllowed()` made for a container. -/
def St.setAllowed (s : St) (slot : Slot) : St :=
  { s with a := s.a.SetAllowed, log := s.log ++ [Event.setAllowed slot] }

/-- The statement `patches = append(patches, op)`. -/
def St.addPatch (s : St) (slot : Slot) (op : JSONPatch) : St :=
  { s with patches := s.patches ++ [op], log := s.log ++ [Event.patch slot op] }

/-! ## `mutatePodSpec` -/

/-- How one iteration of `secretLoop` ends. -/
inductive SecretFlow where
  /-- `continue secretLoop`, or the end of the loop body -/
  | continueSecretLoop
  /-- `continue containerLoop` -/
  | continueContainerLoop
  /-- `break secretLoop` -/
  | breakSecretLoop
  /-- `return a.Flush()` -/
  | returnFlush
  deriving DecidableEq

/-- How one iteration of `containerLoop` ends: the loop goes on, or the
function returns `a.Flush()`. -/
inductive Flow where
  | next
  | returnFlush
  deriving DecidableEq

/-- The condition of line 113: trust is not enforced when the policy is nil
or `Trust.Enabled` is nil or false. -/
def trustNotEnforced (policy : Option Policy) : Bool :=
  match policy with
  | none => true
  | some p => !(p.Trust.Enabled.isSome && p.Trust.Enabled == some true)

/-- Lines 155-161: resolve every signer secret in order into `signers`;
the first failure is returned. -/
def signerLoop (env : Env) (ns : String) (slot : Slot) :
    List SecretRef → List Signer → St → Except GoError (List Signer) × St
  | [], signers, s => (Except.ok signers, s)
  | secretName :: rest, signers, s =>
    let r := env.getSignerSecret s.log ns secretName.Name
    let s1 := s.record (Event.getSignerSecret slot ns secretName.Name r)
    match r with
    | Except.error err => (Except.error err, s1)
    | Except.ok signer => signerLoop env ns slot rest (signers ++ [signer]) s1

/-- Lines 151-162: `signers` stays nil when the policy has no signer secrets. -/
def resolveSigners (env : Env) (ns : String) (slot : Slot) (policy : Policy) (s : St) :
    Except GoError (Option (List Signer)) × St :=
  match policy.Trust.SignerSecrets with
  | none => (Except.ok none, s)
  | some secrets =>
    match signerLoop env ns slot secrets [] s with
    | (Except.error err, s1) => (Except.error err, s1)
    | (Except.ok signers, s1) => (Except.ok (some signers), s1)

/-- Lines 130-137: the trust server of the policy, or the default of the image
when the policy names none. -/
def notaryURL (policy : Policy) (img : Reference) : Except GoError String :=
  if policy.Trust.TrustServer = "" then img.GetContentTrustURL
  else Except.ok policy.Trust.TrustServer

/-- Lines 183-187: the patch operation for a container. -/
def patchFor (specPath : String) (slot : Slot) (img : Reference) (digest : Digest) : JSONPatch :=
  { Op := "replace",
    Path := specPath ++ "/" ++ slot.containerType ++ "/" ++
      strconvItoa slot.containerIndex ++ "/image",
    Value := img.NameWithTag ++ "@sha256:" ++ digest.String }

/-- Lines 180-190: the lookup succeeded; emit the patch when the raw image
contains the canonical string, mark allowed. -/
def onDigest (specPath : String) (slot : Slot) (container : Container) (img : Reference)
    (digest : Digest) (s : St) : St :=
  let s1 :=
    if stringsContains container.Image img.Str then s.addPatch slot (patchFor specPath slot img digest)
    else s
  s1.setAllowed slot

/-- Lines 129-190: the body of `secretLoop` for one pull secret. -/
def secretBody (env : Env) (ns specPath : String) (slot : Slot) (container : Container)
    (img : Reference) (policy : Policy) (secret : SecretRef) (s : St) : SecretFlow × St :=
  match notaryURL policy img with
  | Except.error err =>
    (SecretFlow.continueContainerLoop,
      s.deny slot ("Trust Server/Image Configuration Error: " ++ err.Error))
  | Except.ok server =>
    let r1 := env.GetSecretToken s.log ns secret.Name img.GetHostname
    let s1 := s.record (Event.GetSecretToken slot ns secret.Name img.GetHostname r1)
    match r1 with
    | Except.error _ => (SecretFlow.continueSecretLoop, s1)
    | Except.ok (username, password) =>
      let r2 := env.GetContentTrustToken s1.log username password img.NameWithoutTag
        img.GetRegistryURL
      let s2 := s1.record (Event.GetContentTrustToken slot username password
        img.NameWithoutTag img.GetRegistryURL r2)
      match r2 with
      | Except.error _ => (SecretFlow.continueSecretLoop, s2)
      | Except.ok notaryToken =>
        match resolveSigners env ns slot policy s2 with
        | (Except.error err, s3) =>
          (SecretFlow.continueContainerLoop,
            s3.deny slot ("Deny " ++ goQuote env.isPrint img.Str ++
              ", could not get signerSecret from your cluster, " ++ err.Error))
        | (Except.ok signers, s3) =>
          let r4 := env.getDigest s3.log server img.NameWithoutTag notaryToken img.GetTag
            signers
          let s4 := s3.record (Event.getDigest slot server img.NameWithoutTag notaryToken
            img.GetTag signers r4)
          match r4 with
          | Except.error err =>
            if stringsContains err.Error "401" then (SecretFlow.continueSecretLoop, s4)
            else
              let s5 := s4.deny slot ("Deny " ++ goQuote env.isPrint img.Str ++
                ", failed to get content trust information: " ++ err.Error)
              if err.serverUnavailable then (SecretFlow.returnFlush, s5)
              else (SecretFlow.continueContainerLoop, s5)
          | Except.ok digest =>
            (SecretFlow.breakSecretLoop, onDigest specPath slot container img digest s4)

/-- Lines 128-194: `secretLoop` over the pull secrets, and the check made
after it when the loop ends or is left by `break`. -/
def secretLoop (env : Env) (ns specPath : String) (slot : Slot) (container : Container)
    (img : Reference) (policy : Policy) : List SecretRef → St → Flow × St
  | [], s =>
    if !s.a.IsAllowed then
      (Flow.next, s.deny slot ("Deny " ++ goQuote env.isPrint img.Str ++
        ", no valid ImagePullSecret defined for " ++ img.GetHostname))
    else (Flow.next, s)
  | secret :: rest, s =>
    match secretBody env ns specPath slot container img policy secret s with
    | (SecretFlow.continueSecretLoop, s1) =>
      secretLoop env ns specPath slot container img policy rest s1
    | (SecretFlow.continueContainerLoop, s1) => (Flow.next, s1)
    | (SecretFlow.returnFlush, s1) => (Flow.returnFlush, s1)
    | (SecretFlow.breakSecretLoop, s1) =>
      if !s1.a.IsAllowed then
        (Flow.next, s1.deny slot ("Deny " ++ goQuote env.isPrint img.Str ++
          ", no valid ImagePullSecret defined for " ++ img.GetHostname))
      else (Flow.next, s1)

/-- Lines 100-195: the body of `containerLoop` for one container. -/
def containerBody (env : Env) (ns specPath : String) (pod : PodSpec) (slot : Slot)
    (container : Container) (s : St) : Flow × St :=
  let r0 := env.NewReference s.log container.Image
  let s0 := s.record (Event.NewReference slot container.Image r0)
  match r0 with
  | Except.error _ =>
    (Flow.next, s0.deny slot ("Deny " ++ goQuote env.isPrint container.Image ++
      ", invalid image name"))
  | Except.ok img =>
    let r1 := env.GetPolicyToEnforce s0.log ns img.Str
    let s1 := s0.record (Event.GetPolicyToEnforce slot ns img.Str r1)
    match r1 with
    | Except.error err => (Flow.next, s1.deny slot err.Error)
    | Except.ok none => (Flow.next, s1.setAllowed slot)
    | Except.ok (some policy) =>
      if trustNotEnforced (some policy) then (Flow.next, s1.setAllowed slot)
      else if pod.ImagePullSecrets.length = 0 then
        (Flow.next, s1.deny slot ("Deny " ++ goQuote env.isPrint img.Str ++
          ", no ImagePullSecret defined for " ++ img.GetHostname))
      else secretLoop env ns specPath slot container img policy pod.ImagePullSecrets s1

/-- Lines 99-195: `containerLoop`, from index `containerIndex` on. -/
def containerLoop (env : Env) (ns specPath : String) (pod : PodSpec) (containerType : String) :
    Nat → List Container → St → Flow × St
  | _, [], s => (Flow.next, s)
  | containerIndex, container :: rest, s =>
    match containerBody env ns specPath pod ⟨containerType, containerIndex⟩ container s with
    | (Flow.returnFlush, s1) => (Flow.returnFlush, s1)
    | (Flow.next, s1) => containerLoop env ns specPath pod containerType (containerIndex + 1) rest s1

/-- Lines 88-97: the containers selected by the container type. -/
def containersOf (pod : PodSpec) (containerType : String) : Option (List Container) :=
  if containerType = "initContainers" then some pod.InitContainers
  else if containerType = "containers" then some pod.Containers
  else none

/-- Lines 87-196: the loop over the container types. -/
def typeLoop (env : Env) (ns specPath : String) (pod : PodSpec) : List String → St → Flow × St
  | [], s => (Flow.next, s)
  | containerType :: rest, s =>
    match containersOf pod containerType with
    | none => (Flow.returnFlush, s.denyRequest "Unhandled container type")
    | some containers =>
      match containerLoop env ns specPath pod containerType 0 containers s with
      | (Flow.returnFlush, s1) => (Flow.returnFlush, s1)
      | (Flow.next, s1) => typeLoop env ns specPath pod rest s1

/-- Lines 198-214: the end of `mutatePodSpec`, after the loops. -/
def finish (env : Env) (s : St) : AdmissionResponse × List Event :=
  if s.a.HasErrors then (s.a.Flush, s.log)
  else if s.patches.length > 0 then
    match env.jsonMarshal s.patches with
    | Except.error err =>
      let s1 := s.denyRequest ("Invalid Patch: " ++ err.Error)
      (s1.a.Flush, s1.log)
    | Except.ok jsonPatch => ((s.a.SetAllowed.SetPatch jsonPatch).Flush, s.log)
  else (s.a.Flush, s.log)

/-- Lines 82-215, started in state `s`: the response and the event log. -/
def mutatePodSpecFrom (env : Env) (ns specPath : String) (pod : PodSpec) (s : St) :
    AdmissionResponse × List Event :=
  match typeLoop env ns specPath pod ["initContainers", "containers"] s with
  | (Flow.returnFlush, s1) => (s1.a.Flush, s1.log)
  | (Flow.next, s1) => finish env s1

/-- The function `mutatePodSpec` with its event log. -/
def mutatePodSpecRun (env : Env) (ns specPath : String) (pod : PodSpec) :
    AdmissionResponse × List Event :=
  mutatePodSpecFrom env ns specPath pod { a := AdmissionResponder.new, patches := [], log := [] }

/-- The function `mutatePodSpec`: the admission response. -/
def mutatePodSpec (env : Env) (ns specPath : String) (pod : PodSpec) : AdmissionResponse :=
  (mutatePodSpecRun env ns specPath pod).1

/-- The events of a run of `mutatePodSpec`. -/
def mutatePodSpecLog (env : Env) (ns specPath : String) (pod : PodSpec) : List Event :=
  (mutatePodSpecRun env ns specPath pod).2

/-! ## `Admit` -/

/-- The error of `GetPodSpec`, as the `switch` of `Admit` tells it apart. -/
inductive PodSpecError where
  | ErrObjectHasParents
  | ErrObjectHasZeroReplicas
  | other (err : GoError)

/-- `admissionv1beta1.AdmissionRequest`, as far as `Admit` reads it. -/
structure AdmissionRequest where
  Namespace : String

/-- Lines 64-81: `Controller.Admit`; `GetPodSpec` is the kube wrapper's method. -/
def Admit (env : Env) (GetPodSpec : AdmissionRequest → Except PodSpecError (String × PodSpec))
    (admissionRequest : AdmissionRequest) : AdmissionResponse × List Event :=
  match GetPodSpec admissionRequest with
  | Except.ok (podSpecLocation, ps) =>
    mutatePodSpecRun env admissionRequest.Namespace podSpecLocation ps
  | Except.error PodSpecError.ErrObjectHasParents =>
    ({ Allowed := true, Patch := none, Message := none }, [])
  | Except.error PodSpecError.ErrObjectHasZeroReplicas =>
    ({ Allowed := true, Patch := none, Message := none }, [])
  | Except.error (PodSpecError.other err) =>
    ((AdmissionResponder.new.ToAdmissionResponse err).Flush, [])

/-! ## Reading the event log -/

/-- The container an event was recorded for. -/
def Event.slot : Event → Option Slot
  | Event.NewReference σ _ _ => some σ
  | Event.GetPolicyToEnforce σ _ _ _ => some σ
  | Event.GetSecretToken σ _ _ _ _ => some σ
  | Event.GetContentTrustToken σ _ _ _ _ _ => some σ
  | Event.getSignerSecret σ _ _ _ => some σ
  | Event.getDigest σ _ _ _ _ _ _ => some σ
  | Event.deny σ _ => some σ
  | Event.setAllowed σ => some σ
  | Event.patch σ _ => some σ
  | Event.denyRequest _ => none

/-- Whether the event is the invocation of a collaborator. -/
def Event.isCall : Event → Bool
  | Event.NewReference _ _ _ => true
  | Event.GetPolicyToEnforce _ _ _ _ => true
  | Event.GetSecretToken _ _ _ _ _ => true
  | Event.GetContentTrustToken _ _ _ _ _ _ => true
  | Event.getSignerSecret _ _ _ _ => true
  | Event.getDigest _ _ _ _ _ _ _ => true
  | _ => false

/-- Whether the event is a trust lookup. -/
def Event.isGetDigest : Event → Bool
  | Event.getDigest _ _ _ _ _ _ _ => true
  | _ => false

/-- Whether the event is one of the credential, signer or trust invocations. -/
def Event.isTrustCall : Event → Bool
  | Event.GetSecretToken _ _ _ _ _ => true
  | Event.GetContentTrustToken _ _ _ _ _ _ => true
  | Event.getSignerSecret _ _ _ _ => true
  | Event.getDigest _ _ _ _ _ _ _ => true
  | _ => false

/-- The denial message an event records, if it records one. -/
def Event.denial : Event → Option String
  | Event.deny _ msg => some msg
  | Event.denyRequest msg => some msg
  | _ => none

/-- The slot of a denial recorded for a container. -/
def Event.denySlot : Event → Option Slot
  | Event.deny σ _ => some σ
  | _ => none

/-- The patch operation an event emits, if it emits one. -/
def Event.patchOp : Event → Option JSONPatch
  | Event.patch _ op => some op
  | _ => none

/-- Whether the event marks a container allowed. -/
def Event.isSetAllowed : Event → Bool
  | Event.setAllowed _ => true
  | _ => false

/-- A lookup error of the server-unavailable class that is not of the
unauthorized class: the error that makes `mutatePodSpec` return. -/
def GoError.isOutage (err : GoError) : Bool :=
  err.serverUnavailable && !stringsContains err.Error "401"

/-- Whether the event is a trust lookup that failed with an outage. -/
def Event.isOutage : Event → Bool
  | Event.getDigest _ _ _ _ _ _ (Except.error err) => err.isOutage
  | _ => false

/-- Whether the event is a trust lookup that returned a digest. -/
def Event.isDigestOk : Event → Bool
  | Event.getDigest _ _ _ _ _ _ (Except.ok _) => true
  | _ => false

/-- The events of a log recorded for one container. -/
def slotEvents (log : List Event) (σ : Slot) : List Event :=
  log.filter (fun e => decide (e.slot = some σ))

/-- The denial messages of a log, in order. -/
def denials (log : List Event) : List String := log.filterMap Event.denial

/-- The patch operations of a log, in order. -/
def patchOps (log : List Event) : List JSONPatch := log.filterMap Event.patchOp

/-- The slots of the pod in evaluation order: init containers in array order,
then regular containers in array order. -/
def evaluationOrder (pod : PodSpec) : List Slot :=
  (List.range pod.InitContainers.length).map (fun i => Slot.mk "initContainers" i) ++
  (List.range pod.Containers.length).map (fun i => Slot.mk "containers" i)

/-- The container of the pod at a slot. -/
def containerAt (pod : PodSpec) (σ : Slot) : Option Container :=
  match containersOf pod σ.containerType with
  | none => none
  | some containers => containers.get? σ.containerIndex

/-- The effect of one event on the state. -/
def St.emit (s : St) : Event → St
  | Event.deny σ msg => s.deny σ msg
  | Event.denyRequest msg => s.denyRequest msg
  | Event.setAllowed σ => s.setAllowed σ
  | Event.patch σ op => s.addPatch σ op
  | e => s.record e

/-- The effect of a list of events on the state. -/
def St.emitAll (s : St) (evs : List Event) : St := evs.foldl St.emit s

/-! ## The shape of the events of one container -/

/-- The invocations that record no decision: credential, token and signer
invocations, and a trust lookup rejected as unauthorized. -/
inductive Quiet (σ : Slot) (ns : String) (img : Reference) (policy : Policy) : Event → Prop
  | secretToken (secret : String) (r : Except GoError (String × String)) :
      Quiet σ ns img policy (Event.GetSecretToken σ ns secret img.GetHostname r)
  | trustToken (username password : String) (r : Except GoError String) :
      Quiet σ ns img policy
        (Event.GetContentTrustToken σ username password img.NameWithoutTag img.GetRegistryURL r)
  | signer (secret : String) (r : Except GoError Signer) :
      Quiet σ ns img policy (Event.getSignerSecret σ ns secret r)
  | unauthorized (server token : String) (signers : Option (List Signer)) (err : GoError)
      (hurl : notaryURL policy img = Except.ok server)
      (h401 : stringsContains err.Error "401" = true) :
      Quiet σ ns img policy
        (Event.getDigest σ server img.NameWithoutTag token img.GetTag signers (Except.error err))

/-- The events that end the secret loop of one container; `allowed` is the
allowed flag of the responder when the evaluation of the container starts. -/
inductive Ending (env : Env) (specPath : String) (σ : Slot) (container : Container)
    (img : Reference) (policy : Policy) (allowed : Bool) : Flow → List Event → Prop
  | urlError (err : GoError) (hurl : notaryURL policy img = Except.error err) :
      Ending env specPath σ container img policy allowed Flow.next
        [Event.deny σ ("Trust Server/Image Configuration Error: " ++ err.Error)]
  | signerError (err : GoError) :
      Ending env specPath σ container img policy allowed Flow.next
        [Event.deny σ ("Deny " ++ goQuote env.isPrint img.Str ++
          ", could not get signerSecret from your cluster, " ++ err.Error)]
  | lookupDenied (server token : String) (signers : Option (List Signer)) (err : GoError)
      (hurl : notaryURL policy img = Except.ok server)
      (h401 : stringsContains err.Error "401" = false) (hsrv : err.serverUnavailable = false) :
      Ending env specPath σ container img policy allowed Flow.next
        [Event.getDigest σ server img.NameWithoutTag token img.GetTag signers (Except.error err),
         Event.deny σ ("Deny " ++ goQuote env.isPrint img.Str ++
          ", failed to get content trust information: " ++ err.Error)]
  | outage (server token : String) (signers : Option (List Signer)) (err : GoError)
      (hurl : notaryURL policy img = Except.ok server)
      (h401 : stringsContains err.Error "401" = false) (hsrv : err.serverUnavailable = true) :
      Ending env specPath σ container img policy allowed Flow.returnFlush
        [Event.getDigest σ server img.NameWithoutTag token img.GetTag signers (Except.error err),
         Event.deny σ ("Deny " ++ goQuote env.isPrint img.Str ++
          ", failed to get content trust information: " ++ err.Error)]
  | success (server token : String) (signers : Option (List Signer)) (digest : Digest)
      (hurl : notaryURL policy img = Except.ok server) :
      Ending env specPath σ container img policy allowed Flow.next
        (Event.getDigest σ server img.NameWithoutTag token img.GetTag signers (Except.ok digest) ::
          ((if stringsContains container.Image img.Str then
              [Event.patch σ (patchFor specPath σ img digest)] else []) ++
            [Event.setAllowed σ]))
  | exhaustedDeny (h : allowed = false) :
      Ending env specPath σ container img policy allowed Flow.next
        [Event.deny σ ("Deny " ++ goQuote env.isPrint img.Str ++
          ", no valid ImagePullSecret defined for " ++ img.GetHostname)]
  | exhaustedSilent (h : allowed = true) :
      Ending env specPath σ container img policy allowed Flow.next []

/-- The events of the evaluation of one container, by the path the body of
`containerLoop` takes. -/
inductive ContainerTrace (env : Env) (ns specPath : String) (pod : PodSpec) (σ : Slot)
    (container : Container) (allowed : Bool) : Flow → List Event → Prop
  | parseError (err : GoError) :
      ContainerTrace env ns specPath pod σ container allowed Flow.next
        [Event.NewReference σ container.Image (Except.error err),
         Event.deny σ ("Deny " ++ goQuote env.isPrint container.Image ++ ", invalid image name")]
  | policyError (img : Reference) (err : GoError) :
      ContainerTrace env ns specPath pod σ container allowed Flow.next
        [Event.NewReference σ container.Image (Except.ok img),
         Event.GetPolicyToEnforce σ ns img.Str (Except.error err),
         Event.deny σ err.Error]
  | notEnforced (img : Reference) (policy : Option Policy) (h : trustNotEnforced policy = true) :
      ContainerTrace env ns specPath pod σ container allowed Flow.next
        [Event.NewReference σ container.Image (Except.ok img),
         Event.GetPolicyToEnforce σ ns img.Str (Except.ok policy),
         Event.setAllowed σ]
  | noSecret (img : Reference) (policy : Policy) (h : trustNotEnforced (some policy) = false)
      (hs : pod.ImagePullSecrets.length = 0) :
      ContainerTrace env ns specPath pod σ container allowed Flow.next
        [Event.NewReference σ container.Image (Except.ok img),
         Event.GetPolicyToEnforce σ ns img.Str (Except.ok (some policy)),
         Event.deny σ ("Deny " ++ goQuote env.isPrint img.Str ++
          ", no ImagePullSecret defined for " ++ img.GetHostname)]
  | attempts (img : Reference) (policy : Policy) (fl : Flow) (q t : List Event)
      (h : trustNotEnforced (some policy) = false) (hs : pod.ImagePullSecrets.length ≠ 0)
      (hq : ∀ e ∈ q, Quiet σ ns img policy e)
      (ht : Ending env specPath σ container img policy allowed fl t)
      (hrun : ∃ s : St,
        (secretLoop env ns specPath σ container img policy pod.ImagePullSecrets s).2.log =
          s.log ++ (q ++ t)) :
      ContainerTrace env ns specPath pod σ container allowed fl
        (Event.NewReference σ container.Image (Except.ok img) ::
         Event.GetPolicyToEnforce σ ns img.Str (Except.ok (some policy)) :: (q ++ t))

/-- The events of `containerLoop` from index `i` on: the traces of the
containers in order, up to the one that makes the function return. -/
inductive LoopTrace (env : Env) (ns specPath : String) (pod : PodSpec) (containerType : String) :
    Bool → Nat → List Container → Flow → List Event → Prop
  | done (allowed : Bool) (i : Nat) :
      LoopTrace env ns specPath pod containerType allowed i [] Flow.next []
  | stop (allowed : Bool) (i : Nat) (c : Container) (cs : List Container) (evs : List Event)
      (h : ContainerTrace env ns specPath pod ⟨containerType, i⟩ c allowed Flow.returnFlush evs) :
      LoopTrace env ns specPath pod containerType allowed i (c :: cs) Flow.returnFlush evs
  | step (allowed : Bool) (i : Nat) (c : Container) (cs : List Container) (fl : Flow)
      (evs rest : List Event)
      (h : ContainerTrace env ns specPath pod ⟨containerType, i⟩ c allowed Flow.next evs)
      (hrest : LoopTrace env ns specPath pod containerType (allowed || evs.any Event.isSetAllowed)
        (i + 1) cs fl rest) :
      LoopTrace env ns specPath pod containerType allowed i (c :: cs) fl (evs ++ rest)

/-- The events of the two container loops of `mutatePodSpec`. -/
inductive PodTrace (env : Env) (ns specPath : String) (pod : PodSpec) : Flow → List Event → Prop
  | initStop (l1 : List Event)
      (h1 : LoopTrace env ns specPath pod "initContainers" false 0 pod.InitContainers
        Flow.returnFlush l1) :
      PodTrace env ns specPath pod Flow.returnFlush l1
  | both (fl : Flow) (l1 l2 : List Event)
      (h1 : LoopTrace env ns specPath pod "initContainers" false 0 pod.InitContainers Flow.next l1)
      (h2 : LoopTrace env ns specPath pod "containers" (l1.any Event.isSetAllowed) 0 pod.Containers
        fl l2) :
      PodTrace env ns specPath pod fl (l1 ++ l2)

/-! ## The code produces these shapes -/

/-- What `secretBody` leaves for each way it ends. -/
def SecretBodySpec (env : Env) (specPath : String) (σ : Slot) (container : Container)
    (img : Reference) (policy : Policy) (allowed : Bool) (r : SecretFlow × St)
    (t : List Event) : Prop :=
  match r.1 with
  | SecretFlow.continueSecretLoop => t = []
  | SecretFlow.continueContainerLoop =>
    Ending env specPath σ container img policy allowed Flow.next t
  | SecretFlow.returnFlush => Ending env specPath σ container img policy allowed Flow.returnFlush t
  | SecretFlow.breakSecretLoop =>
    Ending env specPath σ container img policy allowed Flow.next t ∧ r.2.a.allowed = true

/-- The state at the start of `mutatePodSpec`. -/
def St.init : St := { a := AdmissionResponder.new, patches := [], log := [] }

/-- The response and the log of `mutatePodSpec`, from the events of the loops. -/
def outcome (env : Env) (fl : Flow) (evs : List Event) : AdmissionResponse × List Event :=
  match fl with
  | Flow.returnFlush => ((St.init.emitAll evs).a.Flush, evs)
  | Flow.next => finish env (St.init.emitAll evs)

/-! ## Outage of the trust server -/

/-- The events end with a trust lookup that failed with an outage, followed
by the denial recorded for it; no lookup before it failed with an outage. -/
def EndsInOutage (env : Env) (evs : List Event) : Prop :=
  ∃ (pre : List Event) (σ : Slot) (raw : String) (img : Reference) (server token : String)
    (signers : Option (List Signer)) (err : GoError),
    evs = pre ++
      [Event.getDigest σ server img.NameWithoutTag token img.GetTag signers (Except.error err),
       Event.deny σ ("Deny " ++ goQuote env.isPrint img.Str ++
        ", failed to get content trust information: " ++ err.Error)] ∧
    err.isOutage = true ∧ (∀ e ∈ pre, e.isOutage = false) ∧
    Event.NewReference σ raw (Except.ok img) ∈ pre

/-- What a flow value says about outages in the events. -/
def OutageSpec (env : Env) (fl : Flow) (evs : List Event) : Prop :=
  match fl with
  | Flow.next => ∀ e ∈ evs, e.isOutage = false
  | Flow.returnFlush => EndsInOutage env evs

/-! ## Concrete collaborators and pods -/

/-- The characters before the first slash. -/
def hostOf : List Char → List Char
  | [] => []
  | c :: cs => if c = '/' then [] else c :: hostOf cs

/-- An image parser for untagged references `host/path`, with the values the
tests of the package show for them: the canonical string and the name without
tag are the reference itself, the name with tag appends `:latest`, the default
trust server is `https://host:4443`; a reference with `?` is rejected. -/
def demoReference (raw : String) : Except GoError Reference :=
  if raw.data.contains '?' then
    Except.error { msg := "invalid reference format", serverUnavailable := false }
  else
    Except.ok
      { Str := raw
        GetHostname := String.mk (hostOf raw.data)
        NameWithoutTag := raw
        NameWithTag := raw ++ ":latest"
        GetTag := "latest"
        GetRegistryURL := "https://" ++ String.mk (hostOf raw.data)
        GetContentTrustURL := Except.ok ("https://" ++ String.mk (hostOf raw.data) ++ ":4443") }

/-- A policy with trust enabled, the default trust server and no signers. -/
def policyEnabled : Policy :=
  { Trust := { Enabled := some true, TrustServer := "", SignerSecrets := none } }

/-- A policy with trust disabled. -/
def policyDisabled : Policy :=
  { Trust := { Enabled := some false, TrustServer := "", SignerSecrets := none } }

/-- A policy client: trust is enabled for the images of `registry.example.com`
and disabled for all others. -/
def demoPolicy (image : String) : Except GoError (Option Policy) :=
  if startsWith image.data "registry.example.com/".data then Except.ok (some policyEnabled)
  else Except.ok (some policyDisabled)

/-- A serialisation of a patch list, for the concrete runs. -/
def demoMarshal (ops : List JSONPatch) : Except GoError String :=
  Except.ok ("[" ++ ",".intercalate (ops.map (fun op =>
    "\x7b\"op\":\"" ++ op.Op ++ "\",\"path\":\"" ++ op.Path ++ "\",\"value\":\"" ++ op.Value ++
      "\"\x7d")) ++ "]")

/-- Collaborators that all succeed: every secret yields a token and the trust
lookup returns the digest with bytes `1234567890`. -/
def envSigned : Env :=
  { NewReference := fun _ raw => demoReference raw
    GetPolicyToEnforce := fun _ _ image => demoPolicy image
    GetSecretToken := fun _ _ _ _ => Except.ok ("user", "password")
    GetContentTrustToken := fun _ _ _ _ _ => Except.ok "token"
    getSignerSecret := fun _ _ _ => Except.ok { signer := "signer", publicKey := "key" }
    getDigest := fun _ _ _ _ _ _ => Except.ok { bytes := [49, 50, 51, 52, 53, 54, 55, 56, 57, 48] }
    jsonMarshal := demoMarshal
    isPrint := fun _ => true }

/-- The error of an unreachable trust server. -/
def errUnavailable : GoError :=
  { msg := "unable to reach trust server at this time: 0.", serverUnavailable := true }

/-- Collaborators with an unreachable trust server. -/
def envOutage : Env :=
  { envSigned with getDigest := fun _ _ _ _ _ _ => Except.error errUnavailable }

/-- Collaborators for which no pull secret yields credentials. -/
def envNoSecret : Env :=
  { envSigned with
    GetSecretToken := fun _ _ _ _ =>
      Except.error { msg := "secret not found", serverUnavailable := false } }

/-- Two regular containers with trust enabled, one pull secret. -/
def podTwo : PodSpec :=
  { InitContainers := []
    Containers := [⟨"registry.example.com/hello"⟩, ⟨"registry.example.com/goodbye"⟩]
    ImagePullSecrets := [⟨"regsecret"⟩] }

/-- A container with an invalid image name, then one with trust enabled. -/
def podInvalidFirst : PodSpec :=
  { InitContainers := []
    Containers := [⟨"registry.example.com/?"⟩, ⟨"registry.example.com/hello"⟩]
    ImagePullSecrets := [⟨"regsecret"⟩] }

/-- A container without trust enforcement, then one with trust enabled. -/
def podMixed : PodSpec :=
  { InitContainers := []
    Containers := [⟨"open.example.com/app"⟩, ⟨"registry.example.com/hello"⟩]
    ImagePullSecrets := [⟨"regsecret"⟩] }

/-- The trust lookup of the first container of `podTwo` under `envOutage`. -/
def outageLookup : Event :=
  Event.getDigest ⟨"containers", 0⟩ "https://registry.example.com:4443"
    "registry.example.com/hello" "token" "latest" none (Except.error errUnavailable)

/-! ## C4: the denials of an outage response -/

/-- The trust lookup of the second container of `podInvalidFirst` under `envOutage`. -/
def outageLookupSecond : Event :=
  Event.getDigest ⟨"containers", 1⟩ "https://registry.example.com:4443"
    "registry.example.com/hello" "token" "latest" none (Except.error errUnavailable)

/-! ## Slots of the events -/

/-- The slot of a patch operation emitted for a container. -/
def Event.patchSlot : Event → Option Slot
  | Event.patch σ _ => some σ
  | _ => none

/-- The denial recorded for a container, with its slot. -/
def Event.denyAt : Event → Option (Slot × String)
  | Event.deny σ msg => some (σ, msg)
  | _ => none

/-- The slots of `containerLoop` from index `i` on, for `n` containers. -/
def loopSlots (containerType : String) (i n : Nat) : List Slot :=
  (List.range' i n).map (fun j => Slot.mk containerType j)

/-! ## C5, C6: the response and the denials recorded -/

/-- A signed container, then a container with an invalid image name. -/
def podSignedThenInvalid : PodSpec :=
  { InitContainers := []
    Containers := [⟨"registry.example.com/hello"⟩, ⟨"registry.example.com/?"⟩]
    ImagePullSecrets := [⟨"regsecret"⟩] }

/-! ## C7: the denials of all containers -/

/-- Collaborators whose trust lookup finds no signed content. -/
def envUnsigned : Env :=
  { envSigned with
    getDigest := fun _ _ _ _ _ _ =>
      Except.error { msg := "FAKE_NO_SIGNED_IMAGE_ERROR", serverUnavailable := false } }

/-! ## C8: containers without trust enforcement -/

/-- Whether the event is a policy lookup. -/
def Event.isPolicy : Event → Bool
  | Event.GetPolicyToEnforce _ _ _ _ => true
  | _ => false

/-- One container without trust enforcement. -/
def podOpen : PodSpec :=
  { InitContainers := []
    Containers := [⟨"open.example.com/app"⟩]
    ImagePullSecrets := [⟨"regsecret"⟩] }

/-! ## C9, C10: a successful trust lookup -/

/-- Whether the event is a trust lookup rejected with an error of the
unauthorized class (its text contains `401`). -/
def Event.isUnauthorized : Event → Bool
  | Event.getDigest _ _ _ _ _ _ (Except.error err) => stringsContains err.Error "401"
  | _ => false

/-- The events after a successful lookup: the patch, when the raw image
contains the canonical string, and the mark `SetAllowed`. -/
def successTail (specPath : String) (σ : Slot) (c : Container) (img : Reference)
    (digest : Digest) : List Event :=
  (if stringsContains c.Image img.Str then [Event.patch σ (patchFor specPath σ img digest)]
   else []) ++ [Event.setAllowed σ]

/-- Collaborators for which the secret `badsecret` yields no credentials; the
token of every other secret names the secret. -/
def envSecondSecret : Env :=
  { envSigned with
    GetSecretToken := fun _ _ secret _ =>
      if secret = "badsecret" then
        Except.error { msg := "secret not found", serverUnavailable := false }
      else Except.ok (secret, "password")
    GetContentTrustToken := fun _ username _ _ _ => Except.ok ("token-" ++ username) }

/-- One container with trust enabled and three pull secrets. -/
def podThreeSecrets : PodSpec :=
  { InitContainers := []
    Containers := [⟨"registry.example.com/hello"⟩]
    ImagePullSecrets := [⟨"badsecret"⟩, ⟨"regsecret"⟩, ⟨"regsecret3"⟩] }

/-- The successful lookup of `podThreeSecrets` under `envSecondSecret`, made
with the token of the second secret. -/
def secondSecretLookup : Event :=
  Event.getDigest ⟨"containers", 0⟩ "https://registry.example.com:4443"
    "registry.example.com/hello" "token-regsecret" "latest" none
    (Except.ok { bytes := [49, 50, 51, 52, 53, 54, 55, 56, 57, 48] })

/-- One container with trust enabled, image `registry.example.com/hello`. -/
def podHello : PodSpec :=
  { InitContainers := []
    Containers := [⟨"registry.example.com/hello"⟩]
    ImagePullSecrets := [⟨"regsecret"⟩] }

/-! ## The next container -/

/-- The slot evaluated after `σ`: the next init container, the first regular
container after the last init container, the next regular container. -/
def nextSlot (pod : PodSpec) (σ : Slot) : Option Slot :=
  if σ.containerType = "initContainers" then
    if σ.containerIndex + 1 < pod.InitContainers.length then
      some ⟨"initContainers", σ.containerIndex + 1⟩
    else if σ.containerIndex + 1 = pod.InitContainers.length ∧ 0 < pod.Containers.length then
      some ⟨"containers", 0⟩
    else none
  else if σ.containerType = "containers" then
    if σ.containerIndex + 1 < pod.Containers.length then
      some ⟨"containers", σ.containerIndex + 1⟩
    else none
  else none

/-- Whether the event is a trust lookup that failed with an error that is
neither of the unauthorized class nor server-unavailable. -/
def Event.isLookupDenied : Event → Bool
  | Event.getDigest _ _ _ _ _ _ (Except.error err) =>
    !stringsContains err.Error "401" && !err.serverUnavailable
  | _ => false

/-- Two trust-enabled containers in a pod that declares no pull secret. -/
def podNoSecret : PodSpec :=
  { InitContainers := []
    Containers := [⟨"registry.example.com/hello"⟩, ⟨"registry.example.com/goodbye"⟩]
    ImagePullSecrets := [] }

/-- The error of a lookup that finds no signed content. -/
def errUnsigned : GoError := { msg := "FAKE_NO_SIGNED_IMAGE_ERROR", serverUnavailable := false }

/-- Two trust-enabled containers and two pull secrets. -/
def podTwoSecrets : PodSpec :=
  { InitContainers := []
    Containers := [⟨"registry.example.com/hello"⟩, ⟨"registry.example.com/goodbye"⟩]
    ImagePullSecrets := [⟨"regsecret"⟩, ⟨"regsecret1"⟩] }

/-! ## More concrete collaborators and pods -/

/-- A policy with trust enabled and its own trust server. -/
def policyCustomServer : Policy :=
  { Trust := { Enabled := some true, TrustServer := "https://some-trust-server.com:4443",
               SignerSecrets := none } }

/-- Collaborators without signed content, where the image
`registry.example.com/goodbye` has a policy with its own trust server. -/
def envTwoServers : Env :=
  { envUnsigned with
    GetPolicyToEnforce := fun _ _ image =>
      if image = "registry.example.com/goodbye" then Except.ok (some policyCustomServer)
      else Except.ok (some policyEnabled) }

/-- An image parser that resolves a short name to the default registry, as
the reference parser does for names without a registry host. -/
def hubReference (raw : String) : Except GoError Reference :=
  Except.ok
    { Str := "docker.io/library/" ++ raw
      GetHostname := "docker.io"
      NameWithoutTag := "docker.io/library/" ++ raw
      NameWithTag := "docker.io/library/" ++ raw ++ ":latest"
      GetTag := "latest"
      GetRegistryURL := "https://docker.io"
      GetContentTrustURL := Except.ok "https://docker.io:4443" }

/-- Collaborators that all succeed, with trust enabled for every image and the
parser `hubReference`. -/
def envHub : Env :=
  { envSigned with
    NewReference := fun _ raw => hubReference raw
    GetPolicyToEnforce := fun _ _ _ => Except.ok (some policyEnabled) }

/-- One container with the short image name `hello`. -/
def podShortName : PodSpec :=
  { InitContainers := []
    Containers := [⟨"hello"⟩]
    ImagePullSecrets := [⟨"regsecret"⟩] }

/-! ## Patch operations and their paths -/

/-- Whether the event emits a patch operation. -/
def Event.isPatch : Event → Bool
  | Event.patch _ _ => true
  | _ => false

/-- The value of a string of decimal digits. -/
def decodeDigits (l : List Char) : Nat := l.foldl (fun a ch => a * 10 + (ch.toNat - 48)) 0

/-- The path of the patch operation of a slot (line 185). -/
def patchPath (specPath : String) (σ : Slot) : String :=
  specPath ++ "/" ++ σ.containerType ++ "/" ++ strconvItoa σ.containerIndex ++ "/image"

/-! ## The text of the denials -/

/-- Whether every character of the string is printable ASCII other than the
double quote and the backslash: the strings `%q` renders unchanged between
quotes. -/
def plainString (s : String) : Bool :=
  s.data.all (fun ch => decide (32 ≤ ch.toNat ∧ ch.toNat < 127 ∧ ch.toNat ≠ 34 ∧ ch.toNat ≠ 92))

/-- An image parser like `demoReference` whose references have no default
trust server. -/
def noURLReference (raw : String) : Except GoError Reference :=
  match demoReference raw with
  | Except.error err => Except.error err
  | Except.ok img =>
    Except.ok { img with
      GetContentTrustURL :=
        Except.error { msg := "no default trust server", serverUnavailable := false } }

/-- Collaborators whose image references have no default trust server. -/
def envNoTrustURL : Env :=
  { envSigned with NewReference := fun _ raw => noURLReference raw }

/-- The forms of the denial of a container. -/
def DenialForm (env : Env) (ns : String) (σ : Slot) (c : Container) (log : List Event)
    (msg : String) : Prop :=
  ((∃ err : GoError, Event.NewReference σ c.Image (Except.error err) ∈ log) ∧
    msg = "Deny " ++ goQuote env.isPrint c.Image ++ ", invalid image name") ∨
  (∃ (img : Reference) (err : GoError), Event.NewReference σ c.Image (Except.ok img) ∈ log ∧
    Event.GetPolicyToEnforce σ ns img.Str (Except.error err) ∈ log ∧ msg = err.Error) ∨
  (∃ (img : Reference) (err : GoError), Event.NewReference σ c.Image (Except.ok img) ∈ log ∧
    msg = "Trust Server/Image Configuration Error: " ++ err.Error) ∨
  (∃ (img : Reference) (reason : String), Event.NewReference σ c.Image (Except.ok img) ∈ log ∧
    msg = "Deny " ++ goQuote env.isPrint img.Str ++ reason ∧
    (reason = ", no ImagePullSecret defined for " ++ img.GetHostname ∨
     reason = ", no valid ImagePullSecret defined for " ++ img.GetHostname ∨
     (∃ err : GoError, reason = ", could not get signerSecret from your cluster, " ++ err.Error) ∨
     (∃ err : GoError, reason = ", failed to get content trust information: " ++ err.Error)))

/-! ## Errors of the unauthorized class -/

/-- What may follow, among the events of a container, a lookup rejected as
unauthorized: the credentials call of the next pull secret, or the denial
`exhausted` recorded when no pull secret is left. -/
def Event.startsNext (exhausted : String) : Event → Bool
  | Event.GetSecretToken _ _ _ _ _ => true
  | Event.deny _ msg => decide (msg = exhausted)
  | _ => false

/-- Whether every lookup rejected as unauthorized is the last event or is
followed by an event that `startsNext`. -/
def afterUnauthorized (exhausted : String) : List Event → Bool
  | [] => true
  | [_] => true
  | e :: e' :: rest =>
    (!e.isUnauthorized || e'.startsNext exhausted) && afterUnauthorized exhausted (e' :: rest)

/-- The denial of line 193. -/
def exhaustedMessage (env : Env) (img : Reference) : String :=
  "Deny " ++ goQuote env.isPrint img.Str ++ ", no valid ImagePullSecret defined for " ++
    img.GetHostname

/-- An error of the server-unavailable type whose text contains `401`. -/
def errUnavailable401 : GoError :=
  { msg := "you are not authorized to perform this operation: server returned 401.",
    serverUnavailable := true }

/-- Collaborators whose trust lookup fails with `errUnavailable401`. -/
def envUnavailable401 : Env :=
  { envSigned with getDigest := fun _ _ _ _ _ _ => Except.error errUnavailable401 }

/-! # Theorems -/

/-! ## The state is the effect of the events -/

theorem emitAll_nil (s : St) : s.emitAll [] = s := rfl

theorem emitAll_cons (s : St) (e : Event) (evs : List Event) :
    s.emitAll (e :: evs) = (s.emit e).emitAll evs := rfl

theorem emitAll_append (s : St) (l1 l2 : List Event) :
    s.emitAll (l1 ++ l2) = (s.emitAll l1).emitAll l2 := by
  simp [St.emitAll, List.foldl_append]

theorem emit_log (s : St) (e : Event) : (s.emit e).log = s.log ++ [e] := by
  cases e <;> rfl

theorem emit_errors (s : St) (e : Event) :
    (s.emit e).a.errors = s.a.errors ++ denials [e] := by
  cases e <;> simp [St.emit, St.record, St.deny, St.denyRequest, St.setAllowed, St.addPatch,
    denials, Event.denial, AdmissionResponder.StringToAdmissionResponse,
    AdmissionResponder.SetAllowed]

theorem emit_patches (s : St) (e : Event) :
    (s.emit e).patches = s.patches ++ patchOps [e] := by
  cases e <;> simp [St.emit, St.record, St.deny, St.denyRequest, St.setAllowed, St.addPatch,
    patchOps, Event.patchOp]

theorem emit_allowed (s : St) (e : Event) :
    (s.emit e).a.allowed = (s.a.allowed || e.isSetAllowed) := by
  cases e <;> simp [St.emit, St.record, St.deny, St.denyRequest, St.setAllowed, St.addPatch,
    Event.isSetAllowed, AdmissionResponder.StringToAdmissionResponse,
    AdmissionResponder.SetAllowed]

theorem emit_patch (s : St) (e : Event) : (s.emit e).a.patch = s.a.patch := by
  cases e <;> rfl

theorem emitAll_log (s : St) (evs : List Event) : (s.emitAll evs).log = s.log ++ evs := by
  induction evs generalizing s with
  | nil => simp [emitAll_nil]
  | cons e evs ih => rw [emitAll_cons, ih, emit_log]; simp

theorem emitAll_errors (s : St) (evs : List Event) :
    (s.emitAll evs).a.errors = s.a.errors ++ denials evs := by
  induction evs generalizing s with
  | nil => simp [emitAll_nil, denials]
  | cons e evs ih =>
    rw [emitAll_cons, ih, emit_errors]
    simp [denials, List.filterMap_cons]
    cases e.denial <;> simp

theorem emitAll_patches (s : St) (evs : List Event) :
    (s.emitAll evs).patches = s.patches ++ patchOps evs := by
  induction evs generalizing s with
  | nil => simp [emitAll_nil, patchOps]
  | cons e evs ih =>
    rw [emitAll_cons, ih, emit_patches]
    simp [patchOps, List.filterMap_cons]
    cases e.patchOp <;> simp

theorem emitAll_allowed (s : St) (evs : List Event) :
    (s.emitAll evs).a.allowed = (s.a.allowed || evs.any Event.isSetAllowed) := by
  induction evs generalizing s with
  | nil => simp [emitAll_nil]
  | cons e evs ih => rw [emitAll_cons, ih, emit_allowed]; simp [Bool.or_assoc]

theorem emitAll_patch (s : St) (evs : List Event) : (s.emitAll evs).a.patch = s.a.patch := by
  induction evs generalizing s with
  | nil => rfl
  | cons e evs ih => rw [emitAll_cons, ih, emit_patch]

theorem quiet_not_setAllowed {σ : Slot} {ns : String} {img : Reference} {policy : Policy}
    {q : List Event} (hq : ∀ e ∈ q, Quiet σ ns img policy e) :
    q.any Event.isSetAllowed = false := by
  rw [List.any_eq_false]
  intro e he
  cases hq e he <;> simp [Event.isSetAllowed]

/-! ## The code produces these shapes -/

theorem signerLoop_trace (env : Env) (ns : String) (σ : Slot) (img : Reference)
    (policy : Policy) (secrets : List SecretRef) (signers : List Signer) (s : St) :
    ∃ q, (signerLoop env ns σ secrets signers s).2 = s.emitAll q ∧
      ∀ e ∈ q, Quiet σ ns img policy e := by
  induction secrets generalizing signers s with
  | nil => exact ⟨[], rfl, by simp⟩
  | cons secretName rest ih =>
    simp only [signerLoop]
    cases hr : env.getSignerSecret s.log ns secretName.Name with
    | error err =>
      exact ⟨[Event.getSignerSecret σ ns secretName.Name (Except.error err)], rfl,
        by simpa using Quiet.signer _ _⟩
    | ok signer =>
      obtain ⟨q, hq, hquiet⟩ := ih (signers ++ [signer])
        (s.record (Event.getSignerSecret σ ns secretName.Name (Except.ok signer)))
      refine ⟨Event.getSignerSecret σ ns secretName.Name (Except.ok signer) :: q, ?_, ?_⟩
      · simp only [hq, emitAll_cons]; rfl
      · intro e he
        rcases List.mem_cons.mp he with rfl | he
        · exact Quiet.signer _ _
        · exact hquiet e he

theorem resolveSigners_trace (env : Env) (ns : String) (σ : Slot) (img : Reference)
    (policy : Policy) (s : St) :
    ∃ q, (resolveSigners env ns σ policy s).2 = s.emitAll q ∧
      ∀ e ∈ q, Quiet σ ns img policy e := by
  unfold resolveSigners
  cases policy.Trust.SignerSecrets with
  | none => exact ⟨[], rfl, by simp⟩
  | some secrets =>
    obtain ⟨q, hq, hquiet⟩ := signerLoop_trace env ns σ img policy secrets [] s
    refine ⟨q, ?_, hquiet⟩
    simp only
    rcases hsl : signerLoop env ns σ secrets [] s with ⟨r, s1⟩
    rw [hsl] at hq
    cases r <;> simpa using hq

theorem onDigest_eq (specPath : String) (σ : Slot) (container : Container) (img : Reference)
    (digest : Digest) (s : St) :
    onDigest specPath σ container img digest s =
      s.emitAll ((if stringsContains container.Image img.Str then
        [Event.patch σ (patchFor specPath σ img digest)] else []) ++ [Event.setAllowed σ]) := by
  unfold onDigest
  split <;> rfl

theorem secretBody_trace (env : Env) (ns specPath : String) (σ : Slot) (container : Container)
    (img : Reference) (policy : Policy) (secret : SecretRef) (allowed : Bool) (s : St) :
    ∃ q t, (secretBody env ns specPath σ container img policy secret s).2 = s.emitAll (q ++ t) ∧
      (∀ e ∈ q, Quiet σ ns img policy e) ∧
      SecretBodySpec env specPath σ container img policy allowed
        (secretBody env ns specPath σ container img policy secret s) t := by
  unfold secretBody
  cases hurl : notaryURL policy img with
  | error err =>
    exact ⟨[], [Event.deny σ ("Trust Server/Image Configuration Error: " ++ err.Error)], rfl,
      by simp, Ending.urlError err hurl⟩
  | ok server =>
    simp only
    cases h1 : env.GetSecretToken s.log ns secret.Name img.GetHostname with
    | error err =>
      exact ⟨[Event.GetSecretToken σ ns secret.Name img.GetHostname (Except.error err)], [], rfl,
        by simpa using Quiet.secretToken _ _, rfl⟩
    | ok up =>
      obtain ⟨username, password⟩ := up
      simp only
      generalize hs1 : s.record (Event.GetSecretToken σ ns secret.Name img.GetHostname
        (Except.ok (username, password))) = s1
      have e1 : s1 = s.emitAll [Event.GetSecretToken σ ns secret.Name img.GetHostname
        (Except.ok (username, password))] := by rw [← hs1]; rfl
      cases h2 : env.GetContentTrustToken s1.log username password img.NameWithoutTag
          img.GetRegistryURL with
      | error err =>
        refine ⟨[Event.GetSecretToken σ ns secret.Name img.GetHostname
            (Except.ok (username, password)),
          Event.GetContentTrustToken σ username password img.NameWithoutTag img.GetRegistryURL
            (Except.error err)], [], ?_, ?_, rfl⟩
        · simp only [e1]; rfl
        · intro e he
          simp only [List.mem_cons, List.mem_singleton, List.not_mem_nil, or_false] at he
          rcases he with rfl | rfl
          · exact Quiet.secretToken _ _
          · exact Quiet.trustToken _ _ _
      | ok notaryToken =>
        simp only
        generalize hs2 : s1.record (Event.GetContentTrustToken σ username password
          img.NameWithoutTag img.GetRegistryURL (Except.ok notaryToken)) = s2
        have e2 : s2 = s.emitAll [Event.GetSecretToken σ ns secret.Name img.GetHostname
            (Except.ok (username, password)),
          Event.GetContentTrustToken σ username password img.NameWithoutTag img.GetRegistryURL
            (Except.ok notaryToken)] := by rw [← hs2, e1]; rfl
        have hq0 : ∀ e ∈ [Event.GetSecretToken σ ns secret.Name img.GetHostname
            (Except.ok (username, password)),
          Event.GetContentTrustToken σ username password img.NameWithoutTag img.GetRegistryURL
            (Except.ok notaryToken)], Quiet σ ns img policy e := by
          intro e he
          simp only [List.mem_cons, List.mem_singleton, List.not_mem_nil, or_false] at he
          rcases he with rfl | rfl
          · exact Quiet.secretToken _ _
          · exact Quiet.trustToken _ _ _
        obtain ⟨qs, hqs, hquiet⟩ := resolveSigners_trace env ns σ img policy s2
        rcases hrs : resolveSigners env ns σ policy s2 with ⟨rs, s3⟩
        rw [hrs] at hqs
        simp only at hqs
        have e3 : s3 = s.emitAll ([Event.GetSecretToken σ ns secret.Name img.GetHostname
            (Except.ok (username, password)),
          Event.GetContentTrustToken σ username password img.NameWithoutTag img.GetRegistryURL
            (Except.ok notaryToken)] ++ qs) := by rw [hqs, e2, emitAll_append]
        have hq3 : ∀ e ∈ [Event.GetSecretToken σ ns secret.Name img.GetHostname
            (Except.ok (username, password)),
          Event.GetContentTrustToken σ username password img.NameWithoutTag img.GetRegistryURL
            (Except.ok notaryToken)] ++ qs, Quiet σ ns img policy e := by
          intro e he
          rcases List.mem_append.mp he with he | he
          · exact hq0 e he
          · exact hquiet e he
        generalize hQ : [Event.GetSecretToken σ ns secret.Name img.GetHostname
            (Except.ok (username, password)),
          Event.GetContentTrustToken σ username password img.NameWithoutTag img.GetRegistryURL
            (Except.ok notaryToken)] ++ qs = Q at e3 hq3
        cases rs with
        | error err =>
          refine ⟨Q, [Event.deny σ ("Deny " ++ goQuote env.isPrint img.Str ++
            ", could not get signerSecret from your cluster, " ++ err.Error)], ?_, hq3,
            Ending.signerError err⟩
          simp only [emitAll_append, ← e3]; rfl
        | ok signers =>
          simp only
          cases h4 : env.getDigest s3.log server img.NameWithoutTag notaryToken img.GetTag
              signers with
          | error err =>
            simp only
            by_cases h401 : stringsContains err.Error "401" = true
            · simp only [h401, if_true]
              refine ⟨Q ++ [Event.getDigest σ server img.NameWithoutTag notaryToken img.GetTag
                signers (Except.error err)], [], ?_, ?_, rfl⟩
              · simp only [List.append_nil, emitAll_append, ← e3]; rfl
              · intro e he
                rcases List.mem_append.mp he with he | he
                · exact hq3 e he
                · rw [List.mem_singleton.mp he]
                  exact Quiet.unauthorized _ _ _ _ hurl h401
            · simp only [h401, if_false]
              have h401f : stringsContains err.Error "401" = false := by simpa using h401
              by_cases hsrv : err.serverUnavailable = true
              · simp only [hsrv, if_true]
                refine ⟨Q, [Event.getDigest σ server img.NameWithoutTag notaryToken img.GetTag
                    signers (Except.error err),
                  Event.deny σ ("Deny " ++ goQuote env.isPrint img.Str ++
                    ", failed to get content trust information: " ++ err.Error)], ?_, hq3,
                  Ending.outage server notaryToken signers err hurl h401f hsrv⟩
                simp only [emitAll_append, ← e3]; rfl
              · simp only [hsrv, if_false]
                have hsrvf : err.serverUnavailable = false := by simpa using hsrv
                refine ⟨Q, [Event.getDigest σ server img.NameWithoutTag notaryToken img.GetTag
                    signers (Except.error err),
                  Event.deny σ ("Deny " ++ goQuote env.isPrint img.Str ++
                    ", failed to get content trust information: " ++ err.Error)], ?_, hq3,
                  Ending.lookupDenied server notaryToken signers err hurl h401f hsrvf⟩
                simp only [emitAll_append, ← e3]; rfl
          | ok digest =>
            simp only
            refine ⟨Q, Event.getDigest σ server img.NameWithoutTag notaryToken img.GetTag signers
                (Except.ok digest) ::
              ((if stringsContains container.Image img.Str then
                  [Event.patch σ (patchFor specPath σ img digest)] else []) ++
                [Event.setAllowed σ]), ?_, hq3,
              Ending.success server notaryToken signers digest hurl, ?_⟩
            · rw [onDigest_eq, e3]
              simp only [emitAll_append, emitAll_cons]
              rfl
            · rw [onDigest_eq, emitAll_allowed]
              simp [Event.isSetAllowed]

theorem secretLoop_trace (env : Env) (ns specPath : String) (σ : Slot) (container : Container)
    (img : Reference) (policy : Policy) (secrets : List SecretRef) (s : St) :
    ∃ q t, (secretLoop env ns specPath σ container img policy secrets s).2 = s.emitAll (q ++ t) ∧
      (∀ e ∈ q, Quiet σ ns img policy e) ∧
      Ending env specPath σ container img policy s.a.allowed
        (secretLoop env ns specPath σ container img policy secrets s).1 t := by
  induction secrets generalizing s with
  | nil =>
    simp only [secretLoop, AdmissionResponder.IsAllowed]
    by_cases hal : s.a.allowed = true
    · simp only [hal, Bool.not_true, Bool.false_eq_true, if_false]
      exact ⟨[], [], rfl, by simp, Ending.exhaustedSilent rfl⟩
    · have half : s.a.allowed = false := by simpa using hal
      simp only [half, Bool.not_false, if_true]
      exact ⟨[], [Event.deny σ ("Deny " ++ goQuote env.isPrint img.Str ++
        ", no valid ImagePullSecret defined for " ++ img.GetHostname)], rfl, by simp,
        Ending.exhaustedDeny rfl⟩
  | cons secret rest ih =>
    obtain ⟨q1, t1, h1, hq1, hspec⟩ :=
      secretBody_trace env ns specPath σ container img policy secret s.a.allowed s
    simp only [secretLoop]
    rcases hb : secretBody env ns specPath σ container img policy secret s with ⟨fl, s1⟩
    rw [hb] at h1 hspec
    simp only at h1
    cases fl with
    | continueSecretLoop =>
      simp only [SecretBodySpec] at hspec
      subst hspec
      rw [List.append_nil] at h1
      obtain ⟨q2, t2, h2, hq2, hend⟩ := ih s1
      have hal : s1.a.allowed = s.a.allowed := by
        rw [h1, emitAll_allowed, quiet_not_setAllowed hq1, Bool.or_false]
      refine ⟨q1 ++ q2, t2, ?_, ?_, ?_⟩
      · rw [h2, h1, List.append_assoc, emitAll_append s q1]
      · intro e he
        rcases List.mem_append.mp he with he | he
        · exact hq1 e he
        · exact hq2 e he
      · simpa only [hal] using hend
    | continueContainerLoop => exact ⟨q1, t1, h1, hq1, hspec⟩
    | returnFlush => exact ⟨q1, t1, h1, hq1, hspec⟩
    | breakSecretLoop =>
      simp only [SecretBodySpec] at hspec
      simp only [AdmissionResponder.IsAllowed, hspec.2]
      exact ⟨q1, t1, h1, hq1, hspec.1⟩

theorem containerBody_trace (env : Env) (ns specPath : String) (pod : PodSpec) (σ : Slot)
    (container : Container) (s : St) :
    ∃ evs, (containerBody env ns specPath pod σ container s).2 = s.emitAll evs ∧
      ContainerTrace env ns specPath pod σ container s.a.allowed
        (containerBody env ns specPath pod σ container s).1 evs := by
  unfold containerBody
  cases h0 : env.NewReference s.log container.Image with
  | error err =>
    exact ⟨[Event.NewReference σ container.Image (Except.error err),
      Event.deny σ ("Deny " ++ goQuote env.isPrint container.Image ++ ", invalid image name")],
      rfl, ContainerTrace.parseError err⟩
  | ok img =>
    simp only
    generalize hs0 : s.record (Event.NewReference σ container.Image (Except.ok img)) = s0
    have e0 : s0 = s.emitAll [Event.NewReference σ container.Image (Except.ok img)] := by
      rw [← hs0]; rfl
    cases h1 : env.GetPolicyToEnforce s0.log ns img.Str with
    | error err =>
      refine ⟨_, ?_, ContainerTrace.policyError img err⟩
      simp only [e0]; rfl
    | ok policy =>
      cases policy with
      | none =>
        refine ⟨_, ?_, ContainerTrace.notEnforced img none rfl⟩
        simp only [e0]; rfl
      | some policy =>
        simp only
        generalize hs1 : s0.record (Event.GetPolicyToEnforce σ ns img.Str
          (Except.ok (some policy))) = s1
        have e1 : s1 = s.emitAll [Event.NewReference σ container.Image (Except.ok img),
            Event.GetPolicyToEnforce σ ns img.Str (Except.ok (some policy))] := by
          rw [← hs1, e0]; rfl
        by_cases hne : trustNotEnforced (some policy) = true
        · simp only [hne, if_true]
          refine ⟨_, ?_, ContainerTrace.notEnforced img (some policy) hne⟩
          simp only [e1]; rfl
        · have hnef : trustNotEnforced (some policy) = false := by simpa using hne
          simp only [hnef, Bool.false_eq_true, if_false]
          by_cases hs : pod.ImagePullSecrets.length = 0
          · simp only [hs, if_true]
            refine ⟨_, ?_, ContainerTrace.noSecret img policy hnef hs⟩
            simp only [e1]; rfl
          · simp only [hs, if_false]
            obtain ⟨q, t, hqt, hq, hend⟩ :=
              secretLoop_trace env ns specPath σ container img policy pod.ImagePullSecrets s1
            have hal : s1.a.allowed = s.a.allowed := by
              rw [e1, emitAll_allowed]; simp [Event.isSetAllowed]
            rw [hal] at hend
            refine ⟨_, ?_, ContainerTrace.attempts img policy _ q t hnef hs hq hend
              ⟨s1, by rw [hqt, emitAll_log]⟩⟩
            rw [hqt, e1, ← emitAll_append]
            rfl

theorem containerLoop_trace (env : Env) (ns specPath : String) (pod : PodSpec)
    (containerType : String) (i : Nat) (containers : List Container) (s : St) :
    ∃ evs, (containerLoop env ns specPath pod containerType i containers s).2 = s.emitAll evs ∧
      LoopTrace env ns specPath pod containerType s.a.allowed i containers
        (containerLoop env ns specPath pod containerType i containers s).1 evs := by
  induction containers generalizing i s with
  | nil => exact ⟨[], rfl, LoopTrace.done _ _⟩
  | cons c cs ih =>
    obtain ⟨evs, h1, htr⟩ := containerBody_trace env ns specPath pod ⟨containerType, i⟩ c s
    simp only [containerLoop]
    rcases hb : containerBody env ns specPath pod ⟨containerType, i⟩ c s with ⟨fl, s1⟩
    rw [hb] at h1 htr
    simp only at h1 htr
    cases fl with
    | returnFlush => exact ⟨evs, h1, LoopTrace.stop _ _ _ _ _ htr⟩
    | next =>
      obtain ⟨rest, h2, hrest⟩ := ih (i + 1) s1
      simp only
      refine ⟨evs ++ rest, ?_, LoopTrace.step _ _ _ _ _ _ _ htr ?_⟩
      · rw [h2, h1, emitAll_append]
      · have hal : s1.a.allowed = (s.a.allowed || evs.any Event.isSetAllowed) := by
          rw [h1, emitAll_allowed]
        rw [← hal]; exact hrest

theorem typeLoop_trace (env : Env) (ns specPath : String) (pod : PodSpec) :
    ∃ evs, (typeLoop env ns specPath pod ["initContainers", "containers"] St.init).2 =
        St.init.emitAll evs ∧
      PodTrace env ns specPath pod
        (typeLoop env ns specPath pod ["initContainers", "containers"] St.init).1 evs := by
  obtain ⟨l1, h1, ht1⟩ :=
    containerLoop_trace env ns specPath pod "initContainers" 0 pod.InitContainers St.init
  have hc1 : containersOf pod "initContainers" = some pod.InitContainers := by
    simp [containersOf]
  have hc2 : containersOf pod "containers" = some pod.Containers := by
    simp [containersOf]
  simp only [typeLoop, hc1, hc2]
  rcases hb : containerLoop env ns specPath pod "initContainers" 0 pod.InitContainers St.init
    with ⟨fl, s1⟩
  rw [hb] at h1 ht1
  simp only at h1 ht1
  cases fl with
  | returnFlush => exact ⟨l1, h1, PodTrace.initStop l1 ht1⟩
  | next =>
    simp only
    obtain ⟨l2, h2, ht2⟩ :=
      containerLoop_trace env ns specPath pod "containers" 0 pod.Containers s1
    have hal : s1.a.allowed = l1.any Event.isSetAllowed := by
      rw [h1, emitAll_allowed]; simp [St.init, AdmissionResponder.new]
    rw [hal] at ht2
    rcases hb2 : containerLoop env ns specPath pod "containers" 0 pod.Containers s1
      with ⟨fl2, s2⟩
    rw [hb2] at h2 ht2
    simp only at h2 ht2
    refine ⟨l1 ++ l2, ?_, ?_⟩
    · cases fl2 <;> simp only [h2, h1, emitAll_append]
    · cases fl2 <;> exact PodTrace.both _ l1 l2 ht1 ht2

theorem init_emitAll_log (evs : List Event) : (St.init.emitAll evs).log = evs := by
  rw [emitAll_log]; rfl

theorem init_emitAll_errors (evs : List Event) : (St.init.emitAll evs).a.errors = denials evs := by
  rw [emitAll_errors]; rfl

theorem init_emitAll_patches (evs : List Event) :
    (St.init.emitAll evs).patches = patchOps evs := by
  rw [emitAll_patches]; rfl

theorem init_emitAll_patch (evs : List Event) : (St.init.emitAll evs).a.patch = none := by
  rw [emitAll_patch]; rfl

theorem run_trace (env : Env) (ns specPath : String) (pod : PodSpec) :
    ∃ fl evs, PodTrace env ns specPath pod fl evs ∧
      mutatePodSpecRun env ns specPath pod = outcome env fl evs := by
  obtain ⟨evs, h, htr⟩ := typeLoop_trace env ns specPath pod
  refine ⟨_, evs, htr, ?_⟩
  unfold mutatePodSpecRun mutatePodSpecFrom
  change (match typeLoop env ns specPath pod ["initContainers", "containers"] St.init with
    | (Flow.returnFlush, s1) => (s1.a.Flush, s1.log)
    | (Flow.next, s1) => finish env s1) = _
  rcases hb : typeLoop env ns specPath pod ["initContainers", "containers"] St.init with ⟨fl, s1⟩
  rw [hb] at h
  simp only at h
  cases fl <;> simp only [outcome, h, init_emitAll_log]

theorem flush_denied (a : AdmissionResponder) (h : a.errors ≠ []) :
    a.Flush = { Allowed := false, Patch := none,
                Message := some ("\n" ++ "\n".intercalate a.errors) } := by
  unfold AdmissionResponder.Flush AdmissionResponder.HasErrors
  cases he : a.errors with
  | nil => exact absurd he h
  | cons x xs => rfl

theorem flush_allowed (a : AdmissionResponder) (h : a.errors = []) :
    a.Flush = { Allowed := true, Patch := a.patch, Message := none } := by
  unfold AdmissionResponder.Flush AdmissionResponder.HasErrors
  rw [h]; rfl

/-- The four ways `mutatePodSpec` ends after the loops. -/
theorem finish_cases (env : Env) (evs : List Event) :
    (denials evs ≠ [] ∧
      finish env (St.init.emitAll evs) =
        ({ Allowed := false, Patch := none,
           Message := some ("\n" ++ "\n".intercalate (denials evs)) }, evs)) ∨
    (denials evs = [] ∧ patchOps evs = [] ∧
      finish env (St.init.emitAll evs) =
        ({ Allowed := true, Patch := none, Message := none }, evs)) ∨
    (denials evs = [] ∧ patchOps evs ≠ [] ∧ ∃ bytes,
      env.jsonMarshal (patchOps evs) = Except.ok bytes ∧
      finish env (St.init.emitAll evs) =
        ({ Allowed := true, Patch := some bytes, Message := none }, evs)) ∨
    (denials evs = [] ∧ patchOps evs ≠ [] ∧ ∃ err,
      env.jsonMarshal (patchOps evs) = Except.error err ∧
      finish env (St.init.emitAll evs) =
        ({ Allowed := false, Patch := none,
           Message := some ("\n" ++ "\n".intercalate ["Invalid Patch: " ++ err.Error]) },
         evs ++ [Event.denyRequest ("Invalid Patch: " ++ err.Error)])) := by
  unfold finish
  simp only [AdmissionResponder.HasErrors, init_emitAll_errors, init_emitAll_patches,
    init_emitAll_log, St.denyRequest]
  cases hd : denials evs with
  | cons d ds =>
    left
    refine ⟨by simp, ?_⟩
    have hne : (St.init.emitAll evs).a.errors ≠ [] := by
      rw [init_emitAll_errors, hd]; simp
    simp [flush_denied _ hne, init_emitAll_errors, hd]
  | nil =>
    right
    have he : (St.init.emitAll evs).a.errors = [] := by rw [init_emitAll_errors, hd]
    cases hp : patchOps evs with
    | nil =>
      left
      simp [flush_allowed _ he, init_emitAll_patch]
    | cons op ops =>
      right
      cases hm : env.jsonMarshal (op :: ops) with
      | ok bytes =>
        left
        refine ⟨rfl, by simp, bytes, rfl, ?_⟩
        simp [AdmissionResponder.Flush, AdmissionResponder.HasErrors, AdmissionResponder.SetPatch,
          AdmissionResponder.SetAllowed, he]
      | error err =>
        right
        refine ⟨rfl, by simp, err, rfl, ?_⟩
        simp [AdmissionResponder.Flush, AdmissionResponder.HasErrors,
          AdmissionResponder.StringToAdmissionResponse, he]

/-! ## Lists with one marked element -/

theorem unique_split {α : Type} (p : α → Bool) {a b a' b' : List α} {x x' : α}
    (h : a ++ x :: b = a' ++ x' :: b') (hx : p x = true)
    (ha' : ∀ y ∈ a', p y = false) (hb' : ∀ y ∈ b', p y = false) :
    a = a' ∧ x = x' ∧ b = b' := by
  induction a generalizing a' with
  | nil =>
    cases a' with
    | nil =>
      simp only [List.nil_append, List.cons.injEq] at h
      exact ⟨rfl, h.1, h.2⟩
    | cons y a'' =>
      simp only [List.nil_append, List.cons_append, List.cons.injEq] at h
      have := ha' y (List.mem_cons_self _ _)
      rw [← h.1, hx] at this
      exact absurd this (by decide)
  | cons z a0 ih =>
    cases a' with
    | nil =>
      simp only [List.nil_append, List.cons_append, List.cons.injEq] at h
      have hmem : x ∈ b' := by rw [← h.2]; simp
      have := hb' x hmem
      rw [hx] at this
      exact absurd this (by decide)
    | cons y a'' =>
      simp only [List.cons_append, List.cons.injEq] at h
      obtain ⟨h1, h2, h3⟩ := ih h.2 (fun w hw => ha' w (List.mem_cons_of_mem _ hw))
      exact ⟨by rw [h.1, h1], h2, h3⟩

/-! ## Outage of the trust server -/

theorem EndsInOutage.append_left {env : Env} {l evs : List Event}
    (hl : ∀ e ∈ l, e.isOutage = false) (h : EndsInOutage env evs) :
    EndsInOutage env (l ++ evs) := by
  obtain ⟨pre, σ, raw, img, server, token, signers, err, hevs, herr, hpre, hmem⟩ := h
  refine ⟨l ++ pre, σ, raw, img, server, token, signers, err, ?_, herr, ?_, ?_⟩
  · rw [hevs, List.append_assoc]
  · intro e he
    rcases List.mem_append.mp he with he | he
    · exact hl e he
    · exact hpre e he
  · exact List.mem_append_right _ hmem

theorem quiet_not_outage {σ : Slot} {ns : String} {img : Reference} {policy : Policy} {e : Event}
    (h : Quiet σ ns img policy e) : e.isOutage = false := by
  cases h with
  | secretToken => rfl
  | trustToken => rfl
  | signer => rfl
  | unauthorized server token signers err hurl h401 =>
    simp [Event.isOutage, GoError.isOutage, h401]

theorem containerTrace_outage {env : Env} {ns specPath : String} {pod : PodSpec} {σ : Slot}
    {c : Container} {allowed : Bool} {fl : Flow} {evs : List Event}
    (h : ContainerTrace env ns specPath pod σ c allowed fl evs) : OutageSpec env fl evs := by
  cases h with
  | parseError err => intro e he; simp at he; rcases he with rfl | rfl <;> rfl
  | policyError img err => intro e he; simp at he; rcases he with rfl | rfl | rfl <;> rfl
  | notEnforced img policy h => intro e he; simp at he; rcases he with rfl | rfl | rfl <;> rfl
  | noSecret img policy h hs => intro e he; simp at he; rcases he with rfl | rfl | rfl <;> rfl
  | attempts img policy fl q t hne hs hq ht =>
    have hhead : ∀ e ∈ [Event.NewReference σ c.Image (Except.ok img),
        Event.GetPolicyToEnforce σ ns img.Str (Except.ok (some policy))] ++ q,
        e.isOutage = false := by
      intro e he
      simp only [List.cons_append, List.nil_append, List.mem_cons] at he
      rcases he with rfl | rfl | he
      · rfl
      · rfl
      · exact quiet_not_outage (hq e he)
    cases ht with
    | urlError err hurl =>
      intro e he
      simp only [List.mem_cons, List.mem_append, List.mem_singleton, List.not_mem_nil,
        or_false] at he
      rcases he with rfl | rfl | he | rfl
      · rfl
      · rfl
      · exact quiet_not_outage (hq e he)
      · rfl
    | signerError err =>
      intro e he
      simp only [List.mem_cons, List.mem_append, List.mem_singleton, List.not_mem_nil,
        or_false] at he
      rcases he with rfl | rfl | he | rfl
      · rfl
      · rfl
      · exact quiet_not_outage (hq e he)
      · rfl
    | lookupDenied server token signers err hurl h401 hsrv =>
      intro e he
      simp only [List.mem_cons, List.mem_append, List.mem_singleton, List.not_mem_nil,
        or_false] at he
      rcases he with rfl | rfl | he | rfl | rfl
      · rfl
      · rfl
      · exact quiet_not_outage (hq e he)
      · simp [Event.isOutage, GoError.isOutage, hsrv]
      · rfl
    | success server token signers digest hurl =>
      intro e he
      simp only [List.mem_cons, List.mem_append, List.mem_singleton, List.not_mem_nil,
        or_false] at he
      rcases he with rfl | rfl | he | rfl | he | rfl
      · rfl
      · rfl
      · exact quiet_not_outage (hq e he)
      · rfl
      · split at he
        · rw [List.mem_singleton.mp he]; rfl
        · exact absurd he (List.not_mem_nil _)
      · rfl
    | exhaustedDeny h =>
      intro e he
      simp only [List.mem_cons, List.mem_append, List.mem_singleton, List.not_mem_nil,
        or_false] at he
      rcases he with rfl | rfl | he | rfl
      · rfl
      · rfl
      · exact quiet_not_outage (hq e he)
      · rfl
    | exhaustedSilent h =>
      intro e he
      simp only [List.mem_cons, List.mem_append, List.not_mem_nil, or_false] at he
      rcases he with rfl | rfl | he
      · rfl
      · rfl
      · exact quiet_not_outage (hq e he)
    | outage server token signers err hurl h401 hsrv =>
      refine ⟨[Event.NewReference σ c.Image (Except.ok img),
        Event.GetPolicyToEnforce σ ns img.Str (Except.ok (some policy))] ++ q, σ, c.Image, img,
        server, token, signers, err, ?_, ?_, hhead, ?_⟩
      · simp
      · simp [GoError.isOutage, h401, hsrv]
      · simp

theorem loopTrace_outage {env : Env} {ns specPath : String} {pod : PodSpec} {ct : String}
    {allowed : Bool} {i : Nat} {cs : List Container} {fl : Flow} {evs : List Event}
    (h : LoopTrace env ns specPath pod ct allowed i cs fl evs) : OutageSpec env fl evs := by
  induction h with
  | done allowed i => intro e he; exact absurd he (List.not_mem_nil _)
  | stop allowed i c cs evs h => exact containerTrace_outage h
  | step allowed i c cs fl evs rest h hrest ih =>
    have h1 : ∀ e ∈ evs, e.isOutage = false := containerTrace_outage h
    cases fl with
    | next =>
      intro e he
      rcases List.mem_append.mp he with he | he
      · exact h1 e he
      · exact ih e he
    | returnFlush => exact EndsInOutage.append_left h1 ih

theorem podTrace_outage {env : Env} {ns specPath : String} {pod : PodSpec} {fl : Flow}
    {evs : List Event} (h : PodTrace env ns specPath pod fl evs) : OutageSpec env fl evs := by
  cases h with
  | initStop l1 h1 => exact loopTrace_outage h1
  | both fl l1 l2 h1 h2 =>
    have a1 : ∀ e ∈ l1, e.isOutage = false := loopTrace_outage h1
    have a2 := loopTrace_outage h2
    cases fl with
    | next =>
      intro e he
      rcases List.mem_append.mp he with he | he
      · exact a1 e he
      · exact a2 e he
    | returnFlush => exact EndsInOutage.append_left a1 a2

theorem outcome_log_of_denials (env : Env) (fl : Flow) (evs : List Event)
    (h : denials evs ≠ []) :
    outcome env fl evs =
      ({ Allowed := false, Patch := none,
         Message := some ("\n" ++ "\n".intercalate (denials evs)) }, evs) := by
  cases fl with
  | returnFlush =>
    have hne : (St.init.emitAll evs).a.errors ≠ [] := by rw [init_emitAll_errors]; exact h
    simp only [outcome, flush_denied _ hne, init_emitAll_errors]
  | next =>
    rcases finish_cases env evs with h1 | h1 | h1 | h1
    · exact h1.2
    · exact absurd h1.1 h
    · exact absurd h1.1 h
    · exact absurd h1.1 h

theorem denials_append (l1 l2 : List Event) : denials (l1 ++ l2) = denials l1 ++ denials l2 := by
  simp [denials, List.filterMap_append]

/-- A run either meets no outage, or ends right after the first one with a
denied response that carries every denial recorded. -/
theorem run_outage (env : Env) (ns specPath : String) (pod : PodSpec) :
    (∀ e ∈ (mutatePodSpecRun env ns specPath pod).2, e.isOutage = false) ∨
    (EndsInOutage env (mutatePodSpecRun env ns specPath pod).2 ∧
      (mutatePodSpecRun env ns specPath pod).1 =
        { Allowed := false, Patch := none,
          Message := some ("\n" ++ "\n".intercalate
            (denials (mutatePodSpecRun env ns specPath pod).2)) }) := by
  obtain ⟨fl, evs, htr, hrun⟩ := run_trace env ns specPath pod
  have hsp := podTrace_outage htr
  cases fl with
  | returnFlush =>
    right
    have hden : denials evs ≠ [] := by
      obtain ⟨pre, σ, raw, img, server, token, signers, err, hevs, -, -, -⟩ := hsp
      rw [hevs, denials_append]
      simp [denials, Event.denial]
    rw [hrun, outcome_log_of_denials env _ evs hden]
    exact ⟨hsp, rfl⟩
  | next =>
    left
    rw [hrun]
    simp only [outcome]
    rcases finish_cases env evs with h1 | h1 | h1 | h1
    · rw [h1.2]; exact hsp
    · rw [h1.2.2]; exact hsp
    · obtain ⟨-, -, bytes, -, h3⟩ := h1
      rw [h3]; exact hsp
    · obtain ⟨-, -, err, -, h3⟩ := h1
      rw [h3]
      intro e he
      rcases List.mem_append.mp he with he | he
      · exact hsp e he
      · rw [List.mem_singleton.mp he]; rfl

/-! ## C3: an outage makes `mutatePodSpec` return at once -/

/-- C3. If a trust lookup fails with a server-unavailable error that is not of
the unauthorized class, it is the last collaborator invocation of the run: the
only event after it is the denial recorded for the same container, so no
image parse, policy lookup, credential, token, signer or trust invocation is
made for a later pull secret or a later container.  When no trust lookup was
made before it (the outage is on the first lookup, as on the first of two
containers), `getDigest` is invoked exactly once. -/
theorem mutatePodSpec_outage_returns_at_once (env : Env) (ns specPath : String) (pod : PodSpec)
    (pre post : List Event) (ev : Event)
    (hlog : mutatePodSpecLog env ns specPath pod = pre ++ ev :: post)
    (hout : ev.isOutage = true) :
    (∃ σ msg, ev.slot = some σ ∧ post = [Event.deny σ msg]) ∧
    (∀ e ∈ post, e.isCall = false) ∧
    (pre.countP Event.isGetDigest = 0 →
      (mutatePodSpecLog env ns specPath pod).countP Event.isGetDigest = 1) := by
  unfold mutatePodSpecLog at *
  rcases run_outage env ns specPath pod with hno | ⟨hend, -⟩
  · have := hno ev (by rw [hlog]; simp)
    rw [hout] at this
    exact absurd this (by decide)
  · obtain ⟨pre', σ, raw, img, server, token, signers, err, hevs, herr, hpre, -⟩ := hend
    rw [hlog] at hevs
    have hsplit := unique_split Event.isOutage hevs hout hpre
      (by intro y hy; rw [List.mem_singleton.mp hy]; rfl)
    obtain ⟨h1, h2, h3⟩ := hsplit
    refine ⟨⟨σ, _, by rw [h2]; rfl, h3⟩, ?_, ?_⟩
    · intro e he
      rw [h3, List.mem_singleton] at he
      rw [he]; rfl
    · intro hcount
      rw [hlog, List.countP_append, hcount, h2, h3]
      rfl

/-- Instance of C3: two trust-enabled containers, the trust server unreachable; the lookup of the first container is the only one. -/
theorem mutatePodSpec_outage_returns_at_once_witness :
    mutatePodSpecLog envOutage "default" "/spec" podTwo =
      (mutatePodSpecLog envOutage "default" "/spec" podTwo).take 4 ++ outageLookup ::
        (mutatePodSpecLog envOutage "default" "/spec" podTwo).drop 5 ∧
    outageLookup.isOutage = true ∧
    (mutatePodSpecLog envOutage "default" "/spec" podTwo).countP Event.isGetDigest = 1 :=
  ⟨by rfl, by rfl,
    (mutatePodSpec_outage_returns_at_once envOutage "default" "/spec" podTwo
      ((mutatePodSpecLog envOutage "default" "/spec" podTwo).take 4)
      ((mutatePodSpecLog envOutage "default" "/spec" podTwo).drop 5) outageLookup
      (by rfl) (by rfl)).2.2 (by rfl)⟩

/-! ## C4: the denials of an outage response -/

/-- C4, counterexample. The first container has an invalid image name and the
trust lookup of the second fails with an outage: the response is denied, and
its message carries the denial of the first container before the denial of
the second, so it is not the single denial of the container with the outage. -/
theorem mutatePodSpec_outage_not_sole_denial :
    (mutatePodSpecLog envOutage "default" "/spec" podInvalidFirst).drop 6 =
      [outageLookupSecond,
       Event.deny ⟨"containers", 1⟩ ("Deny \"registry.example.com/hello\", failed to get " ++
         "content trust information: unable to reach trust server at this time: 0.")] ∧
    outageLookupSecond.isOutage = true ∧
    (mutatePodSpec envOutage "default" "/spec" podInvalidFirst).Message =
      some ("\nDeny \"registry.example.com/?\", invalid image name" ++
        "\nDeny \"registry.example.com/hello\", failed to get content trust information: " ++
        "unable to reach trust server at this time: 0.") ∧
    (mutatePodSpec envOutage "default" "/spec" podInvalidFirst).Message ≠
      some ("\nDeny \"registry.example.com/hello\", failed to get content trust information: " ++
        "unable to reach trust server at this time: 0.") := by
  refine ⟨by rfl, by rfl, by rfl, by decide⟩

/-- C4, amended. If a trust lookup for a container fails with a
server-unavailable error that is not of the unauthorized class, the response
is denied without patch, the denial `Deny "<image>", failed to get content
trust information: <error>` of that container is the last event of the run,
and the message is the denials recorded before the lookup followed by that
denial, joined by newlines after a leading newline; when no denial was
recorded before the lookup the message is that single denial. -/
theorem mutatePodSpec_outage_denial_last (env : Env) (ns specPath : String) (pod : PodSpec)
    (pre post : List Event) (ev : Event)
    (hlog : mutatePodSpecLog env ns specPath pod = pre ++ ev :: post)
    (hout : ev.isOutage = true) :
    ∃ (σ : Slot) (raw : String) (img : Reference) (server token : String)
      (signers : Option (List Signer)) (err : GoError),
      ev = Event.getDigest σ server img.NameWithoutTag token img.GetTag signers
        (Except.error err) ∧
      Event.NewReference σ raw (Except.ok img) ∈ pre ∧
      post = [Event.deny σ ("Deny " ++ goQuote env.isPrint img.Str ++
        ", failed to get content trust information: " ++ err.Error)] ∧
      mutatePodSpec env ns specPath pod =
        { Allowed := false, Patch := none,
          Message := some ("\n" ++ "\n".intercalate (denials pre ++
            ["Deny " ++ goQuote env.isPrint img.Str ++
              ", failed to get content trust information: " ++ err.Error])) } ∧
      (denials pre = [] →
        (mutatePodSpec env ns specPath pod).Message =
          some ("\n" ++ ("Deny " ++ goQuote env.isPrint img.Str ++
            ", failed to get content trust information: " ++ err.Error))) := by
  unfold mutatePodSpecLog at hlog
  unfold mutatePodSpec
  rcases run_outage env ns specPath pod with hno | ⟨hend, hresp⟩
  · have := hno ev (by rw [hlog]; simp)
    rw [hout] at this
    exact absurd this (by decide)
  · obtain ⟨pre', σ, raw, img, server, token, signers, err, hevs, herr, hpre, hmem⟩ := hend
    have hevs' := hevs
    rw [hlog] at hevs'
    obtain ⟨h1, h2, h3⟩ := unique_split Event.isOutage hevs' hout hpre
      (by intro y hy; rw [List.mem_singleton.mp hy]; rfl)
    have hden : denials (mutatePodSpecRun env ns specPath pod).2 =
        denials pre ++ ["Deny " ++ goQuote env.isPrint img.Str ++
          ", failed to get content trust information: " ++ err.Error] := by
      rw [hevs, denials_append, h1]
      rfl
    refine ⟨σ, raw, img, server, token, signers, err, h2, by rw [h1]; exact hmem, h3, ?_, ?_⟩
    · rw [hresp, hden]
    · intro hnone
      rw [hresp, hden, hnone]
      rfl

/-- Instance of C4 as amended: two trust-enabled containers, the trust server unreachable. -/
theorem mutatePodSpec_outage_denial_last_witness :
    mutatePodSpecLog envOutage "default" "/spec" podTwo =
      (mutatePodSpecLog envOutage "default" "/spec" podTwo).take 4 ++ outageLookup ::
        (mutatePodSpecLog envOutage "default" "/spec" podTwo).drop 5 ∧
    outageLookup.isOutage = true ∧
    (mutatePodSpec envOutage "default" "/spec" podTwo).Allowed = false := by
  refine ⟨by rfl, by rfl, ?_⟩
  obtain ⟨σ, raw, img, server, token, signers, err, -, -, -, h, -⟩ :=
    mutatePodSpec_outage_denial_last envOutage "default" "/spec" podTwo
      ((mutatePodSpecLog envOutage "default" "/spec" podTwo).take 4)
      ((mutatePodSpecLog envOutage "default" "/spec" podTwo).drop 5) outageLookup
      (by rfl) (by rfl)
  rw [h]

/-! ## Slots of the events -/

theorem quiet_slot {σ : Slot} {ns : String} {img : Reference} {policy : Policy} {e : Event}
    (h : Quiet σ ns img policy e) :
    e.slot = some σ ∧ e.denial = none ∧ e.denyAt = none ∧ e.patchOp = none ∧
      e.patchSlot = none ∧ e.isTrustCall = true := by
  cases h <;> exact ⟨rfl, rfl, rfl, rfl, rfl, rfl⟩

theorem quiet_filterMap_denyAt {σ : Slot} {ns : String} {img : Reference} {policy : Policy}
    {q : List Event} (hq : ∀ e ∈ q, Quiet σ ns img policy e) : q.filterMap Event.denyAt = [] := by
  rw [List.filterMap_eq_nil_iff]
  intro e he
  exact (quiet_slot (hq e he)).2.2.1

theorem quiet_filterMap_patchSlot {σ : Slot} {ns : String} {img : Reference} {policy : Policy}
    {q : List Event} (hq : ∀ e ∈ q, Quiet σ ns img policy e) :
    q.filterMap Event.patchSlot = [] := by
  rw [List.filterMap_eq_nil_iff]
  intro e he
  exact (quiet_slot (hq e he)).2.2.2.2.1

theorem ending_slot {env : Env} {specPath : String} {σ : Slot} {c : Container}
    {img : Reference} {policy : Policy} {allowed : Bool} {fl : Flow} {t : List Event}
    (h : Ending env specPath σ c img policy allowed fl t) :
    (∀ e ∈ t, e.slot = some σ) ∧
    List.Sublist ((t.filterMap Event.denyAt).map Prod.fst) [σ] ∧
    List.Sublist (t.filterMap Event.patchSlot) [σ] := by
  cases h with
  | urlError err hurl => simp [Event.slot, Event.denyAt, Event.patchSlot]
  | signerError err => simp [Event.slot, Event.denyAt, Event.patchSlot]
  | lookupDenied server token signers err hurl h401 hsrv =>
    simp [Event.slot, Event.denyAt, Event.patchSlot]
  | outage server token signers err hurl h401 hsrv =>
    simp [Event.slot, Event.denyAt, Event.patchSlot]
  | success server token signers digest hurl =>
    by_cases hc : stringsContains c.Image img.Str = true <;>
      simp [hc, Event.slot, Event.denyAt, Event.patchSlot]
  | exhaustedDeny h => simp [Event.slot, Event.denyAt, Event.patchSlot]
  | exhaustedSilent h => simp

theorem containerTrace_slot {env : Env} {ns specPath : String} {pod : PodSpec} {σ : Slot}
    {c : Container} {allowed : Bool} {fl : Flow} {evs : List Event}
    (h : ContainerTrace env ns specPath pod σ c allowed fl evs) :
    (∀ e ∈ evs, e.slot = some σ) ∧
    List.Sublist ((evs.filterMap Event.denyAt).map Prod.fst) [σ] ∧
    List.Sublist (evs.filterMap Event.patchSlot) [σ] := by
  cases h with
  | parseError err => simp [Event.slot, Event.denyAt, Event.patchSlot]
  | policyError img err => simp [Event.slot, Event.denyAt, Event.patchSlot]
  | notEnforced img policy h => simp [Event.slot, Event.denyAt, Event.patchSlot]
  | noSecret img policy h hs => simp [Event.slot, Event.denyAt, Event.patchSlot]
  | attempts img policy fl q t hne hs hq ht =>
    obtain ⟨h1, h2, h3⟩ := ending_slot ht
    refine ⟨?_, ?_, ?_⟩
    · intro e he
      simp only [List.mem_cons, List.mem_append] at he
      rcases he with rfl | rfl | he | he
      · rfl
      · rfl
      · exact (quiet_slot (hq e he)).1
      · exact h1 e he
    · simpa [List.filterMap_cons, List.filterMap_append, Event.denyAt,
        quiet_filterMap_denyAt hq] using h2
    · simpa [List.filterMap_cons, List.filterMap_append, Event.patchSlot,
        quiet_filterMap_patchSlot hq] using h3

theorem loopTrace_slot {env : Env} {ns specPath : String} {pod : PodSpec} {ct : String}
    {allowed : Bool} {i : Nat} {cs : List Container} {fl : Flow} {evs : List Event}
    (h : LoopTrace env ns specPath pod ct allowed i cs fl evs) :
    (∀ e ∈ evs, ∃ j, e.slot = some ⟨ct, j⟩ ∧ i ≤ j ∧ j < i + cs.length) ∧
    List.Sublist ((evs.filterMap Event.denyAt).map Prod.fst) (loopSlots ct i cs.length) ∧
    List.Sublist (evs.filterMap Event.patchSlot) (loopSlots ct i cs.length) := by
  induction h with
  | done allowed i => simp
  | stop allowed i c cs evs h =>
    obtain ⟨h1, h2, h3⟩ := containerTrace_slot h
    have hsub : List.Sublist [Slot.mk ct i] (loopSlots ct i (c :: cs).length) := by
      simp [loopSlots, List.range'_succ]
    refine ⟨?_, h2.trans hsub, h3.trans hsub⟩
    intro e he
    exact ⟨i, h1 e he, le_refl _, by simp⟩
  | step allowed i c cs fl evs rest h hrest ih =>
    obtain ⟨h1, h2, h3⟩ := containerTrace_slot h
    obtain ⟨r1, r2, r3⟩ := ih
    have hsplit : loopSlots ct i (c :: cs).length = [Slot.mk ct i] ++ loopSlots ct (i + 1) cs.length := by
      simp [loopSlots, List.range'_succ]
    refine ⟨?_, ?_, ?_⟩
    · intro e he
      rcases List.mem_append.mp he with he | he
      · exact ⟨i, h1 e he, le_refl _, by simp⟩
      · obtain ⟨j, hj, hij, hjn⟩ := r1 e he
        exact ⟨j, hj, by omega, by simp only [List.length_cons]; omega⟩
    · rw [hsplit, List.filterMap_append, List.map_append]
      exact List.Sublist.append h2 r2
    · rw [hsplit, List.filterMap_append]
      exact List.Sublist.append h3 r3

theorem evaluationOrder_eq (pod : PodSpec) :
    evaluationOrder pod = loopSlots "initContainers" 0 pod.InitContainers.length ++
      loopSlots "containers" 0 pod.Containers.length := by
  simp [evaluationOrder, loopSlots, List.range_eq_range']

theorem mem_loopSlots {ct : String} {i n : Nat} {σ : Slot} :
    σ ∈ loopSlots ct i n ↔ σ.containerType = ct ∧ i ≤ σ.containerIndex ∧
      σ.containerIndex < i + n := by
  obtain ⟨t, j⟩ := σ
  simp only [loopSlots, List.mem_map, List.mem_range'_1, Slot.mk.injEq]
  constructor
  · rintro ⟨k, hk, rfl, rfl⟩
    exact ⟨rfl, hk⟩
  · rintro ⟨rfl, hk⟩
    exact ⟨j, hk, rfl, rfl⟩

theorem podTrace_slot {env : Env} {ns specPath : String} {pod : PodSpec} {fl : Flow}
    {evs : List Event} (h : PodTrace env ns specPath pod fl evs) :
    (∀ e ∈ evs, ∃ σ ∈ evaluationOrder pod, e.slot = some σ) ∧
    List.Sublist ((evs.filterMap Event.denyAt).map Prod.fst) (evaluationOrder pod) ∧
    List.Sublist (evs.filterMap Event.patchSlot) (evaluationOrder pod) := by
  rw [evaluationOrder_eq]
  cases h with
  | initStop l1 h1 =>
    obtain ⟨a1, a2, a3⟩ := loopTrace_slot h1
    refine ⟨?_, a2.trans (List.sublist_append_left _ _), a3.trans (List.sublist_append_left _ _)⟩
    intro e he
    obtain ⟨j, hj, h0, hlt⟩ := a1 e he
    exact ⟨⟨"initContainers", j⟩, List.mem_append_left _ (mem_loopSlots.mpr ⟨rfl, h0, hlt⟩), hj⟩
  | both fl l1 l2 h1 h2 =>
    obtain ⟨a1, a2, a3⟩ := loopTrace_slot h1
    obtain ⟨b1, b2, b3⟩ := loopTrace_slot h2
    refine ⟨?_, ?_, ?_⟩
    · intro e he
      rcases List.mem_append.mp he with he | he
      · obtain ⟨j, hj, h0, hlt⟩ := a1 e he
        exact ⟨⟨"initContainers", j⟩, List.mem_append_left _ (mem_loopSlots.mpr ⟨rfl, h0, hlt⟩),
          hj⟩
      · obtain ⟨j, hj, h0, hlt⟩ := b1 e he
        exact ⟨⟨"containers", j⟩, List.mem_append_right _ (mem_loopSlots.mpr ⟨rfl, h0, hlt⟩), hj⟩
    · rw [List.filterMap_append, List.map_append]
      exact List.Sublist.append a2 b2
    · rw [List.filterMap_append]
      exact List.Sublist.append a3 b3

/-! ## C5, C6: the response and the denials recorded -/

theorem endsInOutage_denials {env : Env} {evs : List Event} (h : EndsInOutage env evs) :
    denials evs ≠ [] := by
  obtain ⟨pre, σ, raw, img, server, token, signers, err, hevs, -, -, -⟩ := h
  rw [hevs, denials_append]
  simp [denials, Event.denial]

/-- The response and the log of a run, by the denials and patch operations the
containers produced (`evs` are the events of the container loops). -/
theorem run_cases (env : Env) (ns specPath : String) (pod : PodSpec) :
    ∃ fl evs, PodTrace env ns specPath pod fl evs ∧
      ((denials evs ≠ [] ∧
        mutatePodSpecRun env ns specPath pod =
          ({ Allowed := false, Patch := none,
             Message := some ("\n" ++ "\n".intercalate (denials evs)) }, evs)) ∨
      (denials evs = [] ∧ patchOps evs = [] ∧
        mutatePodSpecRun env ns specPath pod =
          ({ Allowed := true, Patch := none, Message := none }, evs)) ∨
      (denials evs = [] ∧ patchOps evs ≠ [] ∧ ∃ bytes,
        env.jsonMarshal (patchOps evs) = Except.ok bytes ∧
        mutatePodSpecRun env ns specPath pod =
          ({ Allowed := true, Patch := some bytes, Message := none }, evs)) ∨
      (denials evs = [] ∧ patchOps evs ≠ [] ∧ ∃ err,
        env.jsonMarshal (patchOps evs) = Except.error err ∧
        mutatePodSpecRun env ns specPath pod =
          ({ Allowed := false, Patch := none,
             Message := some ("\n" ++ "\n".intercalate ["Invalid Patch: " ++ err.Error]) },
           evs ++ [Event.denyRequest ("Invalid Patch: " ++ err.Error)]))) := by
  obtain ⟨fl, evs, htr, hrun⟩ := run_trace env ns specPath pod
  refine ⟨fl, evs, htr, ?_⟩
  by_cases hd : denials evs = []
  · cases fl with
    | returnFlush => exact absurd hd (endsInOutage_denials (podTrace_outage htr))
    | next =>
      rw [hrun]
      exact finish_cases env evs
  · left
    exact ⟨hd, by rw [hrun, outcome_log_of_denials env fl evs hd]⟩

/-- C5. If at least one denial was recorded during `mutatePodSpec` (by a
container, by the return on an outage, or for a patch that could not be
serialised), the response is denied, carries no patch, and its message is all
the denials recorded, joined by newlines; the patch operations other
containers produced are discarded. -/
theorem mutatePodSpec_denied_no_patch (env : Env) (ns specPath : String) (pod : PodSpec)
    (h : denials (mutatePodSpecLog env ns specPath pod) ≠ []) :
    mutatePodSpec env ns specPath pod =
      { Allowed := false, Patch := none,
        Message := some ("\n" ++ "\n".intercalate
          (denials (mutatePodSpecLog env ns specPath pod))) } := by
  unfold mutatePodSpecLog at *
  unfold mutatePodSpec
  obtain ⟨fl, evs, -, h1 | h1 | h1 | h1⟩ := run_cases env ns specPath pod
  · rw [h1.2]
  · rw [h1.2.2] at h; exact absurd h1.1 h
  · obtain ⟨hd, -, bytes, -, hr⟩ := h1
    rw [hr] at h; exact absurd hd h
  · obtain ⟨hd, -, err, -, hr⟩ := h1
    rw [hr]
    simp only [denials_append, hd, List.nil_append]
    rfl

/-- Instance of C5: the first container is signed and yields a patch operation, the second has an invalid image name; the response carries no patch. -/
theorem mutatePodSpec_denied_no_patch_witness :
    denials (mutatePodSpecLog envSigned "default" "/spec" podSignedThenInvalid) ≠ [] ∧
    (patchOps (mutatePodSpecLog envSigned "default" "/spec" podSignedThenInvalid)).length = 1 ∧
    (mutatePodSpec envSigned "default" "/spec" podSignedThenInvalid).Patch = none := by
  have h := mutatePodSpec_denied_no_patch envSigned "default" "/spec" podSignedThenInvalid
    (by decide)
  exact ⟨by decide, by rfl, by rw [h]⟩

/-- C6. If no denial was recorded during `mutatePodSpec`, the response is
allowed, has no message, and its patch is the serialisation of the patch
operations emitted, in the order of emission, which follows the evaluation
order of the containers; the patch is empty when no operation was emitted. -/
theorem mutatePodSpec_allowed_patch (env : Env) (ns specPath : String) (pod : PodSpec)
    (h : denials (mutatePodSpecLog env ns specPath pod) = []) :
    (mutatePodSpec env ns specPath pod).Allowed = true ∧
    (mutatePodSpec env ns specPath pod).Message = none ∧
    (patchOps (mutatePodSpecLog env ns specPath pod) = [] →
      (mutatePodSpec env ns specPath pod).Patch = none) ∧
    (patchOps (mutatePodSpecLog env ns specPath pod) ≠ [] →
      ∃ bytes, env.jsonMarshal (patchOps (mutatePodSpecLog env ns specPath pod)) =
          Except.ok bytes ∧
        (mutatePodSpec env ns specPath pod).Patch = some bytes) ∧
    List.Sublist ((mutatePodSpecLog env ns specPath pod).filterMap Event.patchSlot)
      (evaluationOrder pod) := by
  unfold mutatePodSpecLog at *
  unfold mutatePodSpec
  obtain ⟨fl, evs, htr, h1 | h1 | h1 | h1⟩ := run_cases env ns specPath pod
  · rw [h1.2] at h; exact absurd h h1.1
  · obtain ⟨-, hp, hr⟩ := h1
    rw [hr]
    exact ⟨rfl, rfl, fun _ => rfl, fun hne => absurd hp hne, (podTrace_slot htr).2.2⟩
  · obtain ⟨-, hp, bytes, hm, hr⟩ := h1
    rw [hr]
    exact ⟨rfl, rfl, fun hnil => absurd hnil hp, fun _ => ⟨bytes, hm, rfl⟩,
      (podTrace_slot htr).2.2⟩
  · obtain ⟨-, -, err, -, hr⟩ := h1
    rw [hr, denials_append] at h
    simp [denials, Event.denial] at h

/-- Instance of C6: two signed containers, no denial, the response is allowed. -/
theorem mutatePodSpec_allowed_patch_witness :
    denials (mutatePodSpecLog envSigned "default" "/spec" podTwo) = [] ∧
    (mutatePodSpec envSigned "default" "/spec" podTwo).Allowed = true :=
  ⟨by decide, (mutatePodSpec_allowed_patch envSigned "default" "/spec" podTwo (by decide)).1⟩

/-! ## C7: the denials of all containers -/

theorem denials_eq_denyAt (evs : List Event) (h : ∀ e ∈ evs, e.slot ≠ none) :
    denials evs = (evs.filterMap Event.denyAt).map Prod.snd := by
  induction evs with
  | nil => rfl
  | cons e evs ih =>
    have ih' := ih (fun x hx => h x (List.mem_cons_of_mem _ hx))
    have he := h e (List.mem_cons_self _ _)
    unfold denials at ih' ⊢
    cases e <;> simp_all [Event.denial, Event.denyAt, Event.slot]

theorem loopSlots_nodup (ct : String) (i n : Nat) : (loopSlots ct i n).Nodup := by
  unfold loopSlots
  refine List.Nodup.map ?_ (List.nodup_range' i n)
  intro a b hab
  simpa using hab

theorem evaluationOrder_nodup (pod : PodSpec) : (evaluationOrder pod).Nodup := by
  rw [evaluationOrder_eq, List.nodup_append]
  refine ⟨loopSlots_nodup _ _ _, loopSlots_nodup _ _ _, ?_⟩
  intro σ h1 h2
  have a := (mem_loopSlots.mp h1).1
  have b := (mem_loopSlots.mp h2).1
  rw [a] at b
  exact absurd b (by decide)

theorem sublist_eq_of_subset {α : Type} {l1 l2 : List α} (hsub : List.Sublist l1 l2)
    (hnd : l2.Nodup) (hall : ∀ x ∈ l2, x ∈ l1) : l1 = l2 := by
  apply hsub.eq_of_length_le
  exact (List.subperm_of_subset hnd hall).length_le

/-- C7. In a pod with at least one container in which every container records
a denial, the response is denied without patch, exactly one denial is
recorded per container, in evaluation order (init containers in array order,
then regular containers in array order), and the message is these denial
messages joined by newlines, after a leading newline. -/
theorem mutatePodSpec_denials_aggregate (env : Env) (ns specPath : String) (pod : PodSpec)
    (hN : evaluationOrder pod ≠ [])
    (hall : ∀ σ ∈ evaluationOrder pod, ∃ msg,
      Event.deny σ msg ∈ mutatePodSpecLog env ns specPath pod) :
    ((mutatePodSpecLog env ns specPath pod).filterMap Event.denyAt).map Prod.fst =
      evaluationOrder pod ∧
    mutatePodSpec env ns specPath pod =
      { Allowed := false, Patch := none,
        Message := some ("\n" ++ "\n".intercalate
          (((mutatePodSpecLog env ns specPath pod).filterMap Event.denyAt).map Prod.snd)) } := by
  unfold mutatePodSpecLog at *
  unfold mutatePodSpec
  obtain ⟨fl, evs, htr, hcases⟩ := run_cases env ns specPath pod
  obtain ⟨hslot, hsub, -⟩ := podTrace_slot htr
  have hmem : ∀ σ msg, Event.deny σ msg ∈ (mutatePodSpecRun env ns specPath pod).2 →
      Event.deny σ msg ∈ evs := by
    intro σ msg h
    rcases hcases with h1 | h1 | h1 | h1
    · rw [h1.2] at h; exact h
    · rw [h1.2.2] at h; exact h
    · obtain ⟨-, -, bytes, -, hr⟩ := h1
      rw [hr] at h; exact h
    · obtain ⟨-, -, err, -, hr⟩ := h1
      rw [hr] at h
      simpa using h
  obtain ⟨σ0, hσ0⟩ := List.exists_mem_of_ne_nil _ hN
  obtain ⟨msg0, hmsg0⟩ := hall σ0 hσ0
  have hd : denials evs ≠ [] := by
    intro hnil
    have : msg0 ∈ denials evs := by
      unfold denials
      rw [List.mem_filterMap]
      exact ⟨_, hmem σ0 msg0 hmsg0, rfl⟩
    rw [hnil] at this
    exact absurd this (List.not_mem_nil _)
  have hrun : mutatePodSpecRun env ns specPath pod =
      ({ Allowed := false, Patch := none,
         Message := some ("\n" ++ "\n".intercalate (denials evs)) }, evs) := by
    rcases hcases with h1 | h1 | h1 | h1
    · exact h1.2
    · exact absurd h1.1 hd
    · exact absurd h1.1 hd
    · exact absurd h1.1 hd
  rw [hrun] at hall ⊢
  simp only at hall ⊢
  have hno : ∀ e ∈ evs, e.slot ≠ none := by
    intro e he
    obtain ⟨σ, -, hσ⟩ := hslot e he
    rw [hσ]; simp
  refine ⟨sublist_eq_of_subset hsub (evaluationOrder_nodup pod) ?_, ?_⟩
  · intro σ hσ
    obtain ⟨msg, hmsg⟩ := hall σ hσ
    rw [List.mem_map]
    exact ⟨(σ, msg), List.mem_filterMap.mpr ⟨_, hmsg, rfl⟩, rfl⟩
  · rw [denials_eq_denyAt evs hno]

/-- Instance of C7: two containers without signed content; the message is their two denials in order. -/
theorem mutatePodSpec_denials_aggregate_witness :
    evaluationOrder podTwo ≠ [] ∧
    (∀ σ ∈ evaluationOrder podTwo, ∃ msg,
      Event.deny σ msg ∈ mutatePodSpecLog envUnsigned "default" "/spec" podTwo) ∧
    (mutatePodSpec envUnsigned "default" "/spec" podTwo).Message =
      some ("\nDeny \"registry.example.com/hello\", failed to get content trust information: " ++
        "FAKE_NO_SIGNED_IMAGE_ERROR" ++
        "\nDeny \"registry.example.com/goodbye\", failed to get content trust information: " ++
        "FAKE_NO_SIGNED_IMAGE_ERROR") := by
  have hall : ∀ σ ∈ evaluationOrder podTwo, ∃ msg,
      Event.deny σ msg ∈ mutatePodSpecLog envUnsigned "default" "/spec" podTwo := by
    intro σ hσ
    have hσ' : σ = ⟨"containers", 0⟩ ∨ σ = ⟨"containers", 1⟩ := by
      simpa [evaluationOrder, podTwo, List.range_succ] using hσ
    rcases hσ' with rfl | rfl
    · exact ⟨_, List.get?_mem (n := 5) (by rfl)⟩
    · exact ⟨_, List.get?_mem (n := 11) (by rfl)⟩
  have hN : evaluationOrder podTwo ≠ [] := by decide
  refine ⟨hN, hall, ?_⟩
  rw [(mutatePodSpec_denials_aggregate envUnsigned "default" "/spec" podTwo hN hall).2]
  rfl

/-! ## The events of one container in the log of a run -/

theorem slotEvents_append (l1 l2 : List Event) (σ : Slot) :
    slotEvents (l1 ++ l2) σ = slotEvents l1 σ ++ slotEvents l2 σ := by
  simp [slotEvents]

theorem slotEvents_eq_self {evs : List Event} {σ : Slot} (h : ∀ e ∈ evs, e.slot = some σ) :
    slotEvents evs σ = evs := by
  unfold slotEvents
  rw [List.filter_eq_self]
  intro e he
  simp [h e he]

theorem slotEvents_eq_nil {evs : List Event} {σ : Slot} (h : ∀ e ∈ evs, e.slot ≠ some σ) :
    slotEvents evs σ = [] := by
  unfold slotEvents
  rw [List.filter_eq_nil_iff]
  intro e he
  simp [h e he]

theorem mem_slotEvents {log : List Event} {σ : Slot} {e : Event} :
    e ∈ slotEvents log σ ↔ e ∈ log ∧ e.slot = some σ := by
  simp [slotEvents]

theorem loopTrace_slotEvents {env : Env} {ns specPath : String} {pod : PodSpec} {ct : String}
    {allowed : Bool} {i : Nat} {cs : List Container} {fl : Flow} {evs : List Event}
    (h : LoopTrace env ns specPath pod ct allowed i cs fl evs) (j : Nat) :
    slotEvents evs ⟨ct, j⟩ = [] ∨
    ∃ c a fl', cs.get? (j - i) = some c ∧ i ≤ j ∧
      ContainerTrace env ns specPath pod ⟨ct, j⟩ c a fl' (slotEvents evs ⟨ct, j⟩) := by
  induction h with
  | done allowed i => left; rfl
  | stop allowed i c cs evs h =>
    have h1 := (containerTrace_slot h).1
    by_cases hj : j = i
    · subst hj
      right
      rw [slotEvents_eq_self h1]
      exact ⟨c, allowed, Flow.returnFlush, by simp, le_refl _, h⟩
    · left
      apply slotEvents_eq_nil
      intro e he
      rw [h1 e he]
      simp only [ne_eq, Option.some.injEq, Slot.mk.injEq, true_and]
      exact fun hij => hj hij.symm
  | step allowed i c cs fl evs rest h hrest ih =>
    have h1 := (containerTrace_slot h).1
    have r1 := (loopTrace_slot hrest).1
    rw [slotEvents_append]
    by_cases hj : j = i
    · subst hj
      right
      have hnil : slotEvents rest ⟨ct, j⟩ = [] := by
        apply slotEvents_eq_nil
        intro e he
        obtain ⟨k, hk, hlt, -⟩ := r1 e he
        rw [hk]
        simp only [ne_eq, Option.some.injEq, Slot.mk.injEq, true_and]
        omega
      rw [slotEvents_eq_self h1, hnil, List.append_nil]
      exact ⟨c, allowed, Flow.next, by simp, le_refl _, h⟩
    · have hnil : slotEvents evs ⟨ct, j⟩ = [] := by
        apply slotEvents_eq_nil
        intro e he
        rw [h1 e he]
        simp only [ne_eq, Option.some.injEq, Slot.mk.injEq, true_and]
        exact fun hij => hj hij.symm
      rw [hnil, List.nil_append]
      rcases ih with ih | ⟨c', a, fl', hget, hle, htr⟩
      · left; exact ih
      · right
        refine ⟨c', a, fl', ?_, by omega, htr⟩
        have : j - i = (j - (i + 1)) + 1 := by omega
        rw [this]
        simpa using hget

theorem podTrace_slotEvents {env : Env} {ns specPath : String} {pod : PodSpec} {fl : Flow}
    {evs : List Event} (h : PodTrace env ns specPath pod fl evs) (σ : Slot) :
    slotEvents evs σ = [] ∨
    ∃ c a fl', containerAt pod σ = some c ∧
      ContainerTrace env ns specPath pod σ c a fl' (slotEvents evs σ) := by
  obtain ⟨t, j⟩ := σ
  have key : ∀ {ct : String} {a : Bool} {cs : List Container} {fl1 : Flow} {l : List Event},
      LoopTrace env ns specPath pod ct a 0 cs fl1 l → t ≠ ct → slotEvents l ⟨t, j⟩ = [] := by
    intro ct a cs fl1 l hl hne
    apply slotEvents_eq_nil
    intro e he
    obtain ⟨k, hk, -, -⟩ := (loopTrace_slot hl).1 e he
    rw [hk]
    simp only [ne_eq, Option.some.injEq, Slot.mk.injEq, not_and]
    intro hct
    exact absurd hct.symm hne
  have use : ∀ {ct : String} {a : Bool} {cs : List Container} {fl1 : Flow} {l : List Event},
      LoopTrace env ns specPath pod ct a 0 cs fl1 l → containersOf pod ct = some cs →
      (slotEvents l ⟨ct, j⟩ = [] ∨
      ∃ c a fl', containerAt pod ⟨ct, j⟩ = some c ∧
        ContainerTrace env ns specPath pod ⟨ct, j⟩ c a fl' (slotEvents l ⟨ct, j⟩)) := by
    intro ct a cs fl1 l hl hcs
    rcases loopTrace_slotEvents hl j with h0 | ⟨c, a', fl', hget, -, htr⟩
    · left; exact h0
    · right
      refine ⟨c, a', fl', ?_, htr⟩
      simp only [containerAt, hcs]
      simpa using hget
  have hc1 : containersOf pod "initContainers" = some pod.InitContainers := by
    simp [containersOf]
  have hc2 : containersOf pod "containers" = some pod.Containers := by
    simp [containersOf]
  cases h with
  | initStop l1 h1 =>
    by_cases ht : t = "initContainers"
    · subst ht; exact use h1 hc1
    · left; exact key h1 ht
  | both fl l1 l2 h1 h2 =>
    rw [slotEvents_append]
    by_cases ht : t = "initContainers"
    · subst ht
      rw [key h2 (by decide), List.append_nil]
      exact use h1 hc1
    · rw [key h1 ht, List.nil_append]
      by_cases ht2 : t = "containers"
      · subst ht2; exact use h2 hc2
      · left; exact key h2 ht2

/-- The events a run records for one container are none, or the trace of the
body of `containerLoop` on that container. -/
theorem run_slotEvents (env : Env) (ns specPath : String) (pod : PodSpec) (σ : Slot) :
    slotEvents (mutatePodSpecLog env ns specPath pod) σ = [] ∨
    ∃ c a fl, containerAt pod σ = some c ∧
      ContainerTrace env ns specPath pod σ c a fl
        (slotEvents (mutatePodSpecLog env ns specPath pod) σ) := by
  unfold mutatePodSpecLog
  obtain ⟨fl, evs, htr, h1 | h1 | h1 | h1⟩ := run_cases env ns specPath pod
  · rw [h1.2]; exact podTrace_slotEvents htr σ
  · rw [h1.2.2]; exact podTrace_slotEvents htr σ
  · obtain ⟨-, -, bytes, -, hr⟩ := h1
    rw [hr]; exact podTrace_slotEvents htr σ
  · obtain ⟨-, -, err, -, hr⟩ := h1
    rw [hr]
    simp only [slotEvents_append]
    have : slotEvents [Event.denyRequest ("Invalid Patch: " ++ err.Error)] σ = [] := by
      simp [slotEvents, Event.slot]
    rw [this, List.append_nil]
    exact podTrace_slotEvents htr σ

/-! ## C8: containers without trust enforcement -/

theorem ending_not_policy {env : Env} {specPath : String} {σ : Slot} {c : Container}
    {img : Reference} {policy : Policy} {allowed : Bool} {fl : Flow} {t : List Event}
    (h : Ending env specPath σ c img policy allowed fl t) : ∀ e ∈ t, e.isPolicy = false := by
  cases h with
  | urlError err hurl => simp [Event.isPolicy]
  | signerError err => simp [Event.isPolicy]
  | lookupDenied server token signers err hurl h401 hsrv => simp [Event.isPolicy]
  | outage server token signers err hurl h401 hsrv => simp [Event.isPolicy]
  | success server token signers digest hurl =>
    by_cases hc : stringsContains c.Image img.Str = true <;> simp [hc, Event.isPolicy]
  | exhaustedDeny h => simp [Event.isPolicy]
  | exhaustedSilent h => simp

theorem quiet_not_policy {σ : Slot} {ns : String} {img : Reference} {policy : Policy} {e : Event}
    (h : Quiet σ ns img policy e) : e.isPolicy = false := by
  cases h <;> rfl

theorem containerTrace_notEnforced {env : Env} {ns specPath : String} {pod : PodSpec} {σ : Slot}
    {c : Container} {allowed : Bool} {fl : Flow} {evs : List Event}
    (h : ContainerTrace env ns specPath pod σ c allowed fl evs)
    {σ' : Slot} {ns' image : String} {policy : Option Policy}
    (hmem : Event.GetPolicyToEnforce σ' ns' image (Except.ok policy) ∈ evs)
    (hne : trustNotEnforced policy = true) :
    ∃ img, evs = [Event.NewReference σ c.Image (Except.ok img),
      Event.GetPolicyToEnforce σ ns img.Str (Except.ok policy), Event.setAllowed σ] := by
  cases h with
  | parseError err => simp at hmem
  | policyError img err => simp at hmem
  | notEnforced img policy' h =>
    simp only [List.mem_cons, List.mem_singleton, Event.GetPolicyToEnforce.injEq,
      Except.ok.injEq, List.not_mem_nil, or_false, false_or, reduceCtorEq] at hmem
    obtain ⟨-, -, -, rfl⟩ := hmem
    exact ⟨img, rfl⟩
  | noSecret img policy' h hs =>
    simp only [List.mem_cons, List.mem_singleton, Event.GetPolicyToEnforce.injEq,
      Except.ok.injEq, List.not_mem_nil, or_false, false_or, reduceCtorEq] at hmem
    obtain ⟨-, -, -, rfl⟩ := hmem
    rw [h] at hne
    exact absurd hne (by decide)
  | attempts img policy' fl q t h hs hq ht =>
    simp only [List.mem_cons, List.mem_append, Event.GetPolicyToEnforce.injEq,
      Except.ok.injEq, false_or, reduceCtorEq] at hmem
    rcases hmem with ⟨-, -, -, rfl⟩ | hmem | hmem
    · rw [h] at hne
      exact absurd hne (by decide)
    · have := quiet_not_policy (hq _ hmem)
      simp [Event.isPolicy] at this
    · have := ending_not_policy ht _ hmem
      simp [Event.isPolicy] at this

theorem not_enforced_shape (env : Env) (ns specPath : String) (pod : PodSpec) (σ : Slot)
    (ns' image : String) (policy : Option Policy)
    (hmem : Event.GetPolicyToEnforce σ ns' image (Except.ok policy) ∈
      mutatePodSpecLog env ns specPath pod)
    (hne : trustNotEnforced policy = true) :
    ∃ c img, containerAt pod σ = some c ∧
      slotEvents (mutatePodSpecLog env ns specPath pod) σ =
        [Event.NewReference σ c.Image (Except.ok img),
         Event.GetPolicyToEnforce σ ns img.Str (Except.ok policy), Event.setAllowed σ] := by
  have hin : Event.GetPolicyToEnforce σ ns' image (Except.ok policy) ∈
      slotEvents (mutatePodSpecLog env ns specPath pod) σ := mem_slotEvents.mpr ⟨hmem, rfl⟩
  rcases run_slotEvents env ns specPath pod σ with h0 | ⟨c, a, fl, hc, htr⟩
  · rw [h0] at hin
    exact absurd hin (List.not_mem_nil _)
  · obtain ⟨img, himg⟩ := containerTrace_notEnforced htr hin hne
    exact ⟨c, img, hc, himg⟩

theorem run_log_superset (env : Env) (ns specPath : String) (pod : PodSpec) :
    ∃ fl evs, PodTrace env ns specPath pod fl evs ∧
      (∀ e ∈ evs, e ∈ mutatePodSpecLog env ns specPath pod) ∧
      (denials evs = [] → patchOps evs = [] →
        mutatePodSpec env ns specPath pod = { Allowed := true, Patch := none, Message := none }) := by
  unfold mutatePodSpecLog mutatePodSpec
  obtain ⟨fl, evs, htr, h1 | h1 | h1 | h1⟩ := run_cases env ns specPath pod
  · exact ⟨fl, evs, htr, by rw [h1.2]; exact fun e he => he, fun hd _ => absurd hd h1.1⟩
  · exact ⟨fl, evs, htr, by rw [h1.2.2]; exact fun e he => he, fun _ _ => by rw [h1.2.2]⟩
  · obtain ⟨-, hp, bytes, -, hr⟩ := h1
    exact ⟨fl, evs, htr, by rw [hr]; exact fun e he => he, fun _ hp' => absurd hp' hp⟩
  · obtain ⟨-, hp, err, -, hr⟩ := h1
    exact ⟨fl, evs, htr, by rw [hr]; exact fun e he => List.mem_append_left _ he,
      fun _ hp' => absurd hp' hp⟩

/-- C8. A container whose policy lookup returned nil, or a policy whose
`Trust.Enabled` is nil or false, has exactly three events in the run: its
image parse, its policy lookup, and the mark `SetAllowed`; so no patch
operation, no denial and no invocation of `GetSecretToken`,
`GetContentTrustToken`, `getSignerSecret` or `getDigest` is made for it,
whatever the pull secrets and the collaborators are.  A pod in which this
holds of every container gets an allowed response with no patch. -/
theorem mutatePodSpec_trust_not_enforced (env : Env) (ns specPath : String) (pod : PodSpec)
    (σ : Slot) (ns' image : String) (policy : Option Policy)
    (hmem : Event.GetPolicyToEnforce σ ns' image (Except.ok policy) ∈
      mutatePodSpecLog env ns specPath pod)
    (hne : trustNotEnforced policy = true) :
    (∃ c img, containerAt pod σ = some c ∧
      slotEvents (mutatePodSpecLog env ns specPath pod) σ =
        [Event.NewReference σ c.Image (Except.ok img),
         Event.GetPolicyToEnforce σ ns img.Str (Except.ok policy), Event.setAllowed σ]) ∧
    ((∀ τ ∈ evaluationOrder pod, ∃ ns'' image' policy',
        Event.GetPolicyToEnforce τ ns'' image' (Except.ok policy') ∈
          mutatePodSpecLog env ns specPath pod ∧ trustNotEnforced policy' = true) →
      mutatePodSpec env ns specPath pod = { Allowed := true, Patch := none, Message := none }) := by
  refine ⟨not_enforced_shape env ns specPath pod σ ns' image policy hmem hne, ?_⟩
  intro hall
  obtain ⟨fl, evs, htr, hsup, hresp⟩ := run_log_superset env ns specPath pod
  have hclean : ∀ e ∈ evs, e.denial = none ∧ e.patchOp = none := by
    intro e he
    obtain ⟨τ, hτ, hslot⟩ := (podTrace_slot htr).1 e he
    obtain ⟨ns'', image', policy', hm, hn⟩ := hall τ hτ
    obtain ⟨c, img, -, hshape⟩ := not_enforced_shape env ns specPath pod τ ns'' image' policy' hm hn
    have hin : e ∈ slotEvents (mutatePodSpecLog env ns specPath pod) τ :=
      mem_slotEvents.mpr ⟨hsup e he, hslot⟩
    rw [hshape] at hin
    simp only [List.mem_cons, List.mem_singleton, List.not_mem_nil, or_false] at hin
    rcases hin with rfl | rfl | rfl <;> exact ⟨rfl, rfl⟩
  apply hresp
  · unfold denials
    rw [List.filterMap_eq_nil_iff]
    exact fun e he => (hclean e he).1
  · unfold patchOps
    rw [List.filterMap_eq_nil_iff]
    exact fun e he => (hclean e he).2

/-- Instance of C8: one container whose policy has trust disabled, with a pull
secret that yields no credentials; three events, allowed, no patch. -/
theorem mutatePodSpec_trust_not_enforced_witness :
    Event.GetPolicyToEnforce ⟨"containers", 0⟩ "default" "open.example.com/app"
        (Except.ok (some policyDisabled)) ∈
      mutatePodSpecLog envNoSecret "default" "/spec" podOpen ∧
    trustNotEnforced (some policyDisabled) = true ∧
    (slotEvents (mutatePodSpecLog envNoSecret "default" "/spec" podOpen) ⟨"containers", 0⟩).length
      = 3 ∧
    mutatePodSpec envNoSecret "default" "/spec" podOpen =
      { Allowed := true, Patch := none, Message := none } := by
  have hmem : Event.GetPolicyToEnforce ⟨"containers", 0⟩ "default" "open.example.com/app"
      (Except.ok (some policyDisabled)) ∈ mutatePodSpecLog envNoSecret "default" "/spec" podOpen :=
    List.get?_mem (n := 1) (by rfl)
  have h := mutatePodSpec_trust_not_enforced envNoSecret "default" "/spec" podOpen
    ⟨"containers", 0⟩ "default" "open.example.com/app" (some policyDisabled) hmem (by rfl)
  refine ⟨hmem, by rfl, ?_, ?_⟩
  · obtain ⟨c, img, -, hs⟩ := h.1
    rw [hs]
    rfl
  · apply h.2
    intro τ hτ
    have hτ' : τ = ⟨"containers", 0⟩ := by
      simpa [evaluationOrder, podOpen, List.range_succ] using hτ
    subst hτ'
    exact ⟨"default", "open.example.com/app", some policyDisabled, hmem, by rfl⟩

/-! ## C9, C10: a successful trust lookup -/

theorem successTail_props (specPath : String) (σ : Slot) (c : Container) (img : Reference)
    (digest : Digest) :
    ∀ e ∈ successTail specPath σ c img digest,
      e.isDigestOk = false ∧ e.isCall = false ∧ e.denial = none := by
  intro e he
  unfold successTail at he
  by_cases hc : stringsContains c.Image img.Str = true
  · simp only [hc, if_true, List.singleton_append, List.mem_cons, List.mem_singleton,
      List.not_mem_nil, or_false] at he
    rcases he with rfl | rfl <;> exact ⟨rfl, rfl, rfl⟩
  · simp only [hc, if_false, List.nil_append, List.mem_singleton, Bool.false_eq_true] at he
    rw [he]; exact ⟨rfl, rfl, rfl⟩

theorem quiet_props {σ : Slot} {ns : String} {img : Reference} {policy : Policy} {e : Event}
    (h : Quiet σ ns img policy e) :
    e.isDigestOk = false ∧ e.denial = none ∧ e.patchOp = none ∧
      (e.isGetDigest = true → e.isUnauthorized = true) := by
  cases h with
  | secretToken => exact ⟨rfl, rfl, rfl, fun h => by simp [Event.isGetDigest] at h⟩
  | trustToken => exact ⟨rfl, rfl, rfl, fun h => by simp [Event.isGetDigest] at h⟩
  | signer => exact ⟨rfl, rfl, rfl, fun h => by simp [Event.isGetDigest] at h⟩
  | unauthorized server token signers err hurl h401 => exact ⟨rfl, rfl, rfl, fun _ => h401⟩

/-- An ending holds no successful lookup, or is a successful lookup followed
by its tail. -/
theorem ending_success {env : Env} {specPath : String} {σ : Slot} {c : Container}
    {img : Reference} {policy : Policy} {allowed : Bool} {fl : Flow} {t : List Event}
    (h : Ending env specPath σ c img policy allowed fl t) :
    ((∀ e ∈ t, e.isDigestOk = false) ∧ ∀ e ∈ t, e.patchOp = none) ∨
    ∃ server token signers digest, notaryURL policy img = Except.ok server ∧
      t = Event.getDigest σ server img.NameWithoutTag token img.GetTag signers
        (Except.ok digest) :: successTail specPath σ c img digest := by
  cases h with
  | urlError err hurl => left; simp [Event.isDigestOk, Event.patchOp]
  | signerError err => left; simp [Event.isDigestOk, Event.patchOp]
  | lookupDenied server token signers err hurl h401 hsrv =>
    left; simp [Event.isDigestOk, Event.patchOp]
  | outage server token signers err hurl h401 hsrv =>
    left; simp [Event.isDigestOk, Event.patchOp]
  | success server token signers digest hurl =>
    right; exact ⟨server, token, signers, digest, hurl, rfl⟩
  | exhaustedDeny h => left; simp [Event.isDigestOk, Event.patchOp]
  | exhaustedSilent h => left; simp

/-- The trace of a container that holds a successful lookup or a patch. -/
theorem containerTrace_success {env : Env} {ns specPath : String} {pod : PodSpec} {σ : Slot}
    {c : Container} {allowed : Bool} {fl : Flow} {evs : List Event}
    (h : ContainerTrace env ns specPath pod σ c allowed fl evs)
    (hex : ∃ e ∈ evs, e.isDigestOk = true ∨ e.patchOp ≠ none) :
    ∃ img policy q server token signers digest,
      (∀ e ∈ q, Quiet σ ns img policy e) ∧ notaryURL policy img = Except.ok server ∧
      evs = (Event.NewReference σ c.Image (Except.ok img) ::
        Event.GetPolicyToEnforce σ ns img.Str (Except.ok (some policy)) :: q) ++
        Event.getDigest σ server img.NameWithoutTag token img.GetTag signers (Except.ok digest) ::
          successTail specPath σ c img digest := by
  obtain ⟨e, he, hp⟩ := hex
  cases h with
  | parseError err =>
    simp only [List.mem_cons, List.mem_singleton, List.not_mem_nil, or_false] at he
    rcases he with rfl | rfl <;> simp [Event.isDigestOk, Event.patchOp] at hp
  | policyError img err =>
    simp only [List.mem_cons, List.mem_singleton, List.not_mem_nil, or_false] at he
    rcases he with rfl | rfl | rfl <;> simp [Event.isDigestOk, Event.patchOp] at hp
  | notEnforced img policy h =>
    simp only [List.mem_cons, List.mem_singleton, List.not_mem_nil, or_false] at he
    rcases he with rfl | rfl | rfl <;> simp [Event.isDigestOk, Event.patchOp] at hp
  | noSecret img policy h hs =>
    simp only [List.mem_cons, List.mem_singleton, List.not_mem_nil, or_false] at he
    rcases he with rfl | rfl | rfl <;> simp [Event.isDigestOk, Event.patchOp] at hp
  | attempts img policy fl q t hne hs hq ht =>
    rcases ending_success ht with ⟨hno, hnop⟩ | ⟨server, token, signers, digest, hurl, ht'⟩
    · exfalso
      simp only [List.mem_cons, List.mem_append] at he
      rcases he with rfl | rfl | he | he
      · simp [Event.isDigestOk, Event.patchOp] at hp
      · simp [Event.isDigestOk, Event.patchOp] at hp
      · have := quiet_props (hq e he)
        rw [this.1, this.2.2.1] at hp
        simp at hp
      · rw [hno e he, hnop e he] at hp
        simp at hp
    · refine ⟨img, policy, q, server, token, signers, digest, hq, hurl, ?_⟩
      rw [ht']
      simp

theorem digestOk_split {env : Env} {ns specPath : String} {pod : PodSpec} {σ : Slot}
    {c : Container} {allowed : Bool} {fl : Flow} {evs : List Event}
    (h : ContainerTrace env ns specPath pod σ c allowed fl evs)
    {pre post : List Event} {g : Event} (hg : g.isDigestOk = true)
    (hs : evs = pre ++ g :: post) :
    ∃ img policy q server token signers digest,
      (∀ e ∈ q, Quiet σ ns img policy e) ∧ notaryURL policy img = Except.ok server ∧
      pre = Event.NewReference σ c.Image (Except.ok img) ::
        Event.GetPolicyToEnforce σ ns img.Str (Except.ok (some policy)) :: q ∧
      g = Event.getDigest σ server img.NameWithoutTag token img.GetTag signers
        (Except.ok digest) ∧
      post = successTail specPath σ c img digest := by
  obtain ⟨img, policy, q, server, token, signers, digest, hq, hurl, hevs⟩ :=
    containerTrace_success h ⟨g, by rw [hs]; simp, Or.inl hg⟩
  rw [hs] at hevs
  obtain ⟨h1, h2, h3⟩ := unique_split Event.isDigestOk hevs hg
    (by
      intro y hy
      simp only [List.mem_cons] at hy
      rcases hy with rfl | rfl | hy
      · rfl
      · rfl
      · exact (quiet_props (hq y hy)).1)
    (fun y hy => (successTail_props specPath σ c img digest y hy).1)
  exact ⟨img, policy, q, server, token, signers, digest, hq, hurl, h1, h2, h3⟩

/-- C9. When a trust lookup for a container returns a digest, nothing was
denied or patched for the container before it, every earlier lookup for the
container was rejected as unauthorized, and after it the container has only
the patch operation (emitted exactly when the raw image contains the canonical
string, with value `NameWithTag@sha256:` and the hex of that digest) and the
mark `SetAllowed`: no collaborator is invoked for the remaining pull secrets
and no denial is recorded for the container. -/
theorem mutatePodSpec_first_success (env : Env) (ns specPath : String) (pod : PodSpec)
    (σ : Slot) (pre post : List Event) (server repo token tag : String)
    (signers : Option (List Signer)) (digest : Digest)
    (h : slotEvents (mutatePodSpecLog env ns specPath pod) σ =
      pre ++ Event.getDigest σ server repo token tag signers (Except.ok digest) :: post) :
    ∃ c img, containerAt pod σ = some c ∧
      Event.NewReference σ c.Image (Except.ok img) ∈ pre ∧
      (∀ e ∈ pre, e.denial = none ∧ e.patchOp = none ∧
        (e.isGetDigest = true → e.isUnauthorized = true)) ∧
      post = (if stringsContains c.Image img.Str then
          [Event.patch σ { Op := "replace",
                           Path := specPath ++ "/" ++ σ.containerType ++ "/" ++
                             strconvItoa σ.containerIndex ++ "/image",
                           Value := img.NameWithTag ++ "@sha256:" ++ digest.String }]
        else []) ++ [Event.setAllowed σ] ∧
      (∀ e ∈ post, e.isCall = false ∧ e.denial = none) := by
  rcases run_slotEvents env ns specPath pod σ with h0 | ⟨c, a, fl, hc, htr⟩
  · rw [h0] at h
    simp at h
  · obtain ⟨img, policy, q, server', token', signers', digest', hq, hurl, h1, h2, h3⟩ :=
      digestOk_split htr (g := Event.getDigest σ server repo token tag signers (Except.ok digest))
        rfl h
    simp only [Event.getDigest.injEq, Except.ok.injEq, true_and] at h2
    obtain ⟨-, -, -, -, -, rfl⟩ := h2
    refine ⟨c, img, hc, by rw [h1]; simp, ?_, h3, ?_⟩
    · intro e he
      rw [h1] at he
      simp only [List.mem_cons] at he
      rcases he with rfl | rfl | he
      · exact ⟨rfl, rfl, fun h => by simp [Event.isGetDigest] at h⟩
      · exact ⟨rfl, rfl, fun h => by simp [Event.isGetDigest] at h⟩
      · exact (quiet_props (hq e he)).2
    · intro e he
      rw [h3] at he
      exact (successTail_props specPath σ c img digest e he).2

/-- Instance of C9: the first of three pull secrets is rejected, the second yields the digest, the third is never tried. -/
theorem mutatePodSpec_first_success_witness :
    slotEvents (mutatePodSpecLog envSecondSecret "default" "/spec" podThreeSecrets)
        ⟨"containers", 0⟩ =
      (slotEvents (mutatePodSpecLog envSecondSecret "default" "/spec" podThreeSecrets)
        ⟨"containers", 0⟩).take 5 ++ secondSecretLookup ::
      (slotEvents (mutatePodSpecLog envSecondSecret "default" "/spec" podThreeSecrets)
        ⟨"containers", 0⟩).drop 6 ∧
    ∀ e ∈ (slotEvents (mutatePodSpecLog envSecondSecret "default" "/spec" podThreeSecrets)
        ⟨"containers", 0⟩).drop 6, e.isCall = false ∧ e.denial = none := by
  refine ⟨by rfl, ?_⟩
  obtain ⟨c, img, -, -, -, -, h⟩ :=
    mutatePodSpec_first_success envSecondSecret "default" "/spec" podThreeSecrets
      ⟨"containers", 0⟩
      ((slotEvents (mutatePodSpecLog envSecondSecret "default" "/spec" podThreeSecrets)
        ⟨"containers", 0⟩).take 5)
      ((slotEvents (mutatePodSpecLog envSecondSecret "default" "/spec" podThreeSecrets)
        ⟨"containers", 0⟩).drop 6)
      "https://registry.example.com:4443" "registry.example.com/hello" "token-regsecret"
      "latest" none { bytes := [49, 50, 51, 52, 53, 54, 55, 56, 57, 48] } (by rfl)
  exact h

/-- C10, counterexample. For the image `registry.example.com/hello` (name
without tag `registry.example.com/hello`, tag `latest`) and the digest with hex
`31323334353637383930`, the value of the emitted patch operation is
`registry.example.com/hello:latest@sha256:31323334353637383930`, with the tag,
and not `registry.example.com/hello@sha256:31323334353637383930`. -/
theorem mutatePodSpec_patch_value_keeps_tag :
    (demoReference "registry.example.com/hello").toOption.map Reference.NameWithoutTag =
      some "registry.example.com/hello" ∧
    Digest.String { bytes := [49, 50, 51, 52, 53, 54, 55, 56, 57, 48] } =
      "31323334353637383930" ∧
    patchOps (mutatePodSpecLog envSigned "default" "/spec" podHello) =
      [{ Op := "replace", Path := "/spec/containers/0/image",
         Value := "registry.example.com/hello:latest@sha256:31323334353637383930" }] ∧
    (patchOps (mutatePodSpecLog envSigned "default" "/spec" podHello)).map JSONPatch.Value ≠
      ["registry.example.com/hello@sha256:31323334353637383930"] := by
  refine ⟨by rfl, by rfl, by rfl, by decide⟩

/-- C10, amended. Every patch operation emitted for a container has the value
`<name-with-tag>@sha256:<digest-hex>`: the `NameWithTag` of the parsed image of
that container, `@sha256:`, and the hex rendering of the digest returned by a
trust lookup made for that container. -/
theorem mutatePodSpec_patch_value (env : Env) (ns specPath : String) (pod : PodSpec)
    (σ : Slot) (op : JSONPatch)
    (h : Event.patch σ op ∈ mutatePodSpecLog env ns specPath pod) :
    ∃ c img server token signers digest, containerAt pod σ = some c ∧
      Event.NewReference σ c.Image (Except.ok img) ∈ mutatePodSpecLog env ns specPath pod ∧
      Event.getDigest σ server img.NameWithoutTag token img.GetTag signers (Except.ok digest) ∈
        mutatePodSpecLog env ns specPath pod ∧
      op.Value = img.NameWithTag ++ "@sha256:" ++ digest.String := by
  have hin : Event.patch σ op ∈ slotEvents (mutatePodSpecLog env ns specPath pod) σ :=
    mem_slotEvents.mpr ⟨h, rfl⟩
  rcases run_slotEvents env ns specPath pod σ with h0 | ⟨c, a, fl, hc, htr⟩
  · rw [h0] at hin
    exact absurd hin (List.not_mem_nil _)
  · obtain ⟨img, policy, q, server, token, signers, digest, hq, -, hevs⟩ :=
      containerTrace_success htr ⟨_, hin, Or.inr (by simp [Event.patchOp])⟩
    have hsub : ∀ e, e ∈ slotEvents (mutatePodSpecLog env ns specPath pod) σ →
        e ∈ mutatePodSpecLog env ns specPath pod := fun e he => (mem_slotEvents.mp he).1
    refine ⟨c, img, server, token, signers, digest, hc, hsub _ (by rw [hevs]; simp),
      hsub _ (by rw [hevs]; simp), ?_⟩
    rw [hevs] at hin
    simp only [List.cons_append, List.mem_cons, List.mem_append, reduceCtorEq, false_or] at hin
    rcases hin with hin | hin
    · have := (quiet_props (hq _ hin)).2.2.1
      simp [Event.patchOp] at this
    · unfold successTail at hin
      by_cases hcn : stringsContains c.Image img.Str = true
      · simp only [hcn, if_true, List.singleton_append, List.mem_cons, Event.patch.injEq,
          List.mem_singleton, reduceCtorEq, or_false, List.not_mem_nil] at hin
        rw [hin.2]
        rfl
      · simp [hcn] at hin

/-- Instance of C10 as amended: the patch of the image `registry.example.com/hello`. -/
theorem mutatePodSpec_patch_value_witness :
    (mutatePodSpecLog envSigned "default" "/spec" podHello).get? 5 =
      some (Event.patch ⟨"containers", 0⟩
        { Op := "replace", Path := "/spec/containers/0/image",
          Value := "registry.example.com/hello:latest@sha256:31323334353637383930" }) ∧
    ∃ c, containerAt podHello ⟨"containers", 0⟩ = some c := by
  refine ⟨by rfl, ?_⟩
  obtain ⟨c, img, server, token, signers, digest, hc, -⟩ :=
    mutatePodSpec_patch_value envSigned "default" "/spec" podHello ⟨"containers", 0⟩
      { Op := "replace", Path := "/spec/containers/0/image",
        Value := "registry.example.com/hello:latest@sha256:31323334353637383930" }
      (List.get?_mem (n := 5) (by rfl))
  exact ⟨c, hc⟩

/-! ## C1, C2: a container whose pull secrets are all rejected -/

/-- C1, at the failing input. The first container of `podMixed` has no trust
enforcement and the second has trust enabled; the only pull secret yields no
credentials.  The response is allowed although the image of the second
container parses, its policy has trust enabled, and no trust lookup was made
in the whole run. -/
theorem mutatePodSpec_allows_without_lookup :
    mutatePodSpec envNoSecret "default" "/spec" podMixed =
      { Allowed := true, Patch := none, Message := none } ∧
    (mutatePodSpecLog envNoSecret "default" "/spec" podMixed).get? 4 =
      some (Event.GetPolicyToEnforce ⟨"containers", 1⟩ "default" "registry.example.com/hello"
        (Except.ok (some policyEnabled))) ∧
    trustNotEnforced (some policyEnabled) = false ∧
    (mutatePodSpecLog envNoSecret "default" "/spec" podMixed).countP Event.isGetDigest = 0 := by
  refine ⟨by rfl, by rfl, by rfl, by rfl⟩

/-- C2, at the failing input. In the run of `podMixed` under `envNoSecret` the
only pull-secret attempt of the trust-enabled second container ends in a
`GetSecretToken` error, which is the last event of the run: no denial is
recorded for the container, because the first container had already set the
allowed flag that line 192 reads. -/
theorem mutatePodSpec_exhaustion_not_denied :
    podMixed.ImagePullSecrets.length = 1 ∧
    (mutatePodSpecLog envNoSecret "default" "/spec" podMixed).drop 5 =
      [Event.GetSecretToken ⟨"containers", 1⟩ "default" "regsecret" "registry.example.com"
        (Except.error { msg := "secret not found", serverUnavailable := false })] ∧
    denials (mutatePodSpecLog envNoSecret "default" "/spec" podMixed) = [] ∧
    (mutatePodSpecLog envNoSecret "default" "/spec" podMixed).get? 2 =
      some (Event.setAllowed ⟨"containers", 0⟩) := by
  refine ⟨by rfl, by rfl, by rfl, by rfl⟩

/-! ## C15: `Admit` -/

/-- C15. When `GetPodSpec` fails with `ErrObjectHasParents` or
`ErrObjectHasZeroReplicas`, `Admit` returns an allowed response with no patch
and no message and records no event (no container is evaluated); when it
fails with another error, `Admit` returns a denied response whose message is
that error; when it succeeds, the result is that of `mutatePodSpec` on the
namespace of the request, the returned patch base path and the pod spec. -/
theorem Admit_entry_point (env : Env)
    (GetPodSpec : AdmissionRequest → Except PodSpecError (String × PodSpec))
    (admissionRequest : AdmissionRequest) (r : Except PodSpecError (String × PodSpec))
    (hget : GetPodSpec admissionRequest = r) :
    ((r = Except.error PodSpecError.ErrObjectHasParents ∨
        r = Except.error PodSpecError.ErrObjectHasZeroReplicas) →
      Admit env GetPodSpec admissionRequest =
        ({ Allowed := true, Patch := none, Message := none }, [])) ∧
    (∀ err, r = Except.error (PodSpecError.other err) →
      Admit env GetPodSpec admissionRequest =
        ({ Allowed := false, Patch := none, Message := some ("\n" ++ err.Error) }, [])) ∧
    (∀ podSpecLocation ps, r = Except.ok (podSpecLocation, ps) →
      Admit env GetPodSpec admissionRequest =
        mutatePodSpecRun env admissionRequest.Namespace podSpecLocation ps) := by
  subst hget
  refine ⟨?_, ?_, ?_⟩
  · rintro (h | h) <;> simp [Admit, h]
  · intro err h
    simp only [Admit, h]
    rw [flush_denied _ (by simp [AdmissionResponder.ToAdmissionResponse,
      AdmissionResponder.StringToAdmissionResponse, AdmissionResponder.new])]
    rfl
  · intro loc ps h
    simp [Admit, h]

/-- Instance of C15: a request whose object has parents is allowed without
evaluating the pod. -/
theorem Admit_entry_point_witness :
    (fun _ : AdmissionRequest =>
        (Except.error PodSpecError.ErrObjectHasParents : Except PodSpecError (String × PodSpec)))
      ⟨"default"⟩ = Except.error PodSpecError.ErrObjectHasParents ∧
    Admit envSigned (fun _ => Except.error PodSpecError.ErrObjectHasParents) ⟨"default"⟩ =
      ({ Allowed := true, Patch := none, Message := none }, []) :=
  ⟨rfl, (Admit_entry_point envSigned (fun _ => Except.error PodSpecError.ErrObjectHasParents)
    ⟨"default"⟩ (Except.error PodSpecError.ErrObjectHasParents) rfl).1 (Or.inl rfl)⟩

/-! ## The next container -/

theorem containerTrace_head {env : Env} {ns specPath : String} {pod : PodSpec} {σ : Slot}
    {c : Container} {allowed : Bool} {fl : Flow} {evs : List Event}
    (h : ContainerTrace env ns specPath pod σ c allowed fl evs) :
    ∃ res rest, evs = Event.NewReference σ c.Image res :: rest := by
  cases h <;> exact ⟨_, _, rfl⟩

theorem loopTrace_first {env : Env} {ns specPath : String} {pod : PodSpec} {ct : String}
    {allowed : Bool} {i : Nat} {c : Container} {cs : List Container} {fl : Flow}
    {evs : List Event} (h : LoopTrace env ns specPath pod ct allowed i (c :: cs) fl evs) :
    ∃ res, Event.NewReference ⟨ct, i⟩ c.Image res ∈ evs := by
  cases h with
  | stop _ _ _ _ _ h =>
    obtain ⟨res, rest, hr⟩ := containerTrace_head h
    exact ⟨res, by rw [hr]; simp⟩
  | step _ _ _ _ _ evs rest h hrest =>
    obtain ⟨res, tl, hr⟩ := containerTrace_head h
    exact ⟨res, by rw [hr]; simp⟩

theorem endsInOutage_mem {env : Env} {evs : List Event} (h : EndsInOutage env evs) :
    ∃ e ∈ evs, e.isOutage = true := by
  obtain ⟨pre, σ, raw, img, server, token, signers, err, hevs, herr, -, -⟩ := h
  exact ⟨Event.getDigest σ server img.NameWithoutTag token img.GetTag signers (Except.error err),
    by rw [hevs]; simp, herr⟩

theorem slot_ne_of_index {ct : String} {i j : Nat} (h : j ≠ i) :
    (some (Slot.mk ct i) : Option Slot) ≠ some ⟨ct, j⟩ := by
  simp only [ne_eq, Option.some.injEq, Slot.mk.injEq, true_and]
  exact fun hij => h hij.symm

/-- In a loop that goes on after container `j` (its events hold no outage),
the next container of the loop is parsed. -/
theorem loopTrace_continues {env : Env} {ns specPath : String} {pod : PodSpec} {ct : String}
    {allowed : Bool} {i : Nat} {cs : List Container} {fl : Flow} {evs : List Event}
    (h : LoopTrace env ns specPath pod ct allowed i cs fl evs) (j : Nat)
    (hvis : slotEvents evs ⟨ct, j⟩ ≠ [])
    (hno : ∀ e ∈ slotEvents evs ⟨ct, j⟩, e.isOutage = false) :
    (fl = Flow.returnFlush → j + 1 < i + cs.length) ∧
    (j + 1 < i + cs.length →
      ∃ c' res, cs.get? (j + 1 - i) = some c' ∧ Event.NewReference ⟨ct, j + 1⟩ c'.Image res ∈ evs) := by
  induction h with
  | done allowed i => exact absurd rfl hvis
  | stop allowed i c cs evs h =>
    exfalso
    have h1 := (containerTrace_slot h).1
    by_cases hj : j = i
    · subst hj
      rw [slotEvents_eq_self h1] at hno
      obtain ⟨e, he, hout⟩ := endsInOutage_mem (containerTrace_outage h)
      rw [hno e he] at hout
      exact absurd hout (by decide)
    · apply hvis
      apply slotEvents_eq_nil
      intro e he
      rw [h1 e he]
      exact slot_ne_of_index hj
  | step allowed i c cs fl evs rest h hrest ih =>
    have h1 := (containerTrace_slot h).1
    have r1 := (loopTrace_slot hrest).1
    rw [slotEvents_append] at hvis hno
    by_cases hj : j = i
    · subst hj
      have hcs : fl = Flow.returnFlush → cs ≠ [] := by
        intro hfl hnil
        subst hnil
        cases hrest
        exact absurd hfl (by decide)
      refine ⟨fun hfl => ?_, fun hlt => ?_⟩
      · have := List.length_pos.mpr (hcs hfl)
        simp only [List.length_cons]; omega
      · cases cs with
        | nil => simp at hlt
        | cons c' cs' =>
          obtain ⟨res, hres⟩ := loopTrace_first hrest
          exact ⟨c', res, by simp, List.mem_append_right _ hres⟩
    · have hnil : slotEvents evs ⟨ct, j⟩ = [] := by
        apply slotEvents_eq_nil
        intro e he
        rw [h1 e he]
        exact slot_ne_of_index hj
      rw [hnil, List.nil_append] at hvis hno
      obtain ⟨ih1, ih2⟩ := ih hvis hno
      have hij : i + 1 ≤ j := by
        obtain ⟨e, he⟩ := List.exists_mem_of_ne_nil _ hvis
        obtain ⟨he1, he2⟩ := mem_slotEvents.mp he
        obtain ⟨k, hk, hik, -⟩ := r1 e he1
        rw [he2] at hk
        simp only [Option.some.injEq, Slot.mk.injEq, true_and] at hk
        omega
      refine ⟨fun hfl => ?_, fun hlt => ?_⟩
      · have := ih1 hfl
        simp only [List.length_cons]; omega
      · obtain ⟨c', res, hget, hmem⟩ := ih2 (by simp only [List.length_cons] at hlt; omega)
        refine ⟨c', res, ?_, List.mem_append_right _ hmem⟩
        have : j + 1 - i = (j + 1 - (i + 1)) + 1 := by omega
        rw [this]
        simpa using hget

theorem run_evs (env : Env) (ns specPath : String) (pod : PodSpec) :
    ∃ fl evs, PodTrace env ns specPath pod fl evs ∧
      (∀ e ∈ evs, e ∈ mutatePodSpecLog env ns specPath pod) ∧
      (∀ σ, slotEvents (mutatePodSpecLog env ns specPath pod) σ = slotEvents evs σ) ∧
      (∀ e ∈ mutatePodSpecLog env ns specPath pod, e.slot ≠ none → e ∈ evs) := by
  unfold mutatePodSpecLog
  obtain ⟨fl, evs, htr, h1 | h1 | h1 | h1⟩ := run_cases env ns specPath pod
  · rw [h1.2]; exact ⟨fl, evs, htr, fun e he => he, fun σ => rfl, fun e he _ => he⟩
  · rw [h1.2.2]; exact ⟨fl, evs, htr, fun e he => he, fun σ => rfl, fun e he _ => he⟩
  · obtain ⟨-, -, bytes, -, hr⟩ := h1
    rw [hr]; exact ⟨fl, evs, htr, fun e he => he, fun σ => rfl, fun e he _ => he⟩
  · obtain ⟨-, -, err, -, hr⟩ := h1
    rw [hr]
    refine ⟨fl, evs, htr, fun e he => List.mem_append_left _ he, fun σ => ?_, fun e he hs => ?_⟩
    · rw [slotEvents_append]
      have : slotEvents [Event.denyRequest ("Invalid Patch: " ++ err.Error)] σ = [] := by
        simp [slotEvents, Event.slot]
      rw [this, List.append_nil]
    · rcases List.mem_append.mp he with he | he
      · exact he
      · rw [List.mem_singleton.mp he] at hs
        exact absurd rfl hs

theorem loopTrace_type {env : Env} {ns specPath : String} {pod : PodSpec} {ct : String}
    {allowed : Bool} {i : Nat} {cs : List Container} {fl : Flow} {evs : List Event}
    (h : LoopTrace env ns specPath pod ct allowed i cs fl evs) (σ : Slot)
    (hne : σ.containerType ≠ ct) : slotEvents evs σ = [] := by
  apply slotEvents_eq_nil
  intro e he
  obtain ⟨k, hk, -, -⟩ := (loopTrace_slot h).1 e he
  rw [hk]
  intro heq
  simp only [Option.some.injEq] at heq
  rw [← heq] at hne
  exact hne rfl

/-- A container that was evaluated without an outage is followed by the
evaluation of the next container of the pod: its image is parsed. -/
theorem run_continues (env : Env) (ns specPath : String) (pod : PodSpec) (σ τ : Slot)
    (hvis : slotEvents (mutatePodSpecLog env ns specPath pod) σ ≠ [])
    (hno : ∀ e ∈ slotEvents (mutatePodSpecLog env ns specPath pod) σ, e.isOutage = false)
    (hnext : nextSlot pod σ = some τ) :
    ∃ c res, containerAt pod τ = some c ∧
      Event.NewReference τ c.Image res ∈ mutatePodSpecLog env ns specPath pod := by
  obtain ⟨fl, evs, htr, hsup, hslot, -⟩ := run_evs env ns specPath pod
  rw [hslot] at hvis hno
  obtain ⟨t, j⟩ := σ
  have hc1 : containersOf pod "initContainers" = some pod.InitContainers := by
    simp [containersOf]
  have hc2 : containersOf pod "containers" = some pod.Containers := by
    simp [containersOf]
  unfold nextSlot at hnext
  simp only at hnext
  cases htr with
  | initStop l1 h1 =>
    by_cases ht : t = "initContainers"
    · subst ht
      obtain ⟨a1, a2⟩ := loopTrace_continues h1 j hvis hno
      have hlt := a1 rfl
      simp only [Nat.zero_add] at hlt
      simp only [hlt, if_true] at hnext
      obtain ⟨c', res, hget, hmem⟩ := a2 (by simpa using hlt)
      simp only [Option.some.injEq] at hnext
      subst hnext
      exact ⟨c', res, by simpa [containerAt, hc1] using hget, hsup _ hmem⟩
    · exact absurd (loopTrace_type h1 ⟨t, j⟩ ht) hvis
  | both fl l1 l2 h1 h2 =>
    rw [slotEvents_append] at hvis hno
    by_cases ht : t = "initContainers"
    · subst ht
      have hty : (Slot.mk "initContainers" j).containerType ≠ "containers" := by
        show "initContainers" ≠ "containers"
        decide
      rw [loopTrace_type h2 _ hty, List.append_nil] at hvis hno
      obtain ⟨-, a2⟩ := loopTrace_continues h1 j hvis hno
      by_cases hlt : j + 1 < pod.InitContainers.length
      · simp only [hlt, if_true] at hnext
        obtain ⟨c', res, hget, hmem⟩ := a2 (by simpa using hlt)
        simp only [Option.some.injEq] at hnext
        subst hnext
        exact ⟨c', res, by simpa [containerAt, hc1] using hget,
          hsup _ (List.mem_append_left _ hmem)⟩
      · simp only [hlt, if_false] at hnext
        by_cases hlast : j + 1 = pod.InitContainers.length ∧ 0 < pod.Containers.length
        · simp only [hlast, and_self, if_true, Option.some.injEq] at hnext
          subst hnext
          cases hcs : pod.Containers with
          | nil =>
            have := hlast.2
            rw [hcs] at this
            simp at this
          | cons c' cs' =>
            rw [hcs] at h2
            obtain ⟨res, hres⟩ := loopTrace_first h2
            exact ⟨c', res, by simp [containerAt, hc2, hcs],
              hsup _ (List.mem_append_right _ hres)⟩
        · simp [hlast] at hnext
    · rw [loopTrace_type h1 ⟨t, j⟩ ht, List.nil_append] at hvis hno
      simp only [ht, if_false] at hnext
      by_cases ht2 : t = "containers"
      · subst ht2
        obtain ⟨-, a2⟩ := loopTrace_continues h2 j hvis hno
        by_cases hlt : j + 1 < pod.Containers.length
        · simp only [hlt, if_true] at hnext
          obtain ⟨c', res, hget, hmem⟩ := a2 (by simpa using hlt)
          simp only [Option.some.injEq] at hnext
          subst hnext
          exact ⟨c', res, by simpa [containerAt, hc2] using hget,
            hsup _ (List.mem_append_right _ hmem)⟩
        · simp [hlt] at hnext
      · simp [ht2] at hnext

theorem loopSlots_split (ct : String) (i n : Nat) (h : i + 1 < n) :
    loopSlots ct 0 n =
      loopSlots ct 0 i ++ Slot.mk ct i :: Slot.mk ct (i + 1) :: loopSlots ct (i + 2) (n - (i + 2)) := by
  unfold loopSlots
  have h1 : List.range' 0 n = List.range' 0 i ++ List.range' i (n - i) := by
    have := List.range'_append 0 i (n - i) 1
    simp only [Nat.one_mul, Nat.zero_add] at this
    rw [this]
    congr 1
    omega
  have h2 : List.range' i (n - i) = i :: (i + 1) :: List.range' (i + 2) (n - (i + 2)) := by
    have e1 : n - i = (n - (i + 2)) + 1 + 1 := by omega
    rw [e1, List.range'_succ, List.range'_succ]
  rw [h1, h2]
  simp

/-- The slot `nextSlot` gives is the one that follows in the evaluation order. -/
theorem nextSlot_follows (pod : PodSpec) (σ τ : Slot) (h : nextSlot pod σ = some τ) :
    ∃ l1 l2, evaluationOrder pod = l1 ++ σ :: τ :: l2 := by
  obtain ⟨t, j⟩ := σ
  unfold nextSlot at h
  simp only at h
  rw [evaluationOrder_eq]
  by_cases ht : t = "initContainers"
  · subst ht
    simp only [if_true] at h
    by_cases hlt : j + 1 < pod.InitContainers.length
    · simp only [hlt, if_true, Option.some.injEq] at h
      subst h
      rw [loopSlots_split _ j _ hlt]
      exact ⟨loopSlots "initContainers" 0 j,
        loopSlots "initContainers" (j + 2) (pod.InitContainers.length - (j + 2)) ++
          loopSlots "containers" 0 pod.Containers.length, by simp [List.append_assoc]⟩
    · simp only [hlt, if_false] at h
      by_cases hlast : j + 1 = pod.InitContainers.length ∧ 0 < pod.Containers.length
      · simp only [hlast, and_self, if_true, Option.some.injEq] at h
        subst h
        have e1 : loopSlots "initContainers" 0 pod.InitContainers.length =
            loopSlots "initContainers" 0 j ++ [Slot.mk "initContainers" j] := by
          unfold loopSlots
          rw [← hlast.1, List.range'_concat]
          simp
        have e2 : loopSlots "containers" 0 pod.Containers.length =
            Slot.mk "containers" 0 :: loopSlots "containers" 1 (pod.Containers.length - 1) := by
          unfold loopSlots
          have : pod.Containers.length = (pod.Containers.length - 1) + 1 := by omega
          rw [this, List.range'_succ]
          simp
        rw [e1, e2]
        exact ⟨loopSlots "initContainers" 0 j,
          loopSlots "containers" 1 (pod.Containers.length - 1), by simp [List.append_assoc]⟩
      · simp [hlast] at h
  · simp only [ht, if_false] at h
    by_cases ht2 : t = "containers"
    · subst ht2
      simp only [if_true] at h
      by_cases hlt : j + 1 < pod.Containers.length
      · simp only [hlt, if_true, Option.some.injEq] at h
        subst h
        rw [loopSlots_split "containers" j _ hlt]
        exact ⟨loopSlots "initContainers" 0 pod.InitContainers.length ++ loopSlots "containers" 0 j,
          loopSlots "containers" (j + 2) (pod.Containers.length - (j + 2)),
          by simp [List.append_assoc]⟩
      · simp [hlt] at h
    · simp [ht2] at h

/-! ## C13: no pull secret -/

theorem containerTrace_enforced_policy {env : Env} {ns specPath : String} {pod : PodSpec}
    {σ : Slot} {c : Container} {allowed : Bool} {fl : Flow} {evs : List Event}
    (h : ContainerTrace env ns specPath pod σ c allowed fl evs)
    {σ' : Slot} {ns' image : String} {policy : Option Policy}
    (hmem : Event.GetPolicyToEnforce σ' ns' image (Except.ok policy) ∈ evs)
    (hen : trustNotEnforced policy = false) :
    ∃ img p, policy = some p ∧
      ((pod.ImagePullSecrets.length = 0 ∧
        evs = [Event.NewReference σ c.Image (Except.ok img),
          Event.GetPolicyToEnforce σ ns img.Str (Except.ok (some p)),
          Event.deny σ ("Deny " ++ goQuote env.isPrint img.Str ++
            ", no ImagePullSecret defined for " ++ img.GetHostname)]) ∨
      (pod.ImagePullSecrets.length ≠ 0 ∧ ∃ q t,
        evs = Event.NewReference σ c.Image (Except.ok img) ::
          Event.GetPolicyToEnforce σ ns img.Str (Except.ok (some p)) :: (q ++ t))) := by
  cases h with
  | parseError err => simp at hmem
  | policyError img err => simp at hmem
  | notEnforced img policy' h =>
    simp only [List.mem_cons, List.mem_singleton, Event.GetPolicyToEnforce.injEq,
      Except.ok.injEq, List.not_mem_nil, or_false, false_or, reduceCtorEq] at hmem
    obtain ⟨-, -, -, rfl⟩ := hmem
    rw [h] at hen
    exact absurd hen (by decide)
  | noSecret img policy' h hs =>
    simp only [List.mem_cons, List.mem_singleton, Event.GetPolicyToEnforce.injEq,
      Except.ok.injEq, List.not_mem_nil, or_false, false_or, reduceCtorEq] at hmem
    obtain ⟨-, -, -, rfl⟩ := hmem
    exact ⟨img, policy', rfl, Or.inl ⟨hs, rfl⟩⟩
  | attempts img policy' fl q t h hs hq ht =>
    simp only [List.mem_cons, List.mem_append, Event.GetPolicyToEnforce.injEq,
      Except.ok.injEq, false_or, reduceCtorEq] at hmem
    rcases hmem with ⟨-, -, -, rfl⟩ | hmem | hmem
    · exact ⟨img, policy', rfl, Or.inr ⟨hs, q, t, rfl⟩⟩
    · have := quiet_not_policy (hq _ hmem)
      simp [Event.isPolicy] at this
    · have := ending_not_policy ht _ hmem
      simp [Event.isPolicy] at this

/-- C13. In a pod that declares no pull secret, a container whose policy
lookup returned a policy with trust enabled has exactly three events: its
image parse, its policy lookup and the denial `Deny "<image>", no
ImagePullSecret defined for <host>`; so no call to `GetSecretToken`,
`GetContentTrustToken`, `getSignerSecret` or `getDigest` is made for it.  The
evaluation goes on: the image of the next container of the pod, if there is
one, is parsed. -/
theorem mutatePodSpec_no_pull_secret (env : Env) (ns specPath : String) (pod : PodSpec)
    (σ : Slot) (ns' image : String) (policy : Option Policy)
    (hsec : pod.ImagePullSecrets = [])
    (hmem : Event.GetPolicyToEnforce σ ns' image (Except.ok policy) ∈
      mutatePodSpecLog env ns specPath pod)
    (hen : trustNotEnforced policy = false) :
    ∃ c img p, containerAt pod σ = some c ∧ policy = some p ∧
      slotEvents (mutatePodSpecLog env ns specPath pod) σ =
        [Event.NewReference σ c.Image (Except.ok img),
         Event.GetPolicyToEnforce σ ns img.Str (Except.ok (some p)),
         Event.deny σ ("Deny " ++ goQuote env.isPrint img.Str ++
          ", no ImagePullSecret defined for " ++ img.GetHostname)] ∧
      (∀ e ∈ slotEvents (mutatePodSpecLog env ns specPath pod) σ, e.isTrustCall = false) ∧
      (∀ τ, nextSlot pod σ = some τ → ∃ c' res, containerAt pod τ = some c' ∧
        Event.NewReference τ c'.Image res ∈ mutatePodSpecLog env ns specPath pod) := by
  have hin : Event.GetPolicyToEnforce σ ns' image (Except.ok policy) ∈
      slotEvents (mutatePodSpecLog env ns specPath pod) σ := mem_slotEvents.mpr ⟨hmem, rfl⟩
  rcases run_slotEvents env ns specPath pod σ with h0 | ⟨c, a, fl, hc, htr⟩
  · rw [h0] at hin
    exact absurd hin (List.not_mem_nil _)
  · obtain ⟨img, p, hp, h1 | h1⟩ := containerTrace_enforced_policy htr hin hen
    · have hshape := h1.2
      refine ⟨c, img, p, hc, hp, hshape, ?_, ?_⟩
      · intro e he
        rw [hshape] at he
        simp only [List.mem_cons, List.mem_singleton, List.not_mem_nil, or_false] at he
        rcases he with rfl | rfl | rfl <;> rfl
      · intro τ hτ
        apply run_continues env ns specPath pod σ τ _ _ hτ
        · rw [hshape]; simp
        · intro e he
          rw [hshape] at he
          simp only [List.mem_cons, List.mem_singleton, List.not_mem_nil, or_false] at he
          rcases he with rfl | rfl | rfl <;> rfl
    · rw [hsec] at h1
      exact absurd rfl h1.1

/-- Instance of C13: two trust-enabled containers in a pod without pull secret;
the first has three events. -/
theorem mutatePodSpec_no_pull_secret_witness :
    podNoSecret.ImagePullSecrets = [] ∧
    Event.GetPolicyToEnforce ⟨"containers", 0⟩ "default" "registry.example.com/hello"
        (Except.ok (some policyEnabled)) ∈
      mutatePodSpecLog envSigned "default" "/spec" podNoSecret ∧
    trustNotEnforced (some policyEnabled) = false ∧
    (slotEvents (mutatePodSpecLog envSigned "default" "/spec" podNoSecret)
      ⟨"containers", 0⟩).length = 3 := by
  have hmem : Event.GetPolicyToEnforce ⟨"containers", 0⟩ "default" "registry.example.com/hello"
      (Except.ok (some policyEnabled)) ∈
      mutatePodSpecLog envSigned "default" "/spec" podNoSecret :=
    List.get?_mem (n := 1) (by rfl)
  refine ⟨rfl, hmem, by rfl, ?_⟩
  obtain ⟨c, img, p, -, -, hs, -⟩ :=
    mutatePodSpec_no_pull_secret envSigned "default" "/spec" podNoSecret ⟨"containers", 0⟩
      "default" "registry.example.com/hello" (some policyEnabled) rfl hmem (by rfl)
  rw [hs]
  rfl

/-! ## C12: a lookup that finds no signed content -/

theorem quiet_not_lookupDenied {σ : Slot} {ns : String} {img : Reference} {policy : Policy}
    {e : Event} (h : Quiet σ ns img policy e) : e.isLookupDenied = false := by
  cases h with
  | secretToken => rfl
  | trustToken => rfl
  | signer => rfl
  | unauthorized server token signers err hurl h401 => simp [Event.isLookupDenied, h401]

theorem ending_lookupDenied {env : Env} {specPath : String} {σ : Slot} {c : Container}
    {img : Reference} {policy : Policy} {allowed : Bool} {fl : Flow} {t : List Event}
    (h : Ending env specPath σ c img policy allowed fl t) :
    (∀ e ∈ t, e.isLookupDenied = false) ∨
    ∃ server token signers err, notaryURL policy img = Except.ok server ∧
      t = [Event.getDigest σ server img.NameWithoutTag token img.GetTag signers
            (Except.error err),
           Event.deny σ ("Deny " ++ goQuote env.isPrint img.Str ++
            ", failed to get content trust information: " ++ err.Error)] := by
  cases h with
  | urlError err hurl => left; simp [Event.isLookupDenied]
  | signerError err => left; simp [Event.isLookupDenied]
  | lookupDenied server token signers err hurl h401 hsrv =>
    right; exact ⟨server, token, signers, err, hurl, rfl⟩
  | outage server token signers err hurl h401 hsrv =>
    left; simp [Event.isLookupDenied, hsrv]
  | success server token signers digest hurl =>
    left
    by_cases hc : stringsContains c.Image img.Str = true <;> simp [hc, Event.isLookupDenied]
  | exhaustedDeny h => left; simp [Event.isLookupDenied]
  | exhaustedSilent h => left; simp

theorem lookupDenied_split {env : Env} {ns specPath : String} {pod : PodSpec} {σ : Slot}
    {c : Container} {allowed : Bool} {fl : Flow} {evs : List Event}
    (h : ContainerTrace env ns specPath pod σ c allowed fl evs)
    {pre post : List Event} {g : Event} (hg : g.isLookupDenied = true)
    (hs : evs = pre ++ g :: post) :
    ∃ img policy q server token signers err,
      (∀ e ∈ q, Quiet σ ns img policy e) ∧
      pre = Event.NewReference σ c.Image (Except.ok img) ::
        Event.GetPolicyToEnforce σ ns img.Str (Except.ok (some policy)) :: q ∧
      g = Event.getDigest σ server img.NameWithoutTag token img.GetTag signers
        (Except.error err) ∧
      post = [Event.deny σ ("Deny " ++ goQuote env.isPrint img.Str ++
        ", failed to get content trust information: " ++ err.Error)] := by
  have hgm : g ∈ evs := by rw [hs]; simp
  cases h with
  | parseError err =>
    simp only [List.mem_cons, List.mem_singleton, List.not_mem_nil, or_false] at hgm
    rcases hgm with rfl | rfl <;> simp [Event.isLookupDenied] at hg
  | policyError img err =>
    simp only [List.mem_cons, List.mem_singleton, List.not_mem_nil, or_false] at hgm
    rcases hgm with rfl | rfl | rfl <;> simp [Event.isLookupDenied] at hg
  | notEnforced img policy h =>
    simp only [List.mem_cons, List.mem_singleton, List.not_mem_nil, or_false] at hgm
    rcases hgm with rfl | rfl | rfl <;> simp [Event.isLookupDenied] at hg
  | noSecret img policy h hs =>
    simp only [List.mem_cons, List.mem_singleton, List.not_mem_nil, or_false] at hgm
    rcases hgm with rfl | rfl | rfl <;> simp [Event.isLookupDenied] at hg
  | attempts img policy fl q t hne hsec hq ht =>
    have hhead : ∀ y ∈ Event.NewReference σ c.Image (Except.ok img) ::
        Event.GetPolicyToEnforce σ ns img.Str (Except.ok (some policy)) :: q,
        y.isLookupDenied = false := by
      intro y hy
      simp only [List.mem_cons] at hy
      rcases hy with rfl | rfl | hy
      · rfl
      · rfl
      · exact quiet_not_lookupDenied (hq y hy)
    rcases ending_lookupDenied ht with hno | ⟨server, token, signers, err, -, ht'⟩
    · exfalso
      simp only [List.mem_cons, List.mem_append] at hgm
      have : g.isLookupDenied = false := by
        rcases hgm with rfl | rfl | hgm | hgm
        · rfl
        · rfl
        · exact quiet_not_lookupDenied (hq g hgm)
        · exact hno g hgm
      rw [hg] at this
      exact absurd this (by decide)
    · have hevs : pre ++ g :: post =
          (Event.NewReference σ c.Image (Except.ok img) ::
            Event.GetPolicyToEnforce σ ns img.Str (Except.ok (some policy)) :: q) ++
          Event.getDigest σ server img.NameWithoutTag token img.GetTag signers
            (Except.error err) ::
          [Event.deny σ ("Deny " ++ goQuote env.isPrint img.Str ++
            ", failed to get content trust information: " ++ err.Error)] := by
        rw [← hs, ht']; simp
      obtain ⟨h1, h2, h3⟩ := unique_split Event.isLookupDenied hevs hg hhead
        (by intro y hy; rw [List.mem_singleton.mp hy]; rfl)
      exact ⟨img, policy, q, server, token, signers, err, hq, h1, h2, h3⟩

/-- C12. When a trust lookup for a container fails with an error that is
neither of the unauthorized (401) class nor server-unavailable, the only
event recorded for the container after it is the denial `Deny "<image>",
failed to get content trust information: <error text>`: no further pull
secret is tried, nothing was denied before, no patch operation is emitted for
the container, and the image of the next container of the pod, if there is
one, is parsed. -/
theorem mutatePodSpec_lookup_denied (env : Env) (ns specPath : String) (pod : PodSpec)
    (σ : Slot) (pre post : List Event) (server repo token tag : String)
    (signers : Option (List Signer)) (err : GoError)
    (h : slotEvents (mutatePodSpecLog env ns specPath pod) σ =
      pre ++ Event.getDigest σ server repo token tag signers (Except.error err) :: post)
    (h401 : stringsContains err.Error "401" = false) (hsrv : err.serverUnavailable = false) :
    ∃ c img, containerAt pod σ = some c ∧
      Event.NewReference σ c.Image (Except.ok img) ∈ pre ∧
      post = [Event.deny σ ("Deny " ++ goQuote env.isPrint img.Str ++
        ", failed to get content trust information: " ++ err.Error)] ∧
      (∀ e ∈ pre, e.denial = none) ∧
      (∀ e ∈ slotEvents (mutatePodSpecLog env ns specPath pod) σ, e.patchOp = none) ∧
      (∀ τ, nextSlot pod σ = some τ → ∃ c' res, containerAt pod τ = some c' ∧
        Event.NewReference τ c'.Image res ∈ mutatePodSpecLog env ns specPath pod) := by
  rcases run_slotEvents env ns specPath pod σ with h0 | ⟨c, a, fl, hc, htr⟩
  · rw [h0] at h
    simp at h
  · have hg : (Event.getDigest σ server repo token tag signers (Except.error err)).isLookupDenied
        = true := by simp [Event.isLookupDenied, h401, hsrv]
    obtain ⟨img, policy, q, server', token', signers', err', hq, h1, h2, h3⟩ :=
      lookupDenied_split htr hg h
    simp only [Event.getDigest.injEq, Except.error.injEq, true_and] at h2
    obtain ⟨-, -, -, -, -, rfl⟩ := h2
    have hpre : ∀ e ∈ pre, e.denial = none ∧ e.patchOp = none ∧ e.isOutage = false := by
      intro e he
      rw [h1] at he
      simp only [List.mem_cons] at he
      rcases he with rfl | rfl | he
      · exact ⟨rfl, rfl, rfl⟩
      · exact ⟨rfl, rfl, rfl⟩
      · exact ⟨(quiet_props (hq e he)).2.1, (quiet_props (hq e he)).2.2.1,
          quiet_not_outage (hq e he)⟩
    have hall : ∀ e ∈ slotEvents (mutatePodSpecLog env ns specPath pod) σ,
        e.patchOp = none ∧ e.isOutage = false := by
      intro e he
      rw [h, h3] at he
      simp only [List.mem_append, List.mem_cons, List.mem_singleton, List.not_mem_nil,
        or_false] at he
      rcases he with he | rfl | rfl
      · exact ⟨(hpre e he).2.1, (hpre e he).2.2⟩
      · exact ⟨rfl, by simp [Event.isOutage, GoError.isOutage, hsrv]⟩
      · exact ⟨rfl, rfl⟩
    refine ⟨c, img, hc, by rw [h1]; simp, h3, fun e he => (hpre e he).1,
      fun e he => (hall e he).1, ?_⟩
    intro τ hτ
    exact run_continues env ns specPath pod σ τ (by rw [h]; simp) (fun e he => (hall e he).2) hτ

/-- Instance of C12: two containers without signed content and two pull
secrets; after the failed lookup of the first container only its denial is
recorded for it. -/
theorem mutatePodSpec_lookup_denied_witness :
    slotEvents (mutatePodSpecLog envUnsigned "default" "/spec" podTwoSecrets)
        ⟨"containers", 0⟩ =
      (slotEvents (mutatePodSpecLog envUnsigned "default" "/spec" podTwoSecrets)
        ⟨"containers", 0⟩).take 4 ++
      Event.getDigest ⟨"containers", 0⟩ "https://registry.example.com:4443"
        "registry.example.com/hello" "token" "latest" none (Except.error errUnsigned) ::
      (slotEvents (mutatePodSpecLog envUnsigned "default" "/spec" podTwoSecrets)
        ⟨"containers", 0⟩).drop 5 ∧
    stringsContains errUnsigned.Error "401" = false ∧ errUnsigned.serverUnavailable = false ∧
    ((slotEvents (mutatePodSpecLog envUnsigned "default" "/spec" podTwoSecrets)
        ⟨"containers", 0⟩).drop 5).length = 1 := by
  refine ⟨by rfl, by rfl, by rfl, ?_⟩
  obtain ⟨c, img, -, -, h, -⟩ :=
    mutatePodSpec_lookup_denied envUnsigned "default" "/spec" podTwoSecrets ⟨"containers", 0⟩
      ((slotEvents (mutatePodSpecLog envUnsigned "default" "/spec" podTwoSecrets)
        ⟨"containers", 0⟩).take 4)
      ((slotEvents (mutatePodSpecLog envUnsigned "default" "/spec" podTwoSecrets)
        ⟨"containers", 0⟩).drop 5)
      "https://registry.example.com:4443" "registry.example.com/hello" "token" "latest" none
      errUnsigned (by rfl) (by rfl) (by rfl)
  rw [h]
  rfl

/-! ## C14: the trust server of a lookup -/

theorem containerTrace_getDigest {env : Env} {ns specPath : String} {pod : PodSpec} {σ : Slot}
    {c : Container} {allowed : Bool} {fl : Flow} {evs : List Event}
    (h : ContainerTrace env ns specPath pod σ c allowed fl evs)
    {σ' : Slot} {server repo token tag : String} {signers : Option (List Signer)}
    {res : Except GoError Digest}
    (hmem : Event.getDigest σ' server repo token tag signers res ∈ evs) :
    ∃ img policy, Event.NewReference σ c.Image (Except.ok img) ∈ evs ∧
      Event.GetPolicyToEnforce σ ns img.Str (Except.ok (some policy)) ∈ evs ∧
      trustNotEnforced (some policy) = false ∧
      notaryURL policy img = Except.ok server ∧ repo = img.NameWithoutTag ∧ tag = img.GetTag := by
  cases h with
  | parseError err => simp at hmem
  | policyError img err => simp at hmem
  | notEnforced img policy h => simp at hmem
  | noSecret img policy h hs => simp at hmem
  | attempts img policy fl q t hne hs hq ht =>
    refine ⟨img, policy, by simp, by simp, hne, ?_⟩
    simp only [List.mem_cons, List.mem_append, reduceCtorEq, false_or] at hmem
    rcases hmem with hmem | hmem
    · generalize hg : Event.getDigest σ' server repo token tag signers res = g at hmem
      cases hq g hmem with
      | secretToken => simp at hg
      | trustToken => simp at hg
      | signer => simp at hg
      | unauthorized server' token' signers' err hurl h401 =>
        simp only [Event.getDigest.injEq] at hg
        obtain ⟨-, rfl, rfl, -, rfl, -⟩ := hg
        exact ⟨hurl, rfl, rfl⟩
    · cases ht with
      | urlError err hurl => simp at hmem
      | signerError err => simp at hmem
      | lookupDenied server' token' signers' err hurl h401 hsrv =>
        simp only [List.mem_cons, List.mem_singleton, Event.getDigest.injEq, reduceCtorEq,
          or_false, List.not_mem_nil] at hmem
        obtain ⟨-, rfl, rfl, -, rfl, -⟩ := hmem
        exact ⟨hurl, rfl, rfl⟩
      | outage server' token' signers' err hurl h401 hsrv =>
        simp only [List.mem_cons, List.mem_singleton, Event.getDigest.injEq, reduceCtorEq,
          or_false, List.not_mem_nil] at hmem
        obtain ⟨-, rfl, rfl, -, rfl, -⟩ := hmem
        exact ⟨hurl, rfl, rfl⟩
      | success server' token' signers' digest hurl =>
        by_cases hcn : stringsContains c.Image img.Str = true
        · simp only [hcn, if_true, List.mem_cons, List.mem_append, List.mem_singleton,
            Event.getDigest.injEq, reduceCtorEq, or_false, List.not_mem_nil] at hmem
          obtain ⟨-, rfl, rfl, -, rfl, -⟩ := hmem
          exact ⟨hurl, rfl, rfl⟩
        · simp only [hcn, if_false, List.mem_cons, List.mem_append, List.mem_singleton,
            Event.getDigest.injEq, reduceCtorEq, or_false, List.not_mem_nil, false_or,
            Bool.false_eq_true] at hmem
          obtain ⟨-, rfl, rfl, -, rfl, -⟩ := hmem
          exact ⟨hurl, rfl, rfl⟩
      | exhaustedDeny h => simp at hmem
      | exhaustedSilent h => simp at hmem

/-- C14. Every trust lookup made for a container is invoked with the
repository name and the tag of the parsed image of that container, and with
the trust server of the policy returned for that container when it is not
empty, otherwise with the value `GetContentTrustURL` of that image returned. -/
theorem mutatePodSpec_trust_server (env : Env) (ns specPath : String) (pod : PodSpec)
    (σ : Slot) (server repo token tag : String) (signers : Option (List Signer))
    (res : Except GoError Digest)
    (h : Event.getDigest σ server repo token tag signers res ∈
      mutatePodSpecLog env ns specPath pod) :
    ∃ c img policy, containerAt pod σ = some c ∧
      Event.NewReference σ c.Image (Except.ok img) ∈ mutatePodSpecLog env ns specPath pod ∧
      Event.GetPolicyToEnforce σ ns img.Str (Except.ok (some policy)) ∈
        mutatePodSpecLog env ns specPath pod ∧
      repo = img.NameWithoutTag ∧ tag = img.GetTag ∧
      (policy.Trust.TrustServer ≠ "" → server = policy.Trust.TrustServer) ∧
      (policy.Trust.TrustServer = "" → img.GetContentTrustURL = Except.ok server) := by
  have hin : Event.getDigest σ server repo token tag signers res ∈
      slotEvents (mutatePodSpecLog env ns specPath pod) σ := mem_slotEvents.mpr ⟨h, rfl⟩
  rcases run_slotEvents env ns specPath pod σ with h0 | ⟨c, a, fl, hc, htr⟩
  · rw [h0] at hin
    exact absurd hin (List.not_mem_nil _)
  · obtain ⟨img, policy, h1, h2, -, hurl, hrepo, htag⟩ := containerTrace_getDigest htr hin
    refine ⟨c, img, policy, hc, (mem_slotEvents.mp h1).1, (mem_slotEvents.mp h2).1, hrepo, htag,
      ?_, ?_⟩
    · intro hne
      unfold notaryURL at hurl
      simp only [hne, if_false, Except.ok.injEq] at hurl
      exact hurl.symm
    · intro he
      unfold notaryURL at hurl
      simpa only [he, if_true] using hurl

/-- Instance of C14: two containers with different policies; the lookup of
the second is made at the trust server of its own policy, for its own
repository. -/
theorem mutatePodSpec_trust_server_witness :
    Event.getDigest ⟨"containers", 1⟩ "https://some-trust-server.com:4443"
        "registry.example.com/goodbye" "token" "latest" none (Except.error errUnsigned) ∈
      mutatePodSpecLog envTwoServers "default" "/spec" podTwo ∧
    (mutatePodSpecLog envTwoServers "default" "/spec" podTwo).get? 4 =
      some (Event.getDigest ⟨"containers", 0⟩ "https://registry.example.com:4443"
        "registry.example.com/hello" "token" "latest" none (Except.error errUnsigned)) ∧
    ∃ c, containerAt podTwo ⟨"containers", 1⟩ = some c := by
  have hmem : Event.getDigest ⟨"containers", 1⟩ "https://some-trust-server.com:4443"
      "registry.example.com/goodbye" "token" "latest" none (Except.error errUnsigned) ∈
      mutatePodSpecLog envTwoServers "default" "/spec" podTwo :=
    List.get?_mem (n := 10) (by rfl)
  refine ⟨hmem, by rfl, ?_⟩
  obtain ⟨c, img, policy, hc, -⟩ :=
    mutatePodSpec_trust_server envTwoServers "default" "/spec" podTwo ⟨"containers", 1⟩
      "https://some-trust-server.com:4443" "registry.example.com/goodbye" "token" "latest" none
      (Except.error errUnsigned) hmem
  exact ⟨c, hc⟩

/-! ## C17, C19: the guard of the patch -/

theorem countP_isPatch (evs : List Event) :
    evs.countP Event.isPatch = (evs.filterMap Event.patchSlot).length := by
  induction evs with
  | nil => rfl
  | cons e evs ih => cases e <;> simp [Event.isPatch, Event.patchSlot, List.filterMap_cons, ih]

theorem patchOps_length (evs : List Event) :
    (patchOps evs).length = (evs.filterMap Event.patchSlot).length := by
  unfold patchOps
  induction evs with
  | nil => rfl
  | cons e evs ih => cases e <;> simp [Event.patchOp, Event.patchSlot, List.filterMap_cons, ih]

theorem run_patchSlots (env : Env) (ns specPath : String) (pod : PodSpec) :
    List.Sublist ((mutatePodSpecLog env ns specPath pod).filterMap Event.patchSlot)
      (evaluationOrder pod) := by
  unfold mutatePodSpecLog
  obtain ⟨fl, evs, htr, h1 | h1 | h1 | h1⟩ := run_cases env ns specPath pod
  · rw [h1.2]; exact (podTrace_slot htr).2.2
  · rw [h1.2.2]; exact (podTrace_slot htr).2.2
  · obtain ⟨-, -, bytes, -, hr⟩ := h1
    rw [hr]; exact (podTrace_slot htr).2.2
  · obtain ⟨-, -, err, -, hr⟩ := h1
    rw [hr]
    simpa [List.filterMap_append, Event.patchSlot] using (podTrace_slot htr).2.2

/-- The events of a container for which a patch operation is emitted. -/
theorem patch_shape (env : Env) (ns specPath : String) (pod : PodSpec) (σ : Slot)
    (op : JSONPatch) (h : Event.patch σ op ∈ mutatePodSpecLog env ns specPath pod) :
    ∃ c img policy q server token signers digest, containerAt pod σ = some c ∧
      (∀ e ∈ q, Quiet σ ns img policy e) ∧
      stringsContains c.Image img.Str = true ∧ op = patchFor specPath σ img digest ∧
      slotEvents (mutatePodSpecLog env ns specPath pod) σ =
        (Event.NewReference σ c.Image (Except.ok img) ::
          Event.GetPolicyToEnforce σ ns img.Str (Except.ok (some policy)) :: q) ++
        [Event.getDigest σ server img.NameWithoutTag token img.GetTag signers (Except.ok digest),
         Event.patch σ op, Event.setAllowed σ] := by
  have hin : Event.patch σ op ∈ slotEvents (mutatePodSpecLog env ns specPath pod) σ :=
    mem_slotEvents.mpr ⟨h, rfl⟩
  rcases run_slotEvents env ns specPath pod σ with h0 | ⟨c, a, fl, hc, htr⟩
  · rw [h0] at hin
    exact absurd hin (List.not_mem_nil _)
  · obtain ⟨img, policy, q, server, token, signers, digest, hq, -, hevs⟩ :=
      containerTrace_success htr ⟨_, hin, Or.inr (by simp [Event.patchOp])⟩
    rw [hevs] at hin
    simp only [List.cons_append, List.mem_cons, List.mem_append, reduceCtorEq, false_or] at hin
    rcases hin with hin | hin
    · have := (quiet_props (hq _ hin)).2.2.1
      simp [Event.patchOp] at this
    · unfold successTail at hin hevs
      by_cases hcn : stringsContains c.Image img.Str = true
      · simp only [hcn, if_true, List.singleton_append, List.mem_cons, Event.patch.injEq,
          List.mem_singleton, reduceCtorEq, or_false, List.not_mem_nil] at hin
        simp only [hcn, if_true, List.singleton_append] at hevs
        refine ⟨c, img, policy, q, server, token, signers, digest, hc, hq, hcn, hin.2, ?_⟩
        rw [hevs, hin.2]
      · simp [hcn] at hin

/-- C17. In every run at most one patch operation is emitted for each
container, so the operations are never more than the containers; and the
events of a container for which an operation is emitted end with a trust
lookup for it that returned a digest, the operation, and the mark
`SetAllowed`, with no operation before the lookup, and the raw image string of
the container contains the canonical string of its parsed image. -/
theorem mutatePodSpec_one_guarded_patch (env : Env) (ns specPath : String) (pod : PodSpec) :
    (∀ τ, (slotEvents (mutatePodSpecLog env ns specPath pod) τ).countP Event.isPatch ≤ 1) ∧
    (patchOps (mutatePodSpecLog env ns specPath pod)).length ≤ (evaluationOrder pod).length ∧
    (∀ σ op, Event.patch σ op ∈ mutatePodSpecLog env ns specPath pod →
      ∃ c img pre server token signers digest, containerAt pod σ = some c ∧
        stringsContains c.Image img.Str = true ∧
        Event.NewReference σ c.Image (Except.ok img) ∈ pre ∧
        (∀ e ∈ pre, e.patchOp = none) ∧
        slotEvents (mutatePodSpecLog env ns specPath pod) σ =
          pre ++ [Event.getDigest σ server img.NameWithoutTag token img.GetTag signers
              (Except.ok digest),
            Event.patch σ op, Event.setAllowed σ]) := by
  refine ⟨?_, ?_, ?_⟩
  · intro τ
    rw [countP_isPatch]
    rcases run_slotEvents env ns specPath pod τ with h0 | ⟨c, a, fl, hc, htr⟩
    · rw [h0]; simp
    · simpa using (containerTrace_slot htr).2.2.length_le
  · rw [patchOps_length]
    exact (run_patchSlots env ns specPath pod).length_le
  · intro σ op h
    obtain ⟨c, img, policy, q, server, token, signers, digest, hc, hq, hcn, -, hs⟩ :=
      patch_shape env ns specPath pod σ op h
    refine ⟨c, img, _, server, token, signers, digest, hc, hcn, by simp, ?_, hs⟩
    intro e he
    simp only [List.mem_cons] at he
    rcases he with rfl | rfl | he
    · rfl
    · rfl
    · exact (quiet_props (hq e he)).2.2.1

/-- C19. When a trust lookup for a container returns a digest and the raw
image string of the container does not contain the canonical string of its
parsed image, the only event of the container after the lookup is the mark
`SetAllowed`: no denial and no patch operation is recorded for it.  With a
parser that resolves the short name `hello` to `docker.io/library/hello`, the
pod with that one trust-enabled container gets an allowed response without
patch after a successful lookup. -/
theorem mutatePodSpec_allow_without_pinning (env : Env) (ns specPath : String) (pod : PodSpec)
    (σ : Slot) (pre post : List Event) (server repo token tag : String)
    (signers : Option (List Signer)) (digest : Digest)
    (h : slotEvents (mutatePodSpecLog env ns specPath pod) σ =
      pre ++ Event.getDigest σ server repo token tag signers (Except.ok digest) :: post) :
    (∃ c img, containerAt pod σ = some c ∧
      Event.NewReference σ c.Image (Except.ok img) ∈ pre ∧
      (stringsContains c.Image img.Str = false →
        post = [Event.setAllowed σ] ∧
        ∀ e ∈ slotEvents (mutatePodSpecLog env ns specPath pod) σ,
          e.denial = none ∧ e.patchOp = none)) ∧
    (mutatePodSpec envHub "default" "/spec" podShortName =
        { Allowed := true, Patch := none, Message := none } ∧
      (mutatePodSpecLog envHub "default" "/spec" podShortName).get? 1 =
        some (Event.GetPolicyToEnforce ⟨"containers", 0⟩ "default" "docker.io/library/hello"
          (Except.ok (some policyEnabled))) ∧
      trustNotEnforced (some policyEnabled) = false ∧
      (mutatePodSpecLog envHub "default" "/spec" podShortName).drop 4 =
        [Event.getDigest ⟨"containers", 0⟩ "https://docker.io:4443" "docker.io/library/hello"
          "token" "latest" none (Except.ok { bytes := [49, 50, 51, 52, 53, 54, 55, 56, 57, 48] }),
         Event.setAllowed ⟨"containers", 0⟩]) := by
  refine ⟨?_, by rfl, by rfl, by rfl, by rfl⟩
  rcases run_slotEvents env ns specPath pod σ with h0 | ⟨c, a, fl, hc, htr⟩
  · rw [h0] at h
    simp at h
  · obtain ⟨img, policy, q, server', token', signers', digest', hq, hurl, h1, h2, h3⟩ :=
      digestOk_split htr (g := Event.getDigest σ server repo token tag signers (Except.ok digest))
        rfl h
    refine ⟨c, img, hc, by rw [h1]; simp, ?_⟩
    intro hcn
    have hpost : post = [Event.setAllowed σ] := by
      rw [h3]
      simp [successTail, hcn]
    refine ⟨hpost, ?_⟩
    intro e he
    rw [h, hpost, h1] at he
    simp only [List.cons_append, List.mem_cons, List.mem_append, List.mem_singleton,
      List.not_mem_nil, or_false] at he
    rcases he with rfl | rfl | he | rfl | rfl
    · exact ⟨rfl, rfl⟩
    · exact ⟨rfl, rfl⟩
    · exact ⟨(quiet_props (hq e he)).2.1, (quiet_props (hq e he)).2.2.1⟩
    · exact ⟨rfl, rfl⟩
    · exact ⟨rfl, rfl⟩

/-- Instance of C19: the short image name `hello` does not contain its
canonical string; after the successful lookup only `SetAllowed` is recorded. -/
theorem mutatePodSpec_allow_without_pinning_witness :
    slotEvents (mutatePodSpecLog envHub "default" "/spec" podShortName) ⟨"containers", 0⟩ =
      (slotEvents (mutatePodSpecLog envHub "default" "/spec" podShortName)
        ⟨"containers", 0⟩).take 4 ++
      Event.getDigest ⟨"containers", 0⟩ "https://docker.io:4443" "docker.io/library/hello"
        "token" "latest" none (Except.ok { bytes := [49, 50, 51, 52, 53, 54, 55, 56, 57, 48] }) ::
      (slotEvents (mutatePodSpecLog envHub "default" "/spec" podShortName)
        ⟨"containers", 0⟩).drop 5 ∧
    stringsContains "hello" "docker.io/library/hello" = false ∧
    ∃ c, containerAt podShortName ⟨"containers", 0⟩ = some c := by
  refine ⟨by rfl, by rfl, ?_⟩
  obtain ⟨⟨c, img, hc, -⟩, -⟩ :=
    mutatePodSpec_allow_without_pinning envHub "default" "/spec" podShortName ⟨"containers", 0⟩
      ((slotEvents (mutatePodSpecLog envHub "default" "/spec" podShortName)
        ⟨"containers", 0⟩).take 4)
      ((slotEvents (mutatePodSpecLog envHub "default" "/spec" podShortName)
        ⟨"containers", 0⟩).drop 5)
      "https://docker.io:4443" "docker.io/library/hello" "token" "latest" none
      { bytes := [49, 50, 51, 52, 53, 54, 55, 56, 57, 48] } (by rfl)
  exact ⟨c, hc⟩

/-! ## C11: op and path of a patch operation -/

theorem digitChar_toNat (k : Nat) (hk : k < 10) : (Nat.digitChar k).toNat - 48 = k := by
  interval_cases k <;> rfl

theorem toDigitsCore_decode (fuel n : Nat) (ds : List Char) (h : n < fuel) :
    List.foldl (fun a ch => a * 10 + (ch.toNat - 48)) 0 (Nat.toDigitsCore 10 fuel n ds) =
      List.foldl (fun a ch => a * 10 + (ch.toNat - 48)) n ds := by
  induction fuel generalizing n ds with
  | zero => omega
  | succ fuel ih =>
    unfold Nat.toDigitsCore
    simp only
    by_cases h0 : n / 10 = 0
    · simp only [h0, if_true, List.foldl_cons, Nat.zero_mul, Nat.zero_add]
      rw [digitChar_toNat _ (Nat.mod_lt _ (by decide))]
      have : n < 10 := by omega
      rw [Nat.mod_eq_of_lt this]
    · simp only [h0, if_false]
      rw [ih (n / 10) _ (by omega)]
      simp only [List.foldl_cons]
      rw [digitChar_toNat _ (Nat.mod_lt _ (by decide))]
      have : n / 10 * 10 + n % 10 = n := by omega
      rw [this]

theorem decodeDigits_itoa (n : Nat) : decodeDigits (strconvItoa n).data = n := by
  unfold decodeDigits strconvItoa Nat.repr Nat.toDigits
  simp only [List.asString]
  exact toDigitsCore_decode (n + 1) n [] (Nat.lt_succ_self n)

theorem strconvItoa_injective {i j : Nat} (h : strconvItoa i = strconvItoa j) : i = j := by
  have := congrArg (fun s : String => decodeDigits s.data) h
  simpa only [decodeDigits_itoa] using this

theorem patchPath_injective {specPath : String} {σ τ : Slot}
    (hσ : σ.containerType = "initContainers" ∨ σ.containerType = "containers")
    (hτ : τ.containerType = "initContainers" ∨ τ.containerType = "containers")
    (h : patchPath specPath σ = patchPath specPath τ) : σ = τ := by
  obtain ⟨s, i⟩ := σ
  obtain ⟨t, j⟩ := τ
  simp only at hσ hτ
  have hd := congrArg String.data h
  simp only [patchPath, String.data_append, List.append_assoc] at hd
  have hd' := List.append_cancel_left (List.append_cancel_left hd)
  have hi : "initContainers".data = 'i' :: "nitContainers".data := rfl
  have hc : "containers".data = 'c' :: "ontainers".data := rfl
  have same : ∀ x : List Char,
      x ++ ("/".data ++ ((strconvItoa i).data ++ "/image".data)) =
        x ++ ("/".data ++ ((strconvItoa j).data ++ "/image".data)) → i = j := by
    intro x hx
    have h1 := List.append_cancel_left (List.append_cancel_left hx)
    have h2 := List.append_cancel_right h1
    exact strconvItoa_injective (String.ext h2)
  rcases hσ with rfl | rfl <;> rcases hτ with rfl | rfl
  · rw [same _ hd']
  · exfalso
    rw [hi, hc] at hd'
    simp at hd'
  · exfalso
    rw [hi, hc] at hd'
    simp at hd'
  · rw [same _ hd']

theorem mem_evaluationOrder {pod : PodSpec} {σ : Slot} (h : σ ∈ evaluationOrder pod) :
    σ.containerType = "initContainers" ∨ σ.containerType = "containers" := by
  rw [evaluationOrder_eq, List.mem_append] at h
  rcases h with h | h
  · exact Or.inl (mem_loopSlots.mp h).1
  · exact Or.inr (mem_loopSlots.mp h).1

theorem patch_paths_map (specPath : String) (log : List Event)
    (h : ∀ σ op, Event.patch σ op ∈ log → op.Path = patchPath specPath σ) :
    (patchOps log).map JSONPatch.Path = (log.filterMap Event.patchSlot).map (patchPath specPath) := by
  unfold patchOps
  induction log with
  | nil => rfl
  | cons e log ih =>
    have ih' := ih (fun σ op hm => h σ op (List.mem_cons_of_mem _ hm))
    cases e with
    | patch σ op =>
      simp only [List.filterMap_cons, Event.patchOp, Event.patchSlot, List.map_cons, ih']
      rw [h σ op (List.mem_cons_self _ _)]
    | _ => simpa [List.filterMap_cons, Event.patchOp, Event.patchSlot] using ih'

/-- C11. Every patch operation emitted by `mutatePodSpec` belongs to a
container of the pod, has op `replace` and path
`<specPath>/<kind>/<index>/image`, where kind is `initContainers` for an init
container and `containers` for a regular one and index is the position of the
container in its list, written in decimal; the paths of the operations of one
run are pairwise distinct; and under the base `/spec` the first regular
container is patched at `/spec/containers/0/image`. -/
theorem mutatePodSpec_patch_path (env : Env) (ns specPath : String) (pod : PodSpec) :
    (∀ σ op, Event.patch σ op ∈ mutatePodSpecLog env ns specPath pod →
      σ ∈ evaluationOrder pod ∧ (∃ c, containerAt pod σ = some c) ∧ op.Op = "replace" ∧
      op.Path = specPath ++ "/" ++ σ.containerType ++ "/" ++
        strconvItoa σ.containerIndex ++ "/image") ∧
    ((patchOps (mutatePodSpecLog env ns specPath pod)).map JSONPatch.Path).Nodup ∧
    (∀ op, Event.patch ⟨"containers", 0⟩ op ∈ mutatePodSpecLog env ns "/spec" pod →
      op.Path = "/spec/containers/0/image") := by
  have key : ∀ (sp : String) σ op, Event.patch σ op ∈ mutatePodSpecLog env ns sp pod →
      op.Op = "replace" ∧ op.Path = patchPath sp σ ∧ ∃ c, containerAt pod σ = some c := by
    intro sp σ op h
    obtain ⟨c, img, policy, q, server, token, signers, digest, hc, -, -, hop, -⟩ :=
      patch_shape env ns sp pod σ op h
    rw [hop]
    exact ⟨rfl, rfl, c, hc⟩
  have hsub := run_patchSlots env ns specPath pod
  refine ⟨?_, ?_, ?_⟩
  · intro σ op h
    obtain ⟨h1, h2, h3⟩ := key specPath σ op h
    refine ⟨?_, h3, h1, h2⟩
    apply hsub.subset
    rw [List.mem_filterMap]
    exact ⟨_, h, rfl⟩
  · rw [patch_paths_map specPath _ (fun σ op h => (key specPath σ op h).2.1)]
    apply List.Nodup.map_on _ ((evaluationOrder_nodup pod).sublist hsub)
    intro σ hσ τ hτ heq
    exact patchPath_injective (mem_evaluationOrder (hsub.subset hσ))
      (mem_evaluationOrder (hsub.subset hτ)) heq
  · intro op h
    rw [(key "/spec" _ op h).2.1]
    rfl

/-! ## C16: the text of the denials -/

theorem startsWith_append (b c : List Char) : startsWith (b ++ c) b = true := by
  induction b with
  | nil => cases c <;> rfl
  | cons x b ih => simp [startsWith, ih]

theorem containsChars_append (a b c : List Char) : containsChars (a ++ (b ++ c)) b = true := by
  induction a with
  | nil =>
    simp only [List.nil_append]
    cases h : b ++ c with
    | nil =>
      have hb : b = [] := (List.append_eq_nil.mp h).1
      subst hb
      rfl
    | cons x l =>
      simp only [containsChars]
      rw [← h, startsWith_append]
      rfl
  | cons x a ih =>
    have hstep : containsChars (x :: (a ++ (b ++ c))) b =
        (startsWith (x :: (a ++ (b ++ c))) b || containsChars (a ++ (b ++ c)) b) := rfl
    rw [List.cons_append, hstep, ih, Bool.or_true]

theorem stringsContains_append (a b c : String) : stringsContains (a ++ b ++ c) b = true := by
  unfold stringsContains
  simp only [String.data_append, List.append_assoc]
  exact containsChars_append _ _ _

theorem goQuote_plain (isPrint : Char → Bool) (s : String) (h : plainString s = true) :
    goQuote isPrint s = "\"" ++ s ++ "\"" := by
  unfold goQuote
  apply String.ext
  simp only [String.data_append]
  have hflat : ∀ l : List Char,
      (l.all (fun ch => decide (32 ≤ ch.toNat ∧ ch.toNat < 127 ∧ ch.toNat ≠ 34 ∧
        ch.toNat ≠ 92)) = true) → l.flatMap (quoteRune isPrint) = l := by
    intro l
    induction l with
    | nil => intro _; rfl
    | cons ch l ih =>
      intro hl
      simp only [List.all_cons, Bool.and_eq_true, decide_eq_true_eq] at hl
      obtain ⟨⟨h1, h2, h3, h4⟩, hrest⟩ := hl
      have hq : quoteRune isPrint ch = [ch] := by
        unfold quoteRune
        simp only [h3, h4, or_self, if_false, h1, h2, and_self, true_or, if_true]
      simp only [List.flatMap_cons, hq, ih hrest, List.singleton_append]
  rw [hflat s.data h]
  rfl

/-- A message of the form `Deny <%q of the image><reason>` contains the quoted
image, and the image itself when `%q` leaves it unchanged. -/
theorem deny_names_image (isPrint : Char → Bool) (image reason : String) :
    stringsContains ("Deny " ++ goQuote isPrint image ++ reason) (goQuote isPrint image) = true ∧
    (plainString image = true →
      stringsContains ("Deny " ++ goQuote isPrint image ++ reason) image = true) := by
  refine ⟨stringsContains_append _ _ _, ?_⟩
  intro hp
  rw [goQuote_plain isPrint image hp]
  have : "Deny " ++ ("\"" ++ image ++ "\"") ++ reason =
      ("Deny " ++ "\"") ++ image ++ ("\"" ++ reason) := by
    apply String.ext
    simp only [String.data_append, List.append_assoc]
  rw [this]
  exact stringsContains_append _ _ _

theorem ending_deny {env : Env} {specPath : String} {σ : Slot} {c : Container}
    {img : Reference} {policy : Policy} {allowed : Bool} {fl : Flow} {t : List Event}
    (h : Ending env specPath σ c img policy allowed fl t)
    {σ' : Slot} {msg : String} (hmem : Event.deny σ' msg ∈ t) :
    (∃ err : GoError, msg = "Trust Server/Image Configuration Error: " ++ err.Error) ∨
    ∃ reason, msg = "Deny " ++ goQuote env.isPrint img.Str ++ reason ∧
      (reason = ", no valid ImagePullSecret defined for " ++ img.GetHostname ∨
       (∃ err : GoError, reason = ", could not get signerSecret from your cluster, " ++ err.Error) ∨
       (∃ err : GoError, reason = ", failed to get content trust information: " ++ err.Error)) := by
  cases h with
  | urlError err hurl =>
    simp only [List.mem_singleton, Event.deny.injEq] at hmem
    exact Or.inl ⟨err, hmem.2⟩
  | signerError err =>
    simp only [List.mem_singleton, Event.deny.injEq] at hmem
    refine Or.inr ⟨_, ?_, Or.inr (Or.inl ⟨err, rfl⟩)⟩
    rw [hmem.2, String.append_assoc]
  | lookupDenied server token signers err hurl h401 hsrv =>
    simp only [List.mem_cons, List.mem_singleton, Event.deny.injEq, reduceCtorEq, false_or,
      List.not_mem_nil, or_false] at hmem
    refine Or.inr ⟨_, ?_, Or.inr (Or.inr ⟨err, rfl⟩)⟩
    rw [hmem.2, String.append_assoc]
  | outage server token signers err hurl h401 hsrv =>
    simp only [List.mem_cons, List.mem_singleton, Event.deny.injEq, reduceCtorEq, false_or,
      List.not_mem_nil, or_false] at hmem
    refine Or.inr ⟨_, ?_, Or.inr (Or.inr ⟨err, rfl⟩)⟩
    rw [hmem.2, String.append_assoc]
  | success server token signers digest hurl =>
    by_cases hc : stringsContains c.Image img.Str = true <;> simp [hc] at hmem
  | exhaustedDeny h =>
    simp only [List.mem_singleton, Event.deny.injEq] at hmem
    refine Or.inr ⟨_, ?_, Or.inl rfl⟩
    rw [hmem.2, String.append_assoc]
  | exhaustedSilent h => simp at hmem

theorem containerTrace_deny {env : Env} {ns specPath : String} {pod : PodSpec} {σ : Slot}
    {c : Container} {allowed : Bool} {fl : Flow} {evs : List Event}
    (h : ContainerTrace env ns specPath pod σ c allowed fl evs)
    {σ' : Slot} {msg : String} (hmem : Event.deny σ' msg ∈ evs) :
    DenialForm env ns σ c evs msg := by
  cases h with
  | parseError err =>
    simp only [List.mem_cons, List.mem_singleton, Event.deny.injEq, reduceCtorEq, false_or,
      List.not_mem_nil, or_false] at hmem
    exact Or.inl ⟨⟨err, by simp⟩, hmem.2⟩
  | policyError img err =>
    simp only [List.mem_cons, List.mem_singleton, Event.deny.injEq, reduceCtorEq, false_or,
      List.not_mem_nil, or_false] at hmem
    exact Or.inr (Or.inl ⟨img, err, by simp, by simp, hmem.2⟩)
  | notEnforced img policy h => simp at hmem
  | noSecret img policy h hs =>
    simp only [List.mem_cons, List.mem_singleton, Event.deny.injEq, reduceCtorEq, false_or,
      List.not_mem_nil, or_false] at hmem
    refine Or.inr (Or.inr (Or.inr ⟨img, _, by simp, ?_, Or.inl rfl⟩))
    rw [hmem.2, String.append_assoc]
  | attempts img policy fl q t hne hs hq ht =>
    simp only [List.mem_cons, List.mem_append, reduceCtorEq, false_or] at hmem
    rcases hmem with hmem | hmem
    · have := (quiet_props (hq _ hmem)).2.1
      simp [Event.denial] at this
    · rcases ending_deny ht hmem with ⟨err, he⟩ | ⟨reason, hr, h1 | h1 | h1⟩
      · exact Or.inr (Or.inr (Or.inl ⟨img, err, by simp, he⟩))
      · exact Or.inr (Or.inr (Or.inr ⟨img, reason, by simp, hr, Or.inr (Or.inl h1)⟩))
      · exact Or.inr (Or.inr (Or.inr ⟨img, reason, by simp, hr, Or.inr (Or.inr (Or.inl h1))⟩))
      · exact Or.inr (Or.inr (Or.inr ⟨img, reason, by simp, hr, Or.inr (Or.inr (Or.inr h1))⟩))

/-- C16, counterexample. The image `registry.example.com/hello` has trust
enabled, no trust server in its policy, and no default trust server: the
denial recorded for the container is `Trust Server/Image Configuration Error:
no default trust server`, which does not contain the image string. -/
theorem mutatePodSpec_denial_without_image :
    (mutatePodSpecLog envNoTrustURL "default" "/spec" podHello).drop 2 =
      [Event.deny ⟨"containers", 0⟩
        "Trust Server/Image Configuration Error: no default trust server"] ∧
    (noURLReference "registry.example.com/hello").toOption.map Reference.Str =
      some "registry.example.com/hello" ∧
    stringsContains "Trust Server/Image Configuration Error: no default trust server"
      "registry.example.com/hello" = false ∧
    (mutatePodSpec envNoTrustURL "default" "/spec" podHello).Message =
      some "\nTrust Server/Image Configuration Error: no default trust server" := by
  refine ⟨by rfl, by rfl, by rfl, by rfl⟩

/-- C16, amended. Each denial recorded for a container has one of these
forms: `Deny <%q of the raw image>, invalid image name` for a parse failure;
the text of the policy client's error for a policy-resolution error;
`Trust Server/Image Configuration Error: <error>` for a trust-server URL
resolution error; `Deny <%q of the canonical image string><reason>` for no
pull secret, secret exhaustion, signer-secret failure and lookup failure.  A
message of a `Deny` form contains the quoted image string, and the image
string itself when it is made of printable ASCII characters other than the
double quote and the backslash. -/
theorem mutatePodSpec_denial_forms (env : Env) (ns specPath : String) (pod : PodSpec)
    (σ : Slot) (msg : String)
    (h : Event.deny σ msg ∈ mutatePodSpecLog env ns specPath pod) :
    ∃ c, containerAt pod σ = some c ∧
      DenialForm env ns σ c (mutatePodSpecLog env ns specPath pod) msg ∧
      (∀ image reason, msg = "Deny " ++ goQuote env.isPrint image ++ reason →
        stringsContains msg (goQuote env.isPrint image) = true ∧
        (plainString image = true → stringsContains msg image = true)) := by
  have hin : Event.deny σ msg ∈ slotEvents (mutatePodSpecLog env ns specPath pod) σ :=
    mem_slotEvents.mpr ⟨h, rfl⟩
  rcases run_slotEvents env ns specPath pod σ with h0 | ⟨c, a, fl, hc, htr⟩
  · rw [h0] at hin
    exact absurd hin (List.not_mem_nil _)
  · have hsub : ∀ e, e ∈ slotEvents (mutatePodSpecLog env ns specPath pod) σ →
        e ∈ mutatePodSpecLog env ns specPath pod := fun e he => (mem_slotEvents.mp he).1
    refine ⟨c, hc, ?_, ?_⟩
    · rcases containerTrace_deny htr hin with ⟨⟨err, h1⟩, h2⟩ | ⟨img, err, h1, h2, h3⟩ |
        ⟨img, err, h1, h2⟩ | ⟨img, reason, h1, h2, h3⟩
      · exact Or.inl ⟨⟨err, hsub _ h1⟩, h2⟩
      · exact Or.inr (Or.inl ⟨img, err, hsub _ h1, hsub _ h2, h3⟩)
      · exact Or.inr (Or.inr (Or.inl ⟨img, err, hsub _ h1, h2⟩))
      · exact Or.inr (Or.inr (Or.inr ⟨img, reason, hsub _ h1, h2, h3⟩))
    · intro image reason hm
      rw [hm]
      exact deny_names_image env.isPrint image reason

/-- Instance of C16 as amended: the denial of an invalid image name. -/
theorem mutatePodSpec_denial_forms_witness :
    Event.deny ⟨"containers", 0⟩ "Deny \"registry.example.com/?\", invalid image name" ∈
      mutatePodSpecLog envSigned "default" "/spec" podInvalidFirst ∧
    ∃ c, containerAt podInvalidFirst ⟨"containers", 0⟩ = some c := by
  have hmem : Event.deny ⟨"containers", 0⟩ "Deny \"registry.example.com/?\", invalid image name" ∈
      mutatePodSpecLog envSigned "default" "/spec" podInvalidFirst :=
    List.get?_mem (n := 1) (by rfl)
  obtain ⟨c, hc, -⟩ := mutatePodSpec_denial_forms envSigned "default" "/spec" podInvalidFirst
    ⟨"containers", 0⟩ _ hmem
  exact ⟨hmem, c, hc⟩

/-! ## C18: errors of the unauthorized class -/

theorem afterUnauthorized_of_init (x : String) (l : List Event)
    (h : ∀ e ∈ l.dropLast, e.isUnauthorized = false) : afterUnauthorized x l = true := by
  induction l with
  | nil => rfl
  | cons e l ih =>
    cases l with
    | nil => rfl
    | cons e' rest =>
      simp only [List.dropLast_cons₂, List.mem_cons, forall_eq_or_imp] at h
      simp only [afterUnauthorized, h.1, Bool.not_false, Bool.true_or, Bool.true_and]
      exact ih h.2

theorem afterUnauthorized_append (x : String) (a b : List Event)
    (ha : afterUnauthorized x a = true) (hb : afterUnauthorized x b = true)
    (hab : ∀ e e', a.getLast? = some e → b.head? = some e' → e.isUnauthorized = true →
      e'.startsNext x = true) :
    afterUnauthorized x (a ++ b) = true := by
  induction a with
  | nil => exact hb
  | cons e a ih =>
    cases a with
    | nil =>
      cases b with
      | nil => rfl
      | cons e' b' =>
        simp only [List.singleton_append, afterUnauthorized, Bool.and_eq_true, Bool.or_eq_true,
          Bool.not_eq_true']
        refine ⟨?_, hb⟩
        by_cases h401 : e.isUnauthorized = true
        · exact Or.inr (hab e e' rfl rfl h401)
        · exact Or.inl (by simpa using h401)
    | cons e2 a' =>
      simp only [afterUnauthorized, Bool.and_eq_true] at ha
      simp only [List.cons_append, afterUnauthorized, Bool.and_eq_true]
      refine ⟨ha.1, ?_⟩
      apply ih ha.2
      intro y y' hy hy' h401
      exact hab y y' (by simpa [List.getLast?_cons_cons] using hy) hy' h401

theorem afterUnauthorized_next (x : String) (l pre post : List Event) (e e' : Event)
    (h : afterUnauthorized x l = true) (hl : l = pre ++ e :: e' :: post)
    (h401 : e.isUnauthorized = true) : e'.startsNext x = true := by
  subst hl
  induction pre with
  | nil =>
    simp only [List.nil_append, afterUnauthorized, h401, Bool.not_true, Bool.false_or,
      Bool.and_eq_true] at h
    exact h.1
  | cons y pre ih =>
    obtain ⟨z, zs, hz⟩ : ∃ z zs, pre ++ e :: e' :: post = z :: zs := by
      cases pre with
      | nil => exact ⟨_, _, rfl⟩
      | cons y' pre' => exact ⟨_, _, rfl⟩
    rw [List.cons_append, hz] at h
    simp only [afterUnauthorized, Bool.and_eq_true] at h
    rw [← hz] at h
    exact ih h.2

theorem signerLoop_log (env : Env) (ns : String) (σ : Slot) (secrets : List SecretRef)
    (signers : List Signer) (s : St) :
    ∃ q, (signerLoop env ns σ secrets signers s).2.log = s.log ++ q ∧
      ∀ e ∈ q, e.isUnauthorized = false := by
  induction secrets generalizing signers s with
  | nil => exact ⟨[], by simp [signerLoop], by simp⟩
  | cons secretName rest ih =>
    simp only [signerLoop]
    cases hr : env.getSignerSecret s.log ns secretName.Name with
    | error err =>
      exact ⟨[Event.getSignerSecret σ ns secretName.Name (Except.error err)], rfl,
        by simp [Event.isUnauthorized]⟩
    | ok signer =>
      obtain ⟨q, hq, hno⟩ := ih (signers ++ [signer])
        (s.record (Event.getSignerSecret σ ns secretName.Name (Except.ok signer)))
      refine ⟨Event.getSignerSecret σ ns secretName.Name (Except.ok signer) :: q, ?_, ?_⟩
      · rw [hq]
        simp only [St.record, List.append_assoc, List.singleton_append]
      · intro e he
        rcases List.mem_cons.mp he with rfl | he
        · rfl
        · exact hno e he

theorem resolveSigners_log (env : Env) (ns : String) (σ : Slot) (policy : Policy) (s : St) :
    ∃ q, (resolveSigners env ns σ policy s).2.log = s.log ++ q ∧
      ∀ e ∈ q, e.isUnauthorized = false := by
  unfold resolveSigners
  cases policy.Trust.SignerSecrets with
  | none => exact ⟨[], by simp, by simp⟩
  | some secrets =>
    obtain ⟨q, hq, hno⟩ := signerLoop_log env ns σ secrets [] s
    refine ⟨q, ?_, hno⟩
    simp only
    rcases hsl : signerLoop env ns σ secrets [] s with ⟨r, s1⟩
    rw [hsl] at hq
    cases r <;> simpa using hq

/-- The events of one pass of the body of `secretLoop` when the trust server
resolves: they start with the credentials call, and a lookup rejected as
unauthorized can only be the last of them, in which case the loop goes on. -/
theorem secretBody_log (env : Env) (ns specPath : String) (σ : Slot) (container : Container)
    (img : Reference) (policy : Policy) (secret : SecretRef) (s : St) (server : String)
    (hurl : notaryURL policy img = Except.ok server) :
    ∃ e rest, (secretBody env ns specPath σ container img policy secret s).2.log =
        s.log ++ e :: rest ∧
      e.startsNext (exhaustedMessage env img) = true ∧
      (∀ x ∈ (e :: rest).dropLast, x.isUnauthorized = false) ∧
      ((secretBody env ns specPath σ container img policy secret s).1 ≠
          SecretFlow.continueSecretLoop →
        ∀ x ∈ e :: rest, x.isUnauthorized = false) := by
  unfold secretBody
  simp only [hurl]
  cases h1 : env.GetSecretToken s.log ns secret.Name img.GetHostname with
  | error err =>
    exact ⟨Event.GetSecretToken σ ns secret.Name img.GetHostname (Except.error err), [], rfl,
      rfl, by simp, by simp⟩
  | ok up =>
    obtain ⟨username, password⟩ := up
    simp only
    generalize hg : Event.GetSecretToken σ ns secret.Name img.GetHostname
      (Except.ok (username, password)) = g
    have hgs : g.startsNext (exhaustedMessage env img) = true := by rw [← hg]; rfl
    have hgu : g.isUnauthorized = false := by rw [← hg]; rfl
    generalize hs1 : s.record g = s1
    have e1 : s1.log = s.log ++ [g] := by rw [← hs1]; rfl
    cases h2 : env.GetContentTrustToken s1.log username password img.NameWithoutTag
        img.GetRegistryURL with
    | error err =>
      refine ⟨g, [Event.GetContentTrustToken σ username password img.NameWithoutTag
        img.GetRegistryURL (Except.error err)], ?_, hgs, ?_, by simp⟩
      · simp only [St.record, e1, List.append_assoc, List.singleton_append]
      · simp [hgu]
    | ok notaryToken =>
      simp only
      generalize hs2 : s1.record (Event.GetContentTrustToken σ username password
        img.NameWithoutTag img.GetRegistryURL (Except.ok notaryToken)) = s2
      have e2 : s2.log = s.log ++ [g,
        Event.GetContentTrustToken σ username password img.NameWithoutTag img.GetRegistryURL
          (Except.ok notaryToken)] := by
        rw [← hs2]; simp only [St.record, e1, List.append_assoc, List.singleton_append]
      obtain ⟨qs, hqs, hno⟩ := resolveSigners_log env ns σ policy s2
      rcases hrs : resolveSigners env ns σ policy s2 with ⟨rs, s3⟩
      rw [hrs] at hqs
      simp only at hqs
      generalize hQ : Event.GetContentTrustToken σ username password img.NameWithoutTag
        img.GetRegistryURL (Except.ok notaryToken) :: qs = Q
      have e3 : s3.log = s.log ++ g :: Q := by
        rw [hqs, e2, ← hQ]; simp
      have hQno : ∀ x ∈ g :: Q, x.isUnauthorized = false := by
        intro x hx
        rw [← hQ] at hx
        simp only [List.mem_cons] at hx
        rcases hx with rfl | rfl | hx
        · exact hgu
        · rfl
        · exact hno x hx
      have hdrop : ∀ (y : Event), ∀ x ∈ (g :: (Q ++ [y])).dropLast,
          x.isUnauthorized = false := by
        intro y x hx
        have : (g :: (Q ++ [y])).dropLast = g :: Q := by
          rw [← List.cons_append, List.dropLast_concat]
        rw [this] at hx
        exact hQno x hx
      cases rs with
      | error err =>
        refine ⟨g, Q ++ [Event.deny σ ("Deny " ++ goQuote env.isPrint img.Str ++
          ", could not get signerSecret from your cluster, " ++ err.Error)], ?_, hgs,
          hdrop _, ?_⟩
        · simp only [St.deny, e3, List.append_assoc, List.cons_append]
        · intro _ x hx
          simp only [List.mem_cons, List.mem_append, List.mem_singleton,
            List.not_mem_nil, or_false] at hx
          rcases hx with rfl | hx | rfl
          · exact hgu
          · exact hQno x (List.mem_cons_of_mem _ hx)
          · rfl
      | ok signers =>
        simp only
        cases h4 : env.getDigest s3.log server img.NameWithoutTag notaryToken img.GetTag
            signers with
        | error err =>
          simp only
          by_cases h401 : stringsContains err.Error "401" = true
          · simp only [h401, if_true]
            refine ⟨g, Q ++ [Event.getDigest σ server img.NameWithoutTag notaryToken
              img.GetTag signers (Except.error err)], ?_, hgs, hdrop _, ?_⟩
            · simp only [St.record, e3, List.append_assoc, List.cons_append]
            · intro hne
              exact absurd rfl hne
          · have h401f : stringsContains err.Error "401" = false := by simpa using h401
            simp only [h401f, Bool.false_eq_true, if_false]
            have hnone : ∀ x ∈ g ::
                (Q ++ [Event.getDigest σ server img.NameWithoutTag notaryToken
                  img.GetTag signers (Except.error err),
                Event.deny σ ("Deny " ++ goQuote env.isPrint img.Str ++
                  ", failed to get content trust information: " ++ err.Error)]),
                x.isUnauthorized = false := by
              intro x hx
              simp only [List.mem_cons, List.mem_append, List.mem_singleton,
                List.not_mem_nil, or_false] at hx
              rcases hx with rfl | hx | rfl | rfl
              · exact hgu
              · exact hQno x (List.mem_cons_of_mem _ hx)
              · simp [Event.isUnauthorized, h401f]
              · rfl
            refine ⟨g, Q ++ [Event.getDigest σ server img.NameWithoutTag notaryToken
                  img.GetTag signers (Except.error err),
                Event.deny σ ("Deny " ++ goQuote env.isPrint img.Str ++
                  ", failed to get content trust information: " ++ err.Error)], ?_, hgs,
              fun x hx => hnone x (List.mem_of_mem_dropLast hx), fun _ => hnone⟩
            by_cases hsrv : err.serverUnavailable = true
            · simp only [hsrv, if_true, St.deny, St.record, e3, List.append_assoc,
                List.cons_append, List.singleton_append, List.nil_append]
            · have hsrvf : err.serverUnavailable = false := by simpa using hsrv
              simp only [hsrvf, Bool.false_eq_true, if_false, St.deny, St.record, e3,
                List.append_assoc, List.cons_append, List.singleton_append, List.nil_append]
        | ok digest =>
          simp only
          have hnone : ∀ x ∈ g ::
              (Q ++ (Event.getDigest σ server img.NameWithoutTag notaryToken
                img.GetTag signers (Except.ok digest) ::
                successTail specPath σ container img digest)),
              x.isUnauthorized = false := by
            intro x hx
            simp only [List.mem_cons, List.mem_append] at hx
            rcases hx with rfl | hx | rfl | hx
            · exact hgu
            · exact hQno x (List.mem_cons_of_mem _ hx)
            · rfl
            · unfold successTail at hx
              by_cases hc : stringsContains container.Image img.Str = true
              · simp only [hc, if_true, List.singleton_append, List.mem_cons, List.mem_singleton,
                  List.not_mem_nil, or_false] at hx
                rcases hx with rfl | rfl <;> rfl
              · simp only [hc, if_false, List.nil_append, List.mem_singleton,
                  Bool.false_eq_true] at hx
                rw [hx]; rfl
          refine ⟨g, Q ++ (Event.getDigest σ server img.NameWithoutTag notaryToken
                img.GetTag signers (Except.ok digest) ::
                successTail specPath σ container img digest), ?_, hgs,
            fun x hx => hnone x (List.mem_of_mem_dropLast hx), fun _ => hnone⟩
          rw [onDigest_eq, emitAll_log]
          simp only [St.record, e3, successTail, List.append_assoc, List.cons_append,
            List.nil_append, List.singleton_append]

theorem secretLoop_log (env : Env) (ns specPath : String) (σ : Slot) (container : Container)
    (img : Reference) (policy : Policy) (server : String)
    (hurl : notaryURL policy img = Except.ok server) (secrets : List SecretRef) (s : St) :
    ∃ evs, (secretLoop env ns specPath σ container img policy secrets s).2.log = s.log ++ evs ∧
      afterUnauthorized (exhaustedMessage env img) evs = true ∧
      ∀ e', evs.head? = some e' → e'.startsNext (exhaustedMessage env img) = true := by
  induction secrets generalizing s with
  | nil =>
    simp only [secretLoop, AdmissionResponder.IsAllowed]
    by_cases hal : s.a.allowed = true
    · simp only [hal, Bool.not_true, Bool.false_eq_true, if_false]
      exact ⟨[], by simp, rfl, by simp⟩
    · have half : s.a.allowed = false := by simpa using hal
      simp only [half, Bool.not_false, if_true]
      refine ⟨[Event.deny σ (exhaustedMessage env img)], rfl, rfl, ?_⟩
      intro e' he'
      simp only [List.head?_cons, Option.some.injEq] at he'
      rw [← he']
      simp [Event.startsNext]
  | cons secret rest ih =>
    obtain ⟨e, tl, hlog, hes, hdrop, hnone⟩ :=
      secretBody_log env ns specPath σ container img policy secret s server hurl
    obtain ⟨q1, t1, -, -, hspec⟩ :=
      secretBody_trace env ns specPath σ container img policy secret s.a.allowed s
    simp only [secretLoop]
    rcases hb : secretBody env ns specPath σ container img policy secret s with ⟨fl, s1⟩
    rw [hb] at hlog hnone hspec
    simp only at hlog hnone
    have hhead : ∀ (l : List Event) (e' : Event), (e :: l).head? = some e' →
        e'.startsNext (exhaustedMessage env img) = true := by
      intro l e' he'
      simp only [List.head?_cons, Option.some.injEq] at he'
      rw [← he']; exact hes
    cases fl with
    | continueSecretLoop =>
      obtain ⟨evs, h2, hafter, hnext⟩ := ih s1
      refine ⟨(e :: tl) ++ evs, ?_, ?_, hhead _⟩
      · rw [h2, hlog, List.append_assoc]
      · apply afterUnauthorized_append _ _ _ (afterUnauthorized_of_init _ _ hdrop) hafter
        intro y y' _ hy' _
        exact hnext y' hy'
    | continueContainerLoop =>
      exact ⟨e :: tl, hlog, afterUnauthorized_of_init _ _ hdrop, hhead _⟩
    | returnFlush =>
      exact ⟨e :: tl, hlog, afterUnauthorized_of_init _ _ hdrop, hhead _⟩
    | breakSecretLoop =>
      simp only [SecretBodySpec] at hspec
      simp only [AdmissionResponder.IsAllowed, hspec.2, Bool.not_true, Bool.false_eq_true,
        if_false]
      exact ⟨e :: tl, hlog, afterUnauthorized_of_init _ _ hdrop, hhead _⟩

theorem ending_not_unauthorized {env : Env} {specPath : String} {σ : Slot} {c : Container}
    {img : Reference} {policy : Policy} {allowed : Bool} {fl : Flow} {t : List Event}
    (h : Ending env specPath σ c img policy allowed fl t) :
    ∀ e ∈ t, e.isUnauthorized = false := by
  cases h with
  | urlError err hurl => simp [Event.isUnauthorized]
  | signerError err => simp [Event.isUnauthorized]
  | lookupDenied server token signers err hurl h401 hsrv => simp [Event.isUnauthorized, h401]
  | outage server token signers err hurl h401 hsrv => simp [Event.isUnauthorized, h401]
  | success server token signers digest hurl =>
    by_cases hc : stringsContains c.Image img.Str = true <;> simp [hc, Event.isUnauthorized]
  | exhaustedDeny h => simp [Event.isUnauthorized]
  | exhaustedSilent h => simp

/-- The events of a container that hold a lookup rejected as unauthorized. -/
theorem containerTrace_after {env : Env} {ns specPath : String} {pod : PodSpec} {σ : Slot}
    {c : Container} {allowed : Bool} {fl : Flow} {evs : List Event}
    (h : ContainerTrace env ns specPath pod σ c allowed fl evs)
    (hex : ∃ e ∈ evs, e.isUnauthorized = true) :
    ∃ img rest, evs = Event.NewReference σ c.Image (Except.ok img) :: rest ∧
      afterUnauthorized (exhaustedMessage env img) evs = true := by
  obtain ⟨e, he, h401⟩ := hex
  cases h with
  | parseError err =>
    simp only [List.mem_cons, List.mem_singleton, List.not_mem_nil, or_false] at he
    rcases he with rfl | rfl <;> simp [Event.isUnauthorized] at h401
  | policyError img err =>
    simp only [List.mem_cons, List.mem_singleton, List.not_mem_nil, or_false] at he
    rcases he with rfl | rfl | rfl <;> simp [Event.isUnauthorized] at h401
  | notEnforced img policy h =>
    simp only [List.mem_cons, List.mem_singleton, List.not_mem_nil, or_false] at he
    rcases he with rfl | rfl | rfl <;> simp [Event.isUnauthorized] at h401
  | noSecret img policy h hs =>
    simp only [List.mem_cons, List.mem_singleton, List.not_mem_nil, or_false] at he
    rcases he with rfl | rfl | rfl <;> simp [Event.isUnauthorized] at h401
  | attempts img policy fl q t hne hs hq ht hrun =>
    refine ⟨img, _, rfl, ?_⟩
    have hurl : ∃ server, notaryURL policy img = Except.ok server := by
      simp only [List.mem_cons, List.mem_append] at he
      rcases he with rfl | rfl | he | he
      · simp [Event.isUnauthorized] at h401
      · simp [Event.isUnauthorized] at h401
      · cases hq e he with
        | secretToken => simp [Event.isUnauthorized] at h401
        | trustToken => simp [Event.isUnauthorized] at h401
        | signer => simp [Event.isUnauthorized] at h401
        | unauthorized server token signers err hurl _ => exact ⟨server, hurl⟩
      · rw [ending_not_unauthorized ht e he] at h401
        exact absurd h401 (by decide)
    obtain ⟨server, hurl⟩ := hurl
    obtain ⟨s, hs'⟩ := hrun
    obtain ⟨evs', hlog, hafter, -⟩ :=
      secretLoop_log env ns specPath σ c img policy server hurl pod.ImagePullSecrets s
    have heq : evs' = q ++ t := List.append_cancel_left (hlog.symm.trans hs')
    rw [heq] at hafter
    have := afterUnauthorized_append (exhaustedMessage env img)
      [Event.NewReference σ c.Image (Except.ok img),
        Event.GetPolicyToEnforce σ ns img.Str (Except.ok (some policy))] (q ++ t)
      (by rfl) hafter
      (by
        intro y y' hy _ hy401
        simp only [List.getLast?_cons_cons, List.getLast?_singleton, Option.some.injEq] at hy
        rw [← hy] at hy401
        simp [Event.isUnauthorized] at hy401)
    simpa using this

/-- C18. Whenever the text of the error of a trust lookup contains `401`,
whether or not the error is of the server-unavailable type, the event that
follows it for the container, if any, is the `GetSecretToken` call of the
next pull secret or the denial of exhausted pull secrets: no denial is
recorded for the attempt and the evaluation is not ended.  When no lookup of
the container failed with a server-unavailable error without `401` in its
text, the image of the next container of the pod, if there is one, is
parsed. -/
theorem mutatePodSpec_unauthorized_retries (env : Env) (ns specPath : String) (pod : PodSpec)
    (σ : Slot) (pre post : List Event) (server repo token tag : String)
    (signers : Option (List Signer)) (err : GoError)
    (h : slotEvents (mutatePodSpecLog env ns specPath pod) σ =
      pre ++ Event.getDigest σ server repo token tag signers (Except.error err) :: post)
    (h401 : stringsContains err.Error "401" = true) :
    ∃ c img, containerAt pod σ = some c ∧
      Event.NewReference σ c.Image (Except.ok img) ∈ pre ∧
      (∀ e' rest, post = e' :: rest →
        (∃ σ' ns' secret hostname r, e' = Event.GetSecretToken σ' ns' secret hostname r) ∨
        (∃ σ', e' = Event.deny σ' ("Deny " ++ goQuote env.isPrint img.Str ++
          ", no valid ImagePullSecret defined for " ++ img.GetHostname))) ∧
      ((∀ x ∈ slotEvents (mutatePodSpecLog env ns specPath pod) σ, x.isOutage = false) →
        ∀ τ, nextSlot pod σ = some τ → ∃ c' res, containerAt pod τ = some c' ∧
          Event.NewReference τ c'.Image res ∈ mutatePodSpecLog env ns specPath pod) := by
  have hg : (Event.getDigest σ server repo token tag signers (Except.error err)).isUnauthorized
      = true := h401
  rcases run_slotEvents env ns specPath pod σ with h0 | ⟨c, a, fl, hc, htr⟩
  · rw [h0] at h
    simp at h
  · obtain ⟨img, tl, hevs, hafter⟩ := containerTrace_after htr ⟨_, by rw [h]; simp, hg⟩
    refine ⟨c, img, hc, ?_, ?_, ?_⟩
    · rw [h] at hevs
      cases pre with
      | nil => simp at hevs
      | cons y pre' =>
        simp only [List.cons_append, List.cons.injEq] at hevs
        rw [hevs.1]
        exact List.mem_cons_self _ _
    · intro e' rest hpost
      have hn := afterUnauthorized_next _ _ pre rest _ e' hafter (by rw [h, hpost]) hg
      cases e' with
      | GetSecretToken σ' ns' secret hostname r => exact Or.inl ⟨σ', ns', secret, hostname, r, rfl⟩
      | deny σ' msg =>
        simp only [Event.startsNext, decide_eq_true_eq] at hn
        exact Or.inr ⟨σ', by rw [hn]; rfl⟩
      | _ => simp [Event.startsNext] at hn
    · intro hno τ hτ
      exact run_continues env ns specPath pod σ τ (by rw [h]; simp) hno hτ

/-- Instance of C18: the trust lookup fails with a server-unavailable error
whose text contains `401`; both pull secrets are tried for both containers. -/
theorem mutatePodSpec_unauthorized_retries_witness :
    slotEvents (mutatePodSpecLog envUnavailable401 "default" "/spec" podTwoSecrets)
        ⟨"containers", 0⟩ =
      (slotEvents (mutatePodSpecLog envUnavailable401 "default" "/spec" podTwoSecrets)
        ⟨"containers", 0⟩).take 4 ++
      Event.getDigest ⟨"containers", 0⟩ "https://registry.example.com:4443"
        "registry.example.com/hello" "token" "latest" none (Except.error errUnavailable401) ::
      (slotEvents (mutatePodSpecLog envUnavailable401 "default" "/spec" podTwoSecrets)
        ⟨"containers", 0⟩).drop 5 ∧
    stringsContains errUnavailable401.Error "401" = true ∧
    errUnavailable401.serverUnavailable = true ∧
    (mutatePodSpecLog envUnavailable401 "default" "/spec" podTwoSecrets).countP
      Event.isGetDigest = 4 ∧
    ∃ c, containerAt podTwoSecrets ⟨"containers", 0⟩ = some c := by
  refine ⟨by rfl, by rfl, by rfl, by rfl, ?_⟩
  obtain ⟨c, img, hc, -⟩ :=
    mutatePodSpec_unauthorized_retries envUnavailable401 "default" "/spec" podTwoSecrets
      ⟨"containers", 0⟩
      ((slotEvents (mutatePodSpecLog envUnavailable401 "default" "/spec" podTwoSecrets)
        ⟨"containers", 0⟩).take 4)
      ((slotEvents (mutatePodSpecLog envUnavailable401 "default" "/spec" podTwoSecrets)
        ⟨"containers", 0⟩).drop 5)
      "https://registry.example.com:4443" "registry.example.com/hello" "token" "latest" none
      errUnavailable401 (by rfl) (by rfl)
  exact ⟨c, hc⟩

end Notary
